import Mathlib

/-!
Verification development for the injection engine of `src/nvc_mount.c`
(libnvidia-container).  The engine is shallowly embedded: every C function
of `nvc_mount.c` becomes a Lean function that threads a fault oracle
(`Oracle`): each fallible primitive (path resolution, file creation,
mount syscalls, allocation, cgroup writes, ...) consumes one oracle index
and fails exactly when the oracle says so.  Side effects are recorded as an
event trace (`Ev`), from which the final filesystem / mount / namespace
state is computed by interpretation functions (`mountsAfter`, `filesAfter`,
`nsAfter`).

Modelling conventions (documented per definition below):
* helpers that live outside `src/` (path_resolve, file_create, file_mode,
  file_read_text, match_binary_flags / match_library_flags, strrcmp,
  strpcmp, nsenter / nsenterat, the NV_* constants, validate_context /
  validate_args) are modelled from the spec, and say so in their doc
  comments;
* libc functions (basename, dirname, strstr, strtoumax, major / minor)
  are modelled after their documented C semantics;
* machine integers are `Nat` with explicit `% 2 ^ 64` where the C code
  works in `uint64_t` / `uintmax_t`;
* reading a host file fails with ENOENT exactly when it is absent from the
  host map; other read failures are driven by the oracle on present files;
* the final `nsenterat` back to the caller namespace is modelled as
  effective when it is executed: on the error path its failure is
  process-fatal in the C code (`assert_func`), hence not a terminating
  execution.
-/

/-- Fault oracle: `O c = true` means the `c`-th fallible primitive of the
run fails. -/
abbrev Oracle := Nat → Bool

/-- Events the engine emits.  They mirror the observable side effects of
`nvc_mount.c`: namespace switches, mount syscalls, file creations and
removals, symlink creations, and devices-cgroup writes. -/
inductive Ev where
  | enterNs (ns : Nat)
  | exitNs (ns : Nat)
  | bindMount (src dst : String)
  | tmpfsMount (dst : String)
  | remount (dst : String) (flags : Nat)
  | umountDetach (dst : String)
  | fileCreate (path : String) (content : Option String)
  | fileRemove (path : String)
  | symlinkCreate (path target : String)
  | cgroupWrite (path : String) (majorNum minorNum : Nat)
deriving DecidableEq

/-- Error kinds of the engine, following section 7 of the spec: `fault` is
any oracle-injected primitive failure, `invalidArg` a validation failure,
`invalidState` a device-id mismatch or malformed app profile. -/
inductive Err where
  | fault
  | invalidArg
  | invalidState
deriving DecidableEq

/-- Linux mount flag `MS_RDONLY`. -/
def MS_RDONLY : Nat := 1
/-- Linux mount flag `MS_NOSUID`. -/
def MS_NOSUID : Nat := 2
/-- Linux mount flag `MS_NODEV`. -/
def MS_NODEV : Nat := 4
/-- Linux mount flag `MS_NOEXEC`. -/
def MS_NOEXEC : Nat := 8
/-- Linux mount flag `MS_REMOUNT`. -/
def MS_REMOUNT : Nat := 32
/-- Linux mount flag `MS_BIND`. -/
def MS_BIND : Nat := 4096

/-- Remount flags used for library/binary files in `mount_files`
(`MS_BIND|MS_REMOUNT | MS_RDONLY|MS_NODEV|MS_NOSUID`, nvc_mount.c:69). -/
def fileRemountFlags : Nat := MS_BIND ||| MS_REMOUNT ||| MS_RDONLY ||| MS_NODEV ||| MS_NOSUID

/-- Remount flags used for device nodes in `mount_device`
(`MS_BIND|MS_REMOUNT | MS_RDONLY|MS_NOSUID|MS_NOEXEC`, nvc_mount.c:101). -/
def devRemountFlags : Nat := MS_BIND ||| MS_REMOUNT ||| MS_RDONLY ||| MS_NOSUID ||| MS_NOEXEC

/-- Remount flags used for IPC sockets in `mount_ipc`
(`MS_BIND|MS_REMOUNT | MS_NODEV|MS_NOSUID|MS_NOEXEC`, nvc_mount.c:129). -/
def ipcRemountFlags : Nat := MS_BIND ||| MS_REMOUNT ||| MS_NODEV ||| MS_NOSUID ||| MS_NOEXEC

/-- Remount flags used for per-GPU procfs dirs in `mount_procfs_gpu`
(`MS_BIND|MS_REMOUNT | MS_RDONLY|MS_NODEV|MS_NOSUID|MS_NOEXEC`,
nvc_mount.c:285). -/
def gpuRemountFlags : Nat := MS_BIND ||| MS_REMOUNT ||| MS_RDONLY ||| MS_NODEV ||| MS_NOSUID ||| MS_NOEXEC

/-- Remount flags used for the tmpfs roots in `mount_procfs` and
`mount_app_profile` (`MS_BIND|MS_REMOUNT | MS_NODEV|MS_NOSUID|MS_NOEXEC`,
nvc_mount.c:155 and 251). -/
def tmpfsRemountFlags : Nat := MS_BIND ||| MS_REMOUNT ||| MS_NODEV ||| MS_NOSUID ||| MS_NOEXEC

/-- The set of class-specific remount masks of the flag table (spec 4.C). -/
def classRemountFlags : List Nat :=
  [fileRemountFlags, devRemountFlags, ipcRemountFlags, gpuRemountFlags, tmpfsRemountFlags]

/-- Container option flag (options.h). -/
def OPT_NO_CGROUPS : Nat := 4
/-- Container option flag (options.h). -/
def OPT_NO_DEVBIND : Nat := 8
/-- Container option flag (options.h). -/
def OPT_UTILITY_LIBS : Nat := 16
/-- Container option flag (options.h). -/
def OPT_COMPUTE_LIBS : Nat := 32
/-- Container option flag (options.h). -/
def OPT_VIDEO_LIBS : Nat := 64
/-- Container option flag (options.h). -/
def OPT_GRAPHICS_LIBS : Nat := 128
/-- Container option flag (options.h). -/
def OPT_UTILITY_BINS : Nat := 256
/-- Container option flag (options.h). -/
def OPT_COMPUTE_BINS : Nat := 512
/-- Container option flag (options.h, non-ppc64le value). -/
def OPT_COMPAT32 : Nat := 1024

/-- Test of a C flag bit: `flags & f` is nonzero. -/
def hasFlag (flags f : Nat) : Bool := flags &&& f != 0

/-- Modelled from the spec: constant `NV_DEVICE_MAJOR` (the fixed NVIDIA
device major, 195), declared in nvc_internal.h which is not under src/. -/
def NV_DEVICE_MAJOR : Nat := 195

/-- Modelled from the spec: constant `NV_PROC_DRIVER`
(`/proc/driver/nvidia`), declared in nvc_internal.h which is not under
src/. -/
def NV_PROC_DRIVER : String := "/proc/driver/nvidia"

/-- Modelled from the spec: constant `NV_APP_PROFILE_DIR`
(spec 4.E: `/usr/share/nvidia/nvidia-application-profiles-rc.d`), declared
in nvc_internal.h which is not under src/. -/
def NV_APP_PROFILE_DIR : String := "/usr/share/nvidia/nvidia-application-profiles-rc.d"

/-- Modelled from the spec: constant `NV_PERSISTENCED_SOCKET` (the
persistence daemon AF_UNIX socket path), declared in nvc.h which is not
under src/. -/
def NV_PERSISTENCED_SOCKET : String := "/var/run/nvidia-persistenced/socket"

/-- glibc `gnu_dev_major` of a dev_t encoded as a 64-bit `Nat`. -/
def majorOf (id : Nat) : Nat := ((id >>> 8) &&& 0xfff) ||| ((id >>> 32) &&& 0xfffff000)

/-- glibc `gnu_dev_minor` of a dev_t encoded as a 64-bit `Nat`. -/
def minorOf (id : Nat) : Nat := (id &&& 0xff) ||| ((id >>> 12) &&& 0xfff00)

/-- glibc `gnu_dev_makedev`. -/
def makedevOf (ma mi : Nat) : Nat :=
  (mi &&& 0xff) ||| ((ma &&& 0xfff) <<< 8) ||| ((mi >>> 8) <<< 20) ||| ((ma >>> 12) <<< 44)

/-- Character-level worker for `basename`: the characters after the last
slash. -/
def basenameAux : List Char → List Char → List Char
  | [], acc => acc
  | c :: cs, acc => if c = '/' then basenameAux cs [] else basenameAux cs (acc ++ [c])

/-- GNU `basename` (string function version, as selected by the
`#undef basename` in nvc_mount.c): everything after the last slash. -/
def basename (p : String) : String := ⟨basenameAux p.data []⟩

/-- POSIX `dirname`, restricted to the shapes the engine passes it
(resolved absolute paths without trailing slash): everything before the
last slash, `.` when there is none, `/` when the last slash is leading. -/
def dirname (p : String) : String :=
  match (p.data.reverse).dropWhile (fun c => !(c = '/')) with
  | [] => "."
  | _ :: tl => if tl = [] then "/" else ⟨tl.reverse⟩

/-- String prefix test on the character lists (the byte-level
`String.isPrefixOf` of core does not reduce in the kernel). -/
def isPrefixOfS (p s : String) : Bool := p.data.isPrefixOf s.data

/-- Modelled from the spec (4.A): `path_resolve(rootfs, sub)` produces the
path of `sub` inside `rootfs`.  path_resolve lives in utils.c which is not
under src/; normalization and escape rejection are not needed by the
claims, and resolution failure is driven by the oracle at the call
sites. -/
def pathResolve (rootfs sub : String) : String := rootfs ++ sub

/-- Modelled from the spec (4.B): `path_append(path, file)` joins with a
slash; path_append lives in utils.c which is not under src/. -/
def pathAppend (path file : String) : String := path ++ "/" ++ file

/-- Rollback helper `unmount` (nvc_mount.c:297-304): NULL or empty paths
are no-ops; otherwise `umount2(path, MNT_DETACH)` followed by
`file_remove(path)`, with all errors swallowed. -/
def unmountEv : Option String → List Ev
  | none => []
  | some p => if p = "" then [] else [.umountDetach p, .fileRemove p]

/-- Host filesystem as the engine sees it: regular-file contents (also
used for existence checks by `file_mode`) and `st_rdev` values for
device nodes (used by `xstat`). -/
structure HostFs where
  files : String → Option String
  rdev : String → Option Nat

/-- Modelled from the spec: the classification behind
`match_binary_flags` / `match_library_flags` (utils.c, not under src/).
A basename is admitted iff one of the capability flags it is classified
under is active, so the classification is a flag set per basename. -/
structure Env where
  host : HostFs
  binFlagsOf : String → Nat
  libFlagsOf : String → Nat

/-- Modelled from the spec: `match_binary_flags(file, flags)` holds iff
`file` is classified under one of the active binary capability flags. -/
def matchBinaryFlags (env : Env) (file : String) (flags : Nat) : Bool :=
  env.binFlagsOf file &&& flags != 0

/-- Modelled from the spec: `match_library_flags(file, flags)` holds iff
`file` is classified under one of the active library capability flags. -/
def matchLibraryFlags (env : Env) (file : String) (flags : Nat) : Bool :=
  env.libFlagsOf file &&& flags != 0

/-- Container configuration sub-structure (`cnt->cfg` in nvc_internal.h). -/
structure CntCfg where
  rootfs : String
  bins_dir : String
  libs_dir : String
  libs32_dir : String

/-- The `nvc_container` fields the engine reads.  uid/gid are elided: no
claim mentions ownership. -/
structure NvcContainer where
  cfg : CntCfg
  mnt_ns : Nat
  dev_cg : String
  flags : Nat

/-- The `nvc_context` fields the engine reads: the caller mount-namespace
handle to return to. -/
structure NvcContext where
  mnt_ns : Nat

/-- One entry of `info->devs`: host path and dev_t of a device node. -/
structure DevNode where
  path : String
  id : Nat

/-- The `nvc_driver_info` sequences the engine iterates over. -/
structure NvcDriverInfo where
  bins : List String
  libs : List String
  libs32 : List String
  ipcs : List String
  devs : List DevNode

/-- The `nvc_device` argument of `nvc_device_mount`. -/
structure NvcDevice where
  node : DevNode
  busid : String

/-- Hexadecimal digit test, as `strtoumax` base 16 accepts them. -/
def isHexDigitC (c : Char) : Bool :=
  (c.isDigit || ('a' ≤ c && c ≤ 'f') || ('A' ≤ c && c ≤ 'F'))

/-- Value of a hexadecimal digit character. -/
def hexDigitVal (c : Char) : Nat :=
  if c.isDigit then c.toNat - 48
  else if 'a' ≤ c then c.toNat - 87
  else c.toNat - 55

/-- Value of a hexadecimal digit string (most significant first). -/
def hexVal (ds : List Char) : Nat := ds.foldl (fun a c => a * 16 + hexDigitVal c) 0

/-- Lowercase hexadecimal digit character for a value below 16, as printf
`%lx` produces them. -/
def hexDigitChar (n : Nat) : Char :=
  if n < 10 then Char.ofNat (48 + n) else Char.ofNat (87 + n)

/-- Hexadecimal digit accumulation with an explicit fuel bound (the fuel
never runs out when it starts at the number itself, since dividing by 16
strictly decreases positive numbers). -/
def toHexAux : Nat → Nat → List Char
  | 0, _ => []
  | fuel + 1, m => if m = 0 then [] else toHexAux fuel (m / 16) ++ [hexDigitChar (m % 16)]

/-- Hexadecimal digits of `n` (empty for 0), most significant first. -/
def toHexDigits (n : Nat) : List Char := toHexAux n n

/-- printf `%lx` rendering of `n`: hexadecimal, lowercase, no prefix,
a single `0` for zero. -/
def toHex (n : Nat) : List Char := if n = 0 then ['0'] else toHexDigits n

/-- Largest `uintmax_t` value on the 64-bit platforms the code targets. -/
def UINTMAX_MAX : Nat := 2 ^ 64 - 1

/-- Behaviour of `strtoumax(ptr, NULL, 16)` at a position where `ptr`
starts with the two characters `0x`, applied to the characters after that
prefix: per C11, the subject sequence is the longest initial sequence of
the expected form, so when no hexadecimal digit follows the `0x` prefix
only the initial `0` is converted and the result is 0; otherwise the
digits are converted with the result clamped to `UINTMAX_MAX` on
overflow. -/
def strtoumax16 (rest : List Char) : Nat :=
  let ds := rest.takeWhile isHexDigitC
  if ds.isEmpty then 0 else min (hexVal ds) UINTMAX_MAX

/-- libc `strstr`, as an index: first position where `pat` occurs in the
haystack. -/
def findSubIdx (pat : List Char) : List Char → Option Nat
  | [] => if pat.isEmpty then some 0 else none
  | c :: cs =>
    if pat.isPrefixOf (c :: cs) then some 0
    else (findSubIdx pat cs).map (· + 1)

/-- The literal `ModifyDeviceFiles: 1` scanned for in `mount_procfs`
(nvc_mount.c:240). -/
def modifyPat : List Char := "ModifyDeviceFiles: 1".data

/-- The `params` rewrite of `mount_procfs` (nvc_mount.c:240-241): find the
first occurrence of `ModifyDeviceFiles: 1` and overwrite the character at
offset 19 of the match (the `1`) with `0`. -/
def patchParams (s : String) : String :=
  match findSubIdx modifyPat s.data with
  | none => s
  | some i => ⟨s.data.set (i + 19) '0'⟩

/-- Text of the `profile` template macro of `update_app_profile`
(nvc_mount.c:176-179) before the formatted mask: the stringized JSON
shape up to and including the `0x` prefix is `profileFmtPre ++ "0x"`. -/
def profileFmtPre : String :=
  "\x7b \"profiles\": [\x7b\"name\": \"_container_\", \"settings\": [\"EGLVisibleDGPUDevices\", "

/-- Text of the `profile` template macro after the formatted mask. -/
def profileFmtPost : String :=
  "]\x7d], \"rules\": [\x7b\"pattern\": [], \"profile\": \"_container_\"\x7d]\x7d"

/-- Content produced by `xasprintf(err, &buf, profile, mask)`: the profile
template with the mask rendered in `%lx` form. -/
def renderProfile (mask : Nat) : String :=
  profileFmtPre ++ (⟨'0' :: 'x' :: toHex mask⟩ : String) ++ profileFmtPost

/-- The parse performed by `update_app_profile` on an existing profile
file (nvc_mount.c:190-191): `strstr(buf, "0x")` followed by
`strtoumax(ptr, NULL, 16)`; `none` when `0x` does not occur. -/
def parseProfileMask (content : String) : Option Nat :=
  match findSubIdx ['0', 'x'] content.data with
  | none => none
  | some i => some (strtoumax16 (content.data.drop (i + 2)))

/-- The rollback loop of `mount_files` (nvc_mount.c:77-80): unmount every
recorded entry, in the order they were recorded. -/
def unmountAll (mnt : List String) : List Ev :=
  (mnt.map (fun p => unmountEv (some p))).flatten

/-- The rollback loop of `nvc_driver_mount` (nvc_mount.c:451-452):
`for (i = 0; i < nmnt; ++i) unmount(mnt[i])` over the full mount-log
capacity; slots never populated are NULL and `unmount` ignores them. -/
def rollbackEvs (log : List String) (nmnt : Nat) : List Ev :=
  ((List.range nmnt).map (fun i => unmountEv log[i]?)).flatten

/-- `setup_cgroup` (nvc_mount.c:306-329): append a `c major:minor rw` line
to `dev_cg/devices.allow`.  Fallible primitives: path_join, xfopen and the
fprintf/fflush write. -/
def setup_cgroup (O : Oracle) (cnt : NvcContainer) (id : Nat) (c : Nat) :
    Bool × Nat × List Ev :=
  if O c then (false, c + 1, []) else
  if O (c + 1) then (false, c + 2, []) else
  if O (c + 2) then (false, c + 3, []) else
  (true, c + 3, [.cgroupWrite (cnt.dev_cg ++ "/devices.allow") (majorOf id) (minorOf id)])

/-- `symlink_library` (nvc_mount.c:331-351): create symlink `linkname`
next to `src` pointing at `target`.  Fallible primitives: xstrdup,
path_join, file_create. -/
def symlink_library (O : Oracle) (src target linkname : String) (c : Nat) :
    Bool × Nat × List Ev :=
  if O c then (false, c + 1, []) else
  if O (c + 1) then (false, c + 2, []) else
  if O (c + 2) then (false, c + 3, []) else
  (true, c + 3, [.symlinkCreate (pathAppend (dirname src) linkname) target])

/-- `symlink_libraries` (nvc_mount.c:353-371): walk the recorded mount
paths; `strpcmp` is modelled from the spec (4.G: prefix match on the
basename; strpcmp lives in utils.c which is not under src/). -/
def symlink_libraries (O : Oracle) : List String → Nat → Bool × Nat × List Ev
  | [], c => (true, c, [])
  | p :: ps, c =>
    let lib := basename p
    if isPrefixOfS "libcuda.so" lib then
      match symlink_library O p lib "libcuda.so" c with
      | (false, c1, d) => (false, c1, d)
      | (true, c1, d) =>
        match symlink_libraries O ps c1 with
        | (r, c2, d2) => (r, c2, d ++ d2)
    else if isPrefixOfS "libGLX_nvidia.so" lib then
      match symlink_library O p lib "libGLX_indirect.so.0" c with
      | (false, c1, d) => (false, c1, d)
      | (true, c1, d) =>
        match symlink_libraries O ps c1 with
        | (r, c2, d2) => (r, c2, d ++ d2)
    else symlink_libraries O ps c

/-- `mount_device` (nvc_mount.c:84-110).  Fallible primitives in order:
path_resolve, file_mode (fails when the host file is absent, or by the
oracle), file_create, bind xmount, remount xmount, xstrdup.  The first
three failures return directly; from the bind on, failure runs
`unmount(path)`. -/
def mount_device (O : Oracle) (env : Env) (cnt : NvcContainer) (dev : String) (c : Nat) :
    Option String × Nat × List Ev :=
  if O c then (none, c + 1, []) else
  let path := pathResolve cnt.cfg.rootfs dev
  if O (c + 1) || (env.host.files dev).isNone then (none, c + 2, []) else
  if O (c + 2) then (none, c + 3, []) else
  if O (c + 3) then (none, c + 4, [.fileCreate path none] ++ unmountEv (some path)) else
  if O (c + 4) then
    (none, c + 5, [.fileCreate path none, .bindMount dev path] ++ unmountEv (some path)) else
  if O (c + 5) then
    (none, c + 6,
      [.fileCreate path none, .bindMount dev path, .remount path devRemountFlags]
        ++ unmountEv (some path)) else
  (some path, c + 6,
    [.fileCreate path none, .bindMount dev path, .remount path devRemountFlags])

/-- `mount_ipc` (nvc_mount.c:112-138): same shape as `mount_device` with
the IPC remount mask. -/
def mount_ipc (O : Oracle) (env : Env) (cnt : NvcContainer) (ipc : String) (c : Nat) :
    Option String × Nat × List Ev :=
  if O c then (none, c + 1, []) else
  let path := pathResolve cnt.cfg.rootfs ipc
  if O (c + 1) || (env.host.files ipc).isNone then (none, c + 2, []) else
  if O (c + 2) then (none, c + 3, []) else
  if O (c + 3) then (none, c + 4, [.fileCreate path none] ++ unmountEv (some path)) else
  if O (c + 4) then
    (none, c + 5, [.fileCreate path none, .bindMount ipc path] ++ unmountEv (some path)) else
  if O (c + 5) then
    (none, c + 6,
      [.fileCreate path none, .bindMount ipc path, .remount path ipcRemountFlags]
        ++ unmountEv (some path)) else
  (some path, c + 6,
    [.fileCreate path none, .bindMount ipc path, .remount path ipcRemountFlags])

/-- `mount_app_profile` (nvc_mount.c:140-164).  Fallible primitives:
path_resolve (direct return), file_create (goto fail), tmpfs xmount,
remount xmount, xstrdup (each goto fail, which runs `unmount(path)`). -/
def mount_app_profile (O : Oracle) (cnt : NvcContainer) (c : Nat) :
    Option String × Nat × List Ev :=
  if O c then (none, c + 1, []) else
  let path := pathResolve cnt.cfg.rootfs NV_APP_PROFILE_DIR
  if O (c + 1) then (none, c + 2, unmountEv (some path)) else
  if O (c + 2) then (none, c + 3, [.fileCreate path none] ++ unmountEv (some path)) else
  if O (c + 3) then
    (none, c + 4, [.fileCreate path none, .tmpfsMount path] ++ unmountEv (some path)) else
  if O (c + 4) then
    (none, c + 5,
      [.fileCreate path none, .tmpfsMount path, .remount path tmpfsRemountFlags]
        ++ unmountEv (some path)) else
  (some path, c + 5,
    [.fileCreate path none, .tmpfsMount path, .remount path tmpfsRemountFlags])

/-- The copy loop of `mount_procfs` (nvc_mount.c:231-249) over the
`params`, `version`, `registry` host files (the Bool marks `params`).
A host file that is absent is skipped (ENOENT, nvc_mount.c:233-234);
for present files the fallible primitives are file_mode, file_read_text,
path_append and file_create, and the `params` content is patched. -/
def procfsLoop (O : Oracle) (env : Env) (dpath : String) :
    List (Bool × String) → Nat → Bool × Nat × List Ev
  | [], c => (true, c, [])
  | (isParams, f) :: fs, c =>
    match env.host.files f with
    | none => procfsLoop O env dpath fs (c + 1)
    | some content =>
      if O c then (false, c + 1, []) else
      if O (c + 1) then (false, c + 2, []) else
      let buf := if isParams then patchParams content else content
      if O (c + 2) then (false, c + 3, []) else
      if O (c + 3) then (false, c + 4, []) else
      match procfsLoop O env dpath fs (c + 4) with
      | (r, c2, d) => (r, c2, [.fileCreate (pathAppend dpath (basename f)) (some buf)] ++ d)

/-- `mount_procfs` (nvc_mount.c:210-262).  Fallible primitives:
path_resolve and the tmpfs xmount (direct returns), then the copy loop,
the remount xmount and xstrdup (goto fail, which truncates the path back
to the directory and runs `unmount(path)`). -/
def mount_procfs (O : Oracle) (env : Env) (cnt : NvcContainer) (c : Nat) :
    Option String × Nat × List Ev :=
  if O c then (none, c + 1, []) else
  let path := pathResolve cnt.cfg.rootfs NV_PROC_DRIVER
  if O (c + 1) then (none, c + 2, []) else
  match procfsLoop O env path
      [(true, NV_PROC_DRIVER ++ "/params"), (false, NV_PROC_DRIVER ++ "/version"),
        (false, NV_PROC_DRIVER ++ "/registry")] (c + 2) with
  | (false, c2, d) => (none, c2, [.tmpfsMount path] ++ d ++ unmountEv (some path))
  | (true, c2, d) =>
    if O c2 then (none, c2 + 1, [.tmpfsMount path] ++ d ++ unmountEv (some path)) else
    if O (c2 + 1) then
      (none, c2 + 2,
        [.tmpfsMount path] ++ d ++ [.remount path tmpfsRemountFlags] ++ unmountEv (some path)) else
    (some path, c2 + 2, [.tmpfsMount path] ++ d ++ [.remount path tmpfsRemountFlags])

/-- `mount_procfs_gpu` (nvc_mount.c:264-295): bind the host per-GPU procfs
dir, whose name drops the first four characters of the bus id (16-bit PCI
domain).  Fallible primitives: xasprintf, file_mode, path_resolve (all
before `path` is set, so the shared fail path unmounts the empty path,
a no-op), then file_create, bind xmount, remount xmount, xstrdup with
`unmount(path)` on failure. -/
def mount_procfs_gpu (O : Oracle) (env : Env) (cnt : NvcContainer) (busid : String) (c : Nat) :
    Option String × Nat × List Ev :=
  if O c then (none, c + 1, []) else
  let gpu := NV_PROC_DRIVER ++ "/gpus/" ++ (⟨busid.data.drop 4⟩ : String)
  if O (c + 1) || (env.host.files gpu).isNone then (none, c + 2, []) else
  if O (c + 2) then (none, c + 3, []) else
  let path := pathResolve cnt.cfg.rootfs gpu
  if O (c + 3) then (none, c + 4, unmountEv (some path)) else
  if O (c + 4) then (none, c + 5, [.fileCreate path none] ++ unmountEv (some path)) else
  if O (c + 5) then
    (none, c + 6, [.fileCreate path none, .bindMount gpu path] ++ unmountEv (some path)) else
  if O (c + 6) then
    (none, c + 7,
      [.fileCreate path none, .bindMount gpu path, .remount path gpuRemountFlags]
        ++ unmountEv (some path)) else
  (some path, c + 7,
    [.fileCreate path none, .bindMount gpu path, .remount path gpuRemountFlags])

/-- `update_app_profile` (nvc_mount.c:166-208).  `cfs` is the container
filesystem view used by file_read_text on the resolved profile path; an
absent file is the ENOENT branch.  `1ull << minor(id)` is undefined in C
for minors of 64 or more, modelled by reduction mod `2 ^ 64`; all theorems
below restrict to minors below 64.  Failure to find `0x` or a parse result
of `UINTMAX_MAX` yields INVALID_STATE before any write. -/
def update_app_profile (O : Oracle) (cfs : String → Option String) (cnt : NvcContainer)
    (id : Nat) (c : Nat) : Except Err Unit × Nat × List Ev :=
  let dev := (1 <<< minorOf id) % 2 ^ 64
  if O c then (.error .fault, c + 1, []) else
  let path := pathResolve cnt.cfg.rootfs (NV_APP_PROFILE_DIR ++ "/10-container.conf")
  match cfs path with
  | none =>
    if O (c + 1) then (.error .fault, c + 2, []) else
    if O (c + 2) then (.error .fault, c + 3, []) else
    (.ok (), c + 3, [.fileCreate path (some (renderProfile dev))])
  | some content =>
    if O (c + 1) then (.error .fault, c + 2, []) else
    match parseProfileMask content with
    | none => (.error .invalidState, c + 2, [])
    | some n =>
      if n = UINTMAX_MAX then (.error .invalidState, c + 2, []) else
      if O (c + 2) then (.error .fault, c + 3, []) else
      if O (c + 3) then (.error .fault, c + 4, []) else
      (.ok (), c + 4, [.fileCreate path (some (renderProfile (n ||| dev)))])

/-- The per-file loop of `mount_files` (nvc_mount.c:55-74).  A file whose
basename matches neither the binary nor the library capability flags is
skipped.  Fallible primitives per admitted file: path_append, file_mode
(on the host source; fails when absent or by the oracle), file_create,
bind xmount, remount xmount, xstrdup.  On failure the shared fail path
(nvc_mount.c:77-80) unmounts only the entries recorded so far, in
recording order: the current target, even if already bound, is not
unmounted and its placeholder is not removed. -/
def mountFilesLoop (O : Oracle) (env : Env) (flags : Nat) (dpath : String) :
    List String → List String → Nat → Option (List String) × Nat × List Ev
  | [], mnt, c => (some mnt, c, [])
  | f :: fs, mnt, c =>
    let file := basename f
    if !(matchBinaryFlags env file flags || matchLibraryFlags env file flags) then
      mountFilesLoop O env flags dpath fs mnt c
    else
      if O c then (none, c + 1, unmountAll mnt) else
      let fpath := pathAppend dpath file
      if O (c + 1) || (env.host.files f).isNone then (none, c + 2, unmountAll mnt) else
      if O (c + 2) then (none, c + 3, unmountAll mnt) else
      if O (c + 3) then (none, c + 4, [.fileCreate fpath none] ++ unmountAll mnt) else
      if O (c + 4) then
        (none, c + 5, [.fileCreate fpath none, .bindMount f fpath] ++ unmountAll mnt) else
      if O (c + 5) then
        (none, c + 6,
          [.fileCreate fpath none, .bindMount f fpath, .remount fpath fileRemountFlags]
            ++ unmountAll mnt) else
      match mountFilesLoop O env flags dpath fs (mnt ++ [fpath]) (c + 6) with
      | (r, c2, d) =>
        (r, c2,
          [.fileCreate fpath none, .bindMount f fpath, .remount fpath fileRemountFlags] ++ d)

/-- `mount_files` (nvc_mount.c:37-82).  Fallible primitives before the
loop: path_resolve, file_create of the target directory, array_new (whose
failure returns before any unmount). -/
def mount_files (O : Oracle) (env : Env) (cnt : NvcContainer) (dir : String)
    (paths : List String) (c : Nat) : Option (List String) × Nat × List Ev :=
  if O c then (none, c + 1, []) else
  let dpath := pathResolve cnt.cfg.rootfs dir
  if O (c + 1) then (none, c + 2, []) else
  if O (c + 2) then (none, c + 3, [.fileCreate dpath none]) else
  match mountFilesLoop O env cnt.flags dpath paths [] (c + 3) with
  | (r, c2, d) => (r, c2, [.fileCreate dpath none] ++ d)

/-- The IPC admission test of `nvc_driver_mount` (nvc_mount.c:423-429):
the persistenced socket needs `UTILITY_LIBS`, every other IPC needs
`COMPUTE_LIBS`.  The socket comparison `strrcmp` is modelled from the
spec (4.H.1 step 6: the path equals the persistenced socket; strrcmp
lives in utils.c which is not under src/). -/
def ipcGate (flags : Nat) (ipc : String) : Bool :=
  if ipc = NV_PERSISTENCED_SOCKET then hasFlag flags OPT_UTILITY_LIBS
  else hasFlag flags OPT_COMPUTE_LIBS

/-- The IPC loop of `nvc_driver_mount` (nvc_mount.c:423-432).  Returns the
recorded mount paths of this loop in creation order; on failure the paths
recorded before the failing entry are still reported for rollback. -/
def ipcLoop (O : Oracle) (env : Env) (cnt : NvcContainer) :
    List String → Nat → Bool × Nat × List String × List Ev
  | [], c => (true, c, [], [])
  | i :: is, c =>
    if !(ipcGate cnt.flags i) then ipcLoop O env cnt is c
    else
      match mount_ipc O env cnt i c with
      | (none, c1, d) => (false, c1, [], d)
      | (some p, c1, d) =>
        match ipcLoop O env cnt is c1 with
        | (r, c2, lg, d2) => (r, c2, p :: lg, d ++ d2)

/-- The device loop of `nvc_driver_mount` (nvc_mount.c:434-446).  A device
is skipped iff `COMPUTE_LIBS` is unset and its major is not
`NV_DEVICE_MAJOR`; otherwise it is bind-mounted unless `NO_DEVBIND` and
cgroup-authorized unless `NO_CGROUPS`. -/
def devLoop (O : Oracle) (env : Env) (cnt : NvcContainer) :
    List DevNode → Nat → Bool × Nat × List String × List Ev
  | [], c => (true, c, [], [])
  | d :: ds, c =>
    if !(hasFlag cnt.flags OPT_COMPUTE_LIBS) && majorOf d.id != NV_DEVICE_MAJOR then
      devLoop O env cnt ds c
    else if hasFlag cnt.flags OPT_NO_DEVBIND then
      if hasFlag cnt.flags OPT_NO_CGROUPS then devLoop O env cnt ds c
      else
        match setup_cgroup O cnt d.id c with
        | (false, c1, dc) => (false, c1, [], dc)
        | (true, c1, dc) =>
          match devLoop O env cnt ds c1 with
          | (r, c2, lg, d2) => (r, c2, lg, dc ++ d2)
    else
      match mount_device O env cnt d.path c with
      | (none, c1, dm) => (false, c1, [], dm)
      | (some p, c1, dm) =>
        if hasFlag cnt.flags OPT_NO_CGROUPS then
          match devLoop O env cnt ds c1 with
          | (r, c2, lg, d2) => (r, c2, p :: lg, dm ++ d2)
        else
          match setup_cgroup O cnt d.id c1 with
          | (false, c2, dc) => (false, c2, [p], dm ++ dc)
          | (true, c2, dc) =>
            match devLoop O env cnt ds c2 with
            | (r, c3, lg, d2) => (r, c3, p :: lg, dm ++ dc ++ d2)

/-- The app-profile step of `nvc_driver_mount` (nvc_mount.c:396-400):
only under `GRAPHICS_LIBS`. -/
def profilePhase (O : Oracle) (cnt : NvcContainer) (c : Nat) :
    Bool × Nat × List String × List Ev :=
  if hasFlag cnt.flags OPT_GRAPHICS_LIBS then
    match mount_app_profile O cnt c with
    | (none, c1, d) => (false, c1, [], d)
    | (some p, c1, d) => (true, c1, [p], d)
  else (true, c, [], [])

/-- One binary/library phase of `nvc_driver_mount` (nvc_mount.c:401-419):
active when `use` holds and the list is nonempty (the C checks
`!= NULL && n > 0`, and for libs32 additionally `COMPAT32`). -/
def filesPhase (O : Oracle) (env : Env) (cnt : NvcContainer) (use : Bool) (dir : String)
    (paths : List String) (c : Nat) : Bool × Nat × List String × List Ev :=
  if use && paths.length > 0 then
    match mount_files O env cnt dir paths c with
    | (none, c1, d) => (false, c1, [], d)
    | (some ms, c1, d) => (true, c1, ms, d)
  else (true, c, [], [])

/-- The mounting body of `nvc_driver_mount` (nvc_mount.c:393-447), from
the procfs mount to the device loop, inside the container namespace.
Returns success, the next oracle index, the recorded mount log in creation
order, and the emitted events. -/
def driverBody (O : Oracle) (env : Env) (cnt : NvcContainer) (info : NvcDriverInfo)
    (c : Nat) : Bool × Nat × List String × List Ev :=
  match mount_procfs O env cnt c with
  | (none, c1, d1) => (false, c1, [], d1)
  | (some p0, c1, d1) =>
    match profilePhase O cnt c1 with
    | (false, c2, _, d2) => (false, c2, [p0], d1 ++ d2)
    | (true, c2, logA, d2) =>
      match filesPhase O env cnt true cnt.cfg.bins_dir info.bins c2 with
      | (false, c3, _, d3) => (false, c3, [p0] ++ logA, d1 ++ d2 ++ d3)
      | (true, c3, logB, d3) =>
        match filesPhase O env cnt true cnt.cfg.libs_dir info.libs c3 with
        | (false, c4, _, d4) => (false, c4, [p0] ++ logA ++ logB, d1 ++ d2 ++ d3 ++ d4)
        | (true, c4, logL, d4) =>
          match filesPhase O env cnt (hasFlag cnt.flags OPT_COMPAT32) cnt.cfg.libs32_dir
              info.libs32 c4 with
          | (false, c5, _, d5) =>
            (false, c5, [p0] ++ logA ++ logB ++ logL, d1 ++ d2 ++ d3 ++ d4 ++ d5)
          | (true, c5, logL32, d5) =>
            let lg := [p0] ++ logA ++ logB ++ logL ++ logL32
            match symlink_libraries O lg c5 with
            | (false, c6, d6) => (false, c6, lg, d1 ++ d2 ++ d3 ++ d4 ++ d5 ++ d6)
            | (true, c6, d6) =>
              match ipcLoop O env cnt info.ipcs c6 with
              | (false, c7, logI, d7) =>
                (false, c7, lg ++ logI, d1 ++ d2 ++ d3 ++ d4 ++ d5 ++ d6 ++ d7)
              | (true, c7, logI, d7) =>
                match devLoop O env cnt info.devs c7 with
                | (r, c8, logD, d8) =>
                  (r, c8, lg ++ logI ++ logD, d1 ++ d2 ++ d3 ++ d4 ++ d5 ++ d6 ++ d7 ++ d8)

/-- Result of a `nvc_driver_mount` run: success flag, full event trace,
mount log (populated entries of the `mnt` array, in order), and the
allocated capacity `nmnt`. -/
structure DriverRun where
  ok : Bool
  evs : List Ev
  log : List String
  nmnt : Nat
deriving DecidableEq

/-- `nvc_driver_mount` (nvc_mount.c:373-460).  Fallible primitives before
the body: validate_context, validate_args (modelled from the spec, 7:
INVALID_ARG checks; they live in nvc_internal.h which is not under src/),
nsenter, array_new.  `nsenter` failure returns before any event; array
failure reaches the fail label with a NULL log, so the rollback loop is
skipped.  On body failure the rollback loop walks the full capacity
`nmnt` and the process returns to the caller namespace; the final
`nsenterat` is modelled as effective (see the file header). -/
def nvc_driver_mount (O : Oracle) (env : Env) (ctx : NvcContext) (cnt : NvcContainer)
    (info : NvcDriverInfo) : DriverRun :=
  let nmnt := 2 + info.bins.length + info.libs.length + info.libs32.length
    + info.ipcs.length + info.devs.length
  if O 0 then ⟨false, [], [], nmnt⟩ else
  if O 1 then ⟨false, [], [], nmnt⟩ else
  if O 2 then ⟨false, [], [], nmnt⟩ else
  if O 3 then ⟨false, [.enterNs cnt.mnt_ns, .exitNs ctx.mnt_ns], [], nmnt⟩ else
  match driverBody O env cnt info 4 with
  | (true, _, log, d) =>
    ⟨true, [.enterNs cnt.mnt_ns] ++ d ++ [.exitNs ctx.mnt_ns], log, nmnt⟩
  | (false, _, log, d) =>
    ⟨false,
      [.enterNs cnt.mnt_ns] ++ d ++ rollbackEvs log nmnt ++ [.exitNs ctx.mnt_ns],
      log, nmnt⟩

instance : DecidableEq (Except Err Unit) :=
  fun a b =>
    match a, b with
    | .ok (), .ok () => isTrue rfl
    | .error e, .error f =>
      if h : e = f then isTrue (by rw [h]) else isFalse (fun hh => h (Except.error.inj hh))
    | .ok _, .error _ => isFalse (fun h => Except.noConfusion h)
    | .error _, .ok _ => isFalse (fun h => Except.noConfusion h)

/-- Result of a `nvc_device_mount` run. -/
structure DevRun where
  res : Except Err Unit
  evs : List Ev
deriving DecidableEq

/-- The fail label of `nvc_device_mount` (nvc_mount.c:500-507):
`unmount(proc_mnt); unmount(dev_mnt);` then return to the caller
namespace. -/
def deviceFailEvs (callerNs : Nat) (procMnt devMnt : Option String) : List Ev :=
  unmountEv procMnt ++ unmountEv devMnt ++ [.exitNs callerNs]

/-- The tail of `nvc_device_mount` after the device-bind block
(nvc_mount.c:488-498): per-GPU procfs mount, app-profile update when
`GRAPHICS_LIBS`, cgroup authorization unless `NO_CGROUPS`. -/
def deviceTail (O : Oracle) (env : Env) (cfs : String → Option String) (ctx : NvcContext)
    (cnt : NvcContainer) (dev : NvcDevice) (devMnt : Option String) (c : Nat)
    (acc : List Ev) : DevRun :=
  match mount_procfs_gpu O env cnt dev.busid c with
  | (none, _, d) => ⟨.error .fault, acc ++ d ++ deviceFailEvs ctx.mnt_ns none devMnt⟩
  | (some pmnt, c1, d) =>
    match (if hasFlag cnt.flags OPT_GRAPHICS_LIBS then
        update_app_profile O cfs cnt dev.node.id c1
      else (.ok (), c1, [])) with
    | (.error e, _, du) =>
      ⟨.error e, acc ++ d ++ du ++ deviceFailEvs ctx.mnt_ns (some pmnt) devMnt⟩
    | (.ok _, c2, du) =>
      if hasFlag cnt.flags OPT_NO_CGROUPS then
        ⟨.ok (), acc ++ d ++ du ++ [.exitNs ctx.mnt_ns]⟩
      else
        match setup_cgroup O cnt dev.node.id c2 with
        | (false, _, dc) =>
          ⟨.error .fault, acc ++ d ++ du ++ dc ++ deviceFailEvs ctx.mnt_ns (some pmnt) devMnt⟩
        | (true, _, dc) => ⟨.ok (), acc ++ d ++ du ++ dc ++ [.exitNs ctx.mnt_ns]⟩

/-- `nvc_device_mount` (nvc_mount.c:462-512).  Faithful to the source: the
`xstat` failure and the device-id mismatch inside the `!NO_DEVBIND` block
(nvc_mount.c:478-484) `return (-1)` directly, skipping the fail label, so
those two terminating paths return without re-entering the caller mount
namespace. -/
def nvc_device_mount (O : Oracle) (env : Env) (cfs : String → Option String)
    (ctx : NvcContext) (cnt : NvcContainer) (dev : NvcDevice) : DevRun :=
  if O 0 then ⟨.error .invalidArg, []⟩ else
  if O 1 then ⟨.error .invalidArg, []⟩ else
  if O 2 then ⟨.error .fault, []⟩ else
  let entry := [Ev.enterNs cnt.mnt_ns]
  if !(hasFlag cnt.flags OPT_NO_DEVBIND) then
    if O 3 || (env.host.rdev dev.node.path).isNone then ⟨.error .fault, entry⟩ else
    if (env.host.rdev dev.node.path).getD 0 != dev.node.id then
      ⟨.error .invalidState, entry⟩ else
    match mount_device O env cnt dev.node.path 4 with
    | (none, _, d) => ⟨.error .fault, entry ++ d ++ deviceFailEvs ctx.mnt_ns none none⟩
    | (some dmnt, c1, d) => deviceTail O env cfs ctx cnt dev (some dmnt) c1 (entry ++ d)
  else deviceTail O env cfs ctx cnt dev none 3 entry

/-- One-event transition of the active-mount multiset:
`umount2(MNT_DETACH)` detaches the mount at the path and every mount
below it. -/
def mountStep (ms : List String) (e : Ev) : List String :=
  match e with
  | .bindMount _ d => ms ++ [d]
  | .tmpfsMount d => ms ++ [d]
  | .umountDetach d => ms.filter (fun m => !(m = d || isPrefixOfS (d ++ "/") m))
  | _ => ms

/-- Mounts active after a trace, as a multiset of mount-point paths. -/
def mountsAfter (evs : List Ev) : List String := evs.foldl mountStep []

/-- One-event transition of the engine-created-file set.  `file_remove`
removes the exact path; detaching a mount makes the files created inside
it (paths strictly below the mount point) unreachable, which models the
tmpfs contents vanishing on unmount. -/
def fileStep (fs : List String) (e : Ev) : List String :=
  match e with
  | .fileCreate p _ => if p ∈ fs then fs else fs ++ [p]
  | .symlinkCreate p _ => if p ∈ fs then fs else fs ++ [p]
  | .fileRemove p => fs.filter (fun q => !(q = p))
  | .umountDetach d => fs.filter (fun q => !(isPrefixOfS (d ++ "/") q))
  | _ => fs

/-- Engine-created files present after a trace. -/
def filesAfter (evs : List Ev) : List String := evs.foldl fileStep []

/-- One-event transition of the observed mount namespace. -/
def nsStep (ns : Nat) (e : Ev) : Nat :=
  match e with
  | .enterNs n => n
  | .exitNs n => n
  | _ => ns

/-- The mount namespace observed after a trace that starts in `start`. -/
def nsAfter (start : Nat) (evs : List Ev) : Nat := evs.foldl nsStep start

/-- The sequence of `umount2(MNT_DETACH)` targets of a trace, in order. -/
def umountSeq (evs : List Ev) : List String :=
  evs.filterMap (fun e => match e with | .umountDetach p => some p | _ => none)

/-- Oracle under which every primitive succeeds. -/
def oracleNone : Oracle := fun _ => false

/-- Oracle under which exactly the `k`-th primitive fails. -/
def oracleAt (k : Nat) : Oracle := fun c => c == k

/-- Concrete host used by the concrete runs below: one driver library, one
NVIDIA device node (with `st_rdev` 999), two IPC sockets. -/
def sampleHost : HostFs where
  files := fun p =>
    if p = "/host/libfoo.so.1" ∨ p = "/dev/nvidia0" ∨ p = "/a" ∨ p = "/b" then some "" else none
  rdev := fun p => if p = "/dev/nvidia0" then some 999 else none

/-- Concrete environment: no binary is classified, every library is
classified under `COMPUTE_LIBS`. -/
def sampleEnv : Env where
  host := sampleHost
  binFlagsOf := fun _ => 0
  libFlagsOf := fun _ => OPT_COMPUTE_LIBS

/-- Concrete container at rootfs `/r`, container namespace handle 2. -/
def sampleCnt (flags : Nat) : NvcContainer where
  cfg := { rootfs := "/r", bins_dir := "/usr/bin", libs_dir := "/usr/lib",
           libs32_dir := "/usr/lib32" }
  mnt_ns := 2
  dev_cg := "/cg"
  flags := flags

/-- Concrete context: caller namespace handle 1. -/
def sampleCtx : NvcContext := ⟨1⟩

/-- Concrete environment whose host exposes only a procfs `params` file
holding a `ModifyDeviceFiles: 1` line, for the copy-loop runs. -/
def paramsEnv : Env where
  host := { files := fun p => if p = NV_PROC_DRIVER ++ "/params"
              then some "a ModifyDeviceFiles: 1 b" else none,
            rdev := fun _ => none }
  binFlagsOf := fun _ => 0
  libFlagsOf := fun _ => 0

/-- C1: the claim states that every terminating execution of
`nvc_device_mount` ends back in the caller's mount namespace.  The code
violates it: when `NO_DEVBIND` is unset and the stat'ed `st_rdev` differs
from `dev->node.id`, nvc_mount.c:481-484 `return (-1)` directly after
`nsenter` (nvc_mount.c:475), skipping the `nsenterat` of the fail label,
so the function returns with the process still in the container's mount
namespace.  This run evaluates the code at such an input: the result is
INVALID_STATE yet the observed namespace is the container's (2), not the
caller's (1). -/
theorem c1_device_mount_missing_ns_exit_on_rdev_mismatch :
    (nvc_device_mount oracleNone sampleEnv (fun _ => none) sampleCtx (sampleCnt 0)
        ⟨⟨"/dev/nvidia0", 1000⟩, "00000000:3b:00.0"⟩).res = .error .invalidState ∧
    (nvc_device_mount oracleNone sampleEnv (fun _ => none) sampleCtx (sampleCnt 0)
        ⟨⟨"/dev/nvidia0", 1000⟩, "00000000:3b:00.0"⟩).evs = [.enterNs 2] ∧
    nsAfter sampleCtx.mnt_ns
        (nvc_device_mount oracleNone sampleEnv (fun _ => none) sampleCtx (sampleCnt 0)
          ⟨⟨"/dev/nvidia0", 1000⟩, "00000000:3b:00.0"⟩).evs = (sampleCnt 0).mnt_ns ∧
    (sampleCnt 0).mnt_ns ≠ sampleCtx.mnt_ns := by
  refine ⟨rfl, rfl, rfl, by decide⟩

/-- Elements of `unmountEv` are unmount or remove events only. -/
theorem mem_unmountEv {e : Ev} {o : Option String} (h : e ∈ unmountEv o) :
    (∃ p, e = .umountDetach p) ∨ ∃ p, e = .fileRemove p := by
  match o with
  | none => simp [unmountEv] at h
  | some p =>
    by_cases hp : p = ""
    · simp [unmountEv, hp] at h
    · simp [unmountEv, hp] at h
      rcases h with h | h
      · exact Or.inl ⟨p, h⟩
      · exact Or.inr ⟨p, h⟩

/-- Unfolding of the rollback loop by one slot. -/
theorem rollbackEvs_succ (log : List String) (n : Nat) :
    rollbackEvs log (n + 1) = rollbackEvs log n ++ unmountEv log[n]? := by
  unfold rollbackEvs
  rw [List.range_succ, List.map_append, List.flatten_append]
  simp

/-- Padding the rollback loop beyond the populated entries adds nothing. -/
theorem rollbackEvs_pad (log : List String) (n : Nat) (h : log.length ≤ n) :
    rollbackEvs log n = rollbackEvs log log.length := by
  induction n, h using Nat.le_induction with
  | base => rfl
  | succ n hn ih =>
    rw [rollbackEvs_succ, List.getElem?_eq_none hn, ih]
    simp [unmountEv]

/-- Rollback emits only unmount and remove events. -/
theorem mem_rollbackEvs {e : Ev} (log : List String) (n : Nat)
    (h : e ∈ rollbackEvs log n) :
    (∃ p, e = .umountDetach p) ∨ ∃ p, e = .fileRemove p := by
  unfold rollbackEvs at h
  rw [List.mem_flatten] at h
  obtain ⟨l, hl, he⟩ := h
  rw [List.mem_map] at hl
  obtain ⟨i, _, rfl⟩ := hl
  exact mem_unmountEv he

/-- C10: the rollback helper `unmount` is total: NULL and empty paths are
no-ops, so the rollback loop of `nvc_driver_mount` over the full capacity
(including slots never populated) and the rollback of `nvc_device_mount`
over possibly-NULL records emit only unmount/remove effects, and never
fail: the rollback produces no error and no event besides
`umountDetach`/`fileRemove`. -/
theorem c10_unmount_total_rollback_ignores_unpopulated :
    unmountEv none = [] ∧
    unmountEv (some "") = [] ∧
    (∀ (log : List String) (i : Nat), log.length ≤ i → unmountEv log[i]? = []) ∧
    (∀ (log : List String) (n : Nat), log.length ≤ n →
      rollbackEvs log n = rollbackEvs log log.length) ∧
    (∀ (log : List String) (n : Nat) (e : Ev), e ∈ rollbackEvs log n →
      (∃ p, e = .umountDetach p) ∨ ∃ p, e = .fileRemove p) ∧
    (∀ ns, deviceFailEvs ns none none = [.exitNs ns]) := by
  refine ⟨rfl, rfl, ?_, rollbackEvs_pad, fun log n e h => mem_rollbackEvs log n h, fun ns => rfl⟩
  intro log i h
  rw [List.getElem?_eq_none h]
  rfl

/-- Witness for C10 at concrete inputs: a mount log of one entry rolled
back over capacity 3 behaves as over capacity 1, the unpopulated slot is
a no-op, and every rollback event of a concrete log is an
unmount/remove. -/
theorem c10_witness :
    unmountEv (["/r/a"][2]?) = [] ∧
    rollbackEvs ["/r/a"] 3 = rollbackEvs ["/r/a"] 1 ∧
    ((∃ p, Ev.umountDetach "/r/a" = Ev.umountDetach p) ∨
      ∃ p, Ev.umountDetach "/r/a" = Ev.fileRemove p) := by
  have h := c10_unmount_total_rollback_ignores_unpopulated
  refine ⟨h.2.2.1 ["/r/a"] 2 (by decide), h.2.2.2.1 ["/r/a"] 3 (by decide), ?_⟩
  exact h.2.2.2.2.1 ["/r/a"] 3 (.umountDetach "/r/a") (by decide)

/-- Rollback of an empty log emits nothing. -/
theorem rollbackEvs_nil (n : Nat) : rollbackEvs [] n = [] := by
  induction n with
  | zero => rfl
  | succ n ih => rw [rollbackEvs_succ, ih]; rfl

/-- The unmount targets of the rollback loop are exactly the populated
nonempty log entries, in log (creation) order. -/
theorem umountSeq_rollbackEvs (log : List String) (n : Nat) :
    umountSeq (rollbackEvs log n) = (log.take n).filter (fun p => p != "") := by
  induction n with
  | zero => rfl
  | succ n ih =>
    rw [rollbackEvs_succ]
    unfold umountSeq at *
    rw [List.filterMap_append, ih, List.take_succ, List.filter_append]
    congr 1
    cases hl : log[n]? with
    | none => simp [unmountEv]
    | some p =>
      by_cases hp : p = ""
      · simp [unmountEv, hp]
      · simp [unmountEv, hp]

/-- Driver info of the concrete rollback-order run: one IPC socket and one
NVIDIA device node. -/
def sampleInfoIpcDev : NvcDriverInfo :=
  ⟨[], [], [], ["/a"], [⟨"/dev/nvidia0", makedevOf 195 0⟩]⟩

/-- C9 counterexample: the claim says recorded mounts are unmounted in
reverse creation order on failure.  In this run (cgroup write of the
device fails after three mounts were recorded) the emitted unmount
sequence equals the mount log in creation order, which differs from its
reverse. -/
theorem c9_counterexample_rollback_is_forward :
    (nvc_driver_mount (oracleAt 25) sampleEnv sampleCtx (sampleCnt OPT_COMPUTE_LIBS)
        sampleInfoIpcDev).ok = false ∧
    (nvc_driver_mount (oracleAt 25) sampleEnv sampleCtx (sampleCnt OPT_COMPUTE_LIBS)
        sampleInfoIpcDev).log =
      ["/r/proc/driver/nvidia", "/r/a", "/r/dev/nvidia0"] ∧
    umountSeq (nvc_driver_mount (oracleAt 25) sampleEnv sampleCtx (sampleCnt OPT_COMPUTE_LIBS)
        sampleInfoIpcDev).evs =
      ["/r/proc/driver/nvidia", "/r/a", "/r/dev/nvidia0"] ∧
    umountSeq (nvc_driver_mount (oracleAt 25) sampleEnv sampleCtx (sampleCnt OPT_COMPUTE_LIBS)
        sampleInfoIpcDev).evs ≠
      (nvc_driver_mount (oracleAt 25) sampleEnv sampleCtx (sampleCnt OPT_COMPUTE_LIBS)
        sampleInfoIpcDev).log.reverse := by
  refine ⟨rfl, rfl, rfl, by decide⟩

/-- C9 amended: on any sub-step failure of `nvc_driver_mount`, the
recorded mounts are unmounted in creation order (the order of the mount
log), not in reverse: every failing run either emitted no event (failure
before namespace entry) or ends with the rollback loop, whose unmount
sequence is exactly the populated log in creation order, followed by the
namespace exit. -/
theorem c9_rollback_unmounts_in_creation_order :
    (∀ (log : List String) (n : Nat),
      umountSeq (rollbackEvs log n) = (log.take n).filter (fun p => p != "")) ∧
    ∀ (O : Oracle) (env : Env) (ctx : NvcContext) (cnt : NvcContainer) (info : NvcDriverInfo),
      (nvc_driver_mount O env ctx cnt info).ok = false →
      (nvc_driver_mount O env ctx cnt info).evs = [] ∨
      ∃ pre, (nvc_driver_mount O env ctx cnt info).evs =
        pre ++ rollbackEvs (nvc_driver_mount O env ctx cnt info).log
            (nvc_driver_mount O env ctx cnt info).nmnt
          ++ [.exitNs ctx.mnt_ns] := by
  refine ⟨umountSeq_rollbackEvs, ?_⟩
  intro O env ctx cnt info h
  cases h0 : O 0 with
  | true => left; simp [nvc_driver_mount, h0]
  | false =>
  cases h1 : O 1 with
  | true => left; simp [nvc_driver_mount, h0, h1]
  | false =>
  cases h2 : O 2 with
  | true => left; simp [nvc_driver_mount, h0, h1, h2]
  | false =>
  cases h3 : O 3 with
  | true =>
    right
    refine ⟨[.enterNs cnt.mnt_ns], ?_⟩
    simp [nvc_driver_mount, h0, h1, h2, h3, rollbackEvs_nil]
  | false =>
    rcases hb : driverBody O env cnt info 4 with ⟨ok, c, log, d⟩
    cases ok with
    | true => simp [nvc_driver_mount, h0, h1, h2, h3, hb] at h
    | false =>
      right
      refine ⟨[.enterNs cnt.mnt_ns] ++ d, ?_⟩
      simp [nvc_driver_mount, h0, h1, h2, h3, hb, List.append_assoc]

/-- Witness for C9 at concrete inputs: the rollback of a two-entry log
(one empty slot) unmounts the nonempty entry, and the concrete failing
run decomposes into prefix, rollback and namespace exit. -/
theorem c9_witness :
    umountSeq (rollbackEvs ["/r/a", ""] 3) = ["/r/a"] ∧
    ∃ pre, (nvc_driver_mount (oracleAt 25) sampleEnv sampleCtx (sampleCnt OPT_COMPUTE_LIBS)
        sampleInfoIpcDev).evs =
      pre ++ rollbackEvs (nvc_driver_mount (oracleAt 25) sampleEnv sampleCtx
            (sampleCnt OPT_COMPUTE_LIBS) sampleInfoIpcDev).log
          (nvc_driver_mount (oracleAt 25) sampleEnv sampleCtx (sampleCnt OPT_COMPUTE_LIBS)
            sampleInfoIpcDev).nmnt
        ++ [.exitNs sampleCtx.mnt_ns] := by
  have h := c9_rollback_unmounts_in_creation_order
  refine ⟨(h.1 ["/r/a", ""] 3).trans (by decide), ?_⟩
  rcases h.2 (oracleAt 25) sampleEnv sampleCtx (sampleCnt OPT_COMPUTE_LIBS) sampleInfoIpcDev
      (by decide) with h2 | h2
  · exact absurd h2 (by decide)
  · exact h2

/-- An event that neither mounts nor creates: unmount, remove, or
namespace exit.  These are the only events a rollback tail contains. -/
def cleanupOrExit (e : Ev) : Prop :=
  (∃ q, e = Ev.umountDetach q) ∨ (∃ q, e = Ev.fileRemove q) ∨ ∃ n, e = Ev.exitNs n

/-- A path absent from the active mounts stays absent across events that
mount nothing. -/
theorem notMem_foldl_mountStep {p : String} {B : List Ev}
    (hB : ∀ e ∈ B, cleanupOrExit e) :
    ∀ {ms : List String}, p ∉ ms → p ∉ B.foldl mountStep ms := by
  induction B with
  | nil => intro ms h; exact h
  | cons e B ih =>
    intro ms hp
    have he := hB e (List.mem_cons_self e B)
    have hB2 : ∀ x ∈ B, cleanupOrExit x := fun x hx => hB x (List.mem_cons_of_mem e hx)
    rcases he with ⟨q, rfl⟩ | ⟨q, rfl⟩ | ⟨n, rfl⟩
    · refine ih hB2 ?_
      intro hmem
      exact hp (List.mem_of_mem_filter hmem)
    · exact ih hB2 hp
    · exact ih hB2 hp

/-- A path absent from the created files stays absent across events that
create nothing. -/
theorem notMem_foldl_fileStep {p : String} {B : List Ev}
    (hB : ∀ e ∈ B, cleanupOrExit e) :
    ∀ {fs : List String}, p ∉ fs → p ∉ B.foldl fileStep fs := by
  induction B with
  | nil => intro fs h; exact h
  | cons e B ih =>
    intro fs hp
    have he := hB e (List.mem_cons_self e B)
    have hB2 : ∀ x ∈ B, cleanupOrExit x := fun x hx => hB x (List.mem_cons_of_mem e hx)
    rcases he with ⟨q, rfl⟩ | ⟨q, rfl⟩ | ⟨n, rfl⟩
    · refine ih hB2 ?_
      intro hmem
      exact hp (List.mem_of_mem_filter hmem)
    · refine ih hB2 ?_
      intro hmem
      exact hp (List.mem_of_mem_filter hmem)
    · exact ih hB2 hp

/-- Detaching a path removes every active mount at that path. -/
theorem notMem_mountStep_umount (ms : List String) (p : String) :
    p ∉ mountStep ms (.umountDetach p) := by
  intro h
  unfold mountStep at h
  rcases List.mem_filter.mp h with ⟨-, hpred⟩
  simp at hpred

/-- Removing a path removes it from the created files. -/
theorem notMem_fileStep_remove (fs : List String) (p : String) :
    p ∉ fileStep fs (.fileRemove p) := by
  intro h
  unfold fileStep at h
  rcases List.mem_filter.mp h with ⟨-, hpred⟩
  simp at hpred

/-- The rollback loop contains the unmount block of every populated slot,
followed only by further unmount/remove events. -/
theorem rollbackEvs_decompose {log : List String} {n i : Nat} {p : String}
    (hi : i < n) (hg : log[i]? = some p) :
    ∃ A B, rollbackEvs log n = A ++ unmountEv (some p) ++ B ∧
      ∀ e ∈ B, (∃ q, e = Ev.umountDetach q) ∨ ∃ q, e = Ev.fileRemove q := by
  induction n with
  | zero => omega
  | succ n ih =>
    rw [rollbackEvs_succ]
    rcases Nat.lt_succ_iff_lt_or_eq.mp hi with h | h
    · obtain ⟨A, B, hAB, hB⟩ := ih h
      refine ⟨A, B ++ unmountEv log[n]?, by rw [hAB]; simp [List.append_assoc], ?_⟩
      intro e he
      rcases List.mem_append.mp he with he | he
      · exact hB e he
      · exact mem_unmountEv he
    · subst h
      exact ⟨rollbackEvs log i, [], by rw [hg]; simp, by simp⟩

/-- The mount-file loop records at most one entry per input path. -/
theorem mountFilesLoop_length (O : Oracle) (env : Env) (flags : Nat) (dpath : String) :
    ∀ (paths mnt : List String) (c : Nat) (r : List String) (c2 : Nat) (d : List Ev),
      mountFilesLoop O env flags dpath paths mnt c = (some r, c2, d) →
      r.length ≤ mnt.length + paths.length := by
  intro paths
  induction paths with
  | nil =>
    intro mnt c r c2 d h
    simp only [mountFilesLoop, Prod.mk.injEq, Option.some.injEq] at h
    rcases h with ⟨h1, -, -⟩
    subst h1
    simp
  | cons f fs ih =>
    intro mnt c r c2 d h
    simp only [mountFilesLoop] at h
    split at h
    case _ =>
      have := ih mnt c r c2 d h
      simp at this ⊢
      omega
    case _ =>
      split at h
      case _ => exact absurd h (by simp)
      case _ =>
      split at h
      case _ => exact absurd h (by simp)
      case _ =>
      split at h
      case _ => exact absurd h (by simp)
      case _ =>
      split at h
      case _ => exact absurd h (by simp)
      case _ =>
      split at h
      case _ => exact absurd h (by simp)
      case _ =>
      split at h
      case _ => exact absurd h (by simp)
      case _ =>
      rcases hrec : mountFilesLoop O env flags dpath fs
          (mnt ++ [pathAppend dpath (basename f)]) (c + 6) with ⟨r1, c3, d3⟩
      rw [hrec] at h
      simp only [Prod.mk.injEq] at h
      rcases h with ⟨h1, -, -⟩
      cases r1 with
      | none => simp at h1
      | some rr =>
        have hlen := ih (mnt ++ [pathAppend dpath (basename f)]) (c + 6) rr c3 d3 hrec
        simp only [Option.some.injEq] at h1
        subst h1
        simp only [List.length_append, List.length_cons, List.length_nil] at hlen ⊢
        omega

/-- `mount_files` records at most one entry per input path. -/
theorem mount_files_length (O : Oracle) (env : Env) (cnt : NvcContainer) (dir : String)
    (paths : List String) (c : Nat) (r : List String) (c2 : Nat) (d : List Ev)
    (h : mount_files O env cnt dir paths c = (some r, c2, d)) : r.length ≤ paths.length := by
  simp only [mount_files] at h
  split at h
  case _ => exact absurd h (by simp)
  case _ =>
  split at h
  case _ => exact absurd h (by simp)
  case _ =>
  split at h
  case _ => exact absurd h (by simp)
  case _ =>
  rcases hrec : mountFilesLoop O env cnt.flags (pathResolve cnt.cfg.rootfs dir) paths [] (c + 3)
      with ⟨r1, c3, d3⟩
  rw [hrec] at h
  simp only [Prod.mk.injEq] at h
  rcases h with ⟨h1, -, -⟩
  cases r1 with
  | none => simp at h1
  | some rr =>
    simp only [Option.some.injEq] at h1
    subst h1
    have := mountFilesLoop_length O env cnt.flags (pathResolve cnt.cfg.rootfs dir)
      paths [] (c + 3) rr c3 d3 hrec
    simpa using this

/-- The IPC loop records at most one entry per input path. -/
theorem ipcLoop_length (O : Oracle) (env : Env) (cnt : NvcContainer) :
    ∀ (ipcs : List String) (c : Nat) (r : Bool) (c2 : Nat) (lg : List String) (d : List Ev),
      ipcLoop O env cnt ipcs c = (r, c2, lg, d) → lg.length ≤ ipcs.length := by
  intro ipcs
  induction ipcs with
  | nil =>
    intro c r c2 lg d h
    simp only [ipcLoop, Prod.mk.injEq] at h
    rcases h with ⟨-, -, h3, -⟩
    subst h3
    simp
  | cons i is ih =>
    intro c r c2 lg d h
    simp only [ipcLoop] at h
    split at h
    case _ =>
      have := ih c r c2 lg d h
      simp only [List.length_cons]
      omega
    case _ =>
      split at h
      case _ =>
        simp only [Prod.mk.injEq] at h
        rcases h with ⟨-, -, h3, -⟩
        subst h3
        simp
      case _ p c1 dm heq =>
        rcases hrec : ipcLoop O env cnt is c1 with ⟨r1, c3, lg1, d3⟩
        rw [hrec] at h
        simp only [Prod.mk.injEq] at h
        rcases h with ⟨-, -, h3, -⟩
        subst h3
        have := ih c1 r1 c3 lg1 d3 hrec
        simp only [List.length_cons]
        omega

/-- The device loop records at most one entry per input device. -/
theorem devLoop_length (O : Oracle) (env : Env) (cnt : NvcContainer) :
    ∀ (devs : List DevNode) (c : Nat) (r : Bool) (c2 : Nat) (lg : List String) (d : List Ev),
      devLoop O env cnt devs c = (r, c2, lg, d) → lg.length ≤ devs.length := by
  intro devs
  induction devs with
  | nil =>
    intro c r c2 lg d h
    simp only [devLoop, Prod.mk.injEq] at h
    rcases h with ⟨-, -, h3, -⟩
    subst h3
    simp
  | cons dv ds ih =>
    intro c r c2 lg d h
    simp only [devLoop] at h
    split at h
    case _ =>
      have := ih c r c2 lg d h
      simp only [List.length_cons]
      omega
    case _ =>
      split at h
      case _ =>
        split at h
        case _ =>
          have := ih c r c2 lg d h
          simp only [List.length_cons]
          omega
        case _ =>
          split at h
          case _ =>
            simp only [Prod.mk.injEq] at h
            rcases h with ⟨-, -, h3, -⟩
            subst h3
            simp
          case _ rc c1 dc heq =>
            rcases hrec : devLoop O env cnt ds c1 with ⟨r1, c3, lg1, d3⟩
            rw [hrec] at h
            simp only [Prod.mk.injEq] at h
            rcases h with ⟨-, -, h3, -⟩
            subst h3
            have := ih c1 r1 c3 lg1 d3 hrec
            simp only [List.length_cons]
            omega
      case _ =>
        split at h
        case _ =>
          simp only [Prod.mk.injEq] at h
          rcases h with ⟨-, -, h3, -⟩
          subst h3
          simp
        case _ p c1 dm heq =>
          split at h
          case _ =>
            rcases hrec : devLoop O env cnt ds c1 with ⟨r1, c3, lg1, d3⟩
            rw [hrec] at h
            simp only [Prod.mk.injEq] at h
            rcases h with ⟨-, -, h3, -⟩
            subst h3
            have := ih c1 r1 c3 lg1 d3 hrec
            simp only [List.length_cons]
            omega
          case _ =>
            split at h
            case _ =>
              simp only [Prod.mk.injEq] at h
              rcases h with ⟨-, -, h3, -⟩
              subst h3
              simp
            case _ rc c2' dc heq2 =>
              rcases hrec : devLoop O env cnt ds c2' with ⟨r1, c3, lg1, d3⟩
              rw [hrec] at h
              simp only [Prod.mk.injEq] at h
              rcases h with ⟨-, -, h3, -⟩
              subst h3
              have := ih c2' r1 c3 lg1 d3 hrec
              simp only [List.length_cons]
              omega

/-- The app-profile phase records at most one entry. -/
theorem profilePhase_length (O : Oracle) (cnt : NvcContainer) (c : Nat) (r : Bool)
    (c2 : Nat) (lg : List String) (d : List Ev)
    (h : profilePhase O cnt c = (r, c2, lg, d)) : lg.length ≤ 1 := by
  simp only [profilePhase] at h
  split at h
  · split at h <;>
    · simp only [Prod.mk.injEq] at h
      rcases h with ⟨-, -, h3, -⟩
      subst h3
      simp
  · simp only [Prod.mk.injEq] at h
    rcases h with ⟨-, -, h3, -⟩
    subst h3
    simp

/-- A binary/library phase records at most one entry per input path. -/
theorem filesPhase_length (O : Oracle) (env : Env) (cnt : NvcContainer) (use : Bool)
    (dir : String) (paths : List String) (c : Nat) (r : Bool) (c2 : Nat) (lg : List String)
    (d : List Ev) (h : filesPhase O env cnt use dir paths c = (r, c2, lg, d)) :
    lg.length ≤ paths.length := by
  simp only [filesPhase] at h
  split at h
  · split at h
    case _ =>
      simp only [Prod.mk.injEq] at h
      rcases h with ⟨-, -, h3, -⟩
      subst h3
      simp
    case _ ms c1 dd heq =>
      simp only [Prod.mk.injEq] at h
      rcases h with ⟨-, -, h3, -⟩
      subst h3
      exact mount_files_length O env cnt dir paths c ms c1 dd heq
  · simp only [Prod.mk.injEq] at h
    rcases h with ⟨-, -, h3, -⟩
    subst h3
    simp

/-- The body of `nvc_driver_mount` never records more entries than the
allocated mount-log capacity `nmnt`. -/
theorem driverBody_log_length (O : Oracle) (env : Env) (cnt : NvcContainer)
    (info : NvcDriverInfo) (c : Nat) (ok : Bool) (c2 : Nat) (log : List String) (d : List Ev)
    (h : driverBody O env cnt info c = (ok, c2, log, d)) :
    log.length ≤ 2 + info.bins.length + info.libs.length + info.libs32.length
      + info.ipcs.length + info.devs.length := by
  simp only [driverBody] at h
  split at h
  case _ =>
    simp only [Prod.mk.injEq] at h
    rcases h with ⟨-, -, h3, -⟩
    subst h3
    simp
  case _ p0 c1 d1 heq1 =>
    split at h
    case _ c2' lgx d2 heq2 =>
      simp only [Prod.mk.injEq] at h
      rcases h with ⟨-, -, h3, -⟩
      subst h3
      simp only [List.length_cons, List.length_nil]
      omega
    case _ c2' logA d2 heq2 =>
      have hA := profilePhase_length O cnt c1 true c2' logA d2 heq2
      split at h
      case _ c3 lgx d3 heq3 =>
        simp only [Prod.mk.injEq] at h
        rcases h with ⟨-, -, h3, -⟩
        subst h3
        simp only [List.length_append, List.length_cons, List.length_nil]
        omega
      case _ c3 logB d3 heq3 =>
        have hB := filesPhase_length O env cnt true cnt.cfg.bins_dir info.bins c2' true c3
          logB d3 heq3
        split at h
        case _ c4 lgx d4 heq4 =>
          simp only [Prod.mk.injEq] at h
          rcases h with ⟨-, -, h3, -⟩
          subst h3
          simp only [List.length_append, List.length_cons, List.length_nil]
          omega
        case _ c4 logL d4 heq4 =>
          have hL := filesPhase_length O env cnt true cnt.cfg.libs_dir info.libs c3 true c4
            logL d4 heq4
          split at h
          case _ c5 lgx d5 heq5 =>
            simp only [Prod.mk.injEq] at h
            rcases h with ⟨-, -, h3, -⟩
            subst h3
            simp only [List.length_append, List.length_cons, List.length_nil]
            omega
          case _ c5 logL32 d5 heq5 =>
            have hL32 := filesPhase_length O env cnt (hasFlag cnt.flags OPT_COMPAT32)
              cnt.cfg.libs32_dir info.libs32 c4 true c5 logL32 d5 heq5
            split at h
            case _ c6 d6 heq6 =>
              simp only [Prod.mk.injEq] at h
              rcases h with ⟨-, -, h3, -⟩
              subst h3
              simp only [List.length_append, List.length_cons, List.length_nil]
              omega
            case _ c6 d6 heq6 =>
              split at h
              case _ c7 logI d7 heq7 =>
                have hI := ipcLoop_length O env cnt info.ipcs c6 false c7 logI d7 heq7
                simp only [Prod.mk.injEq] at h
                rcases h with ⟨-, -, h3, -⟩
                subst h3
                simp only [List.length_append, List.length_cons, List.length_nil]
                omega
              case _ c7 logI d7 heq7 =>
                have hI := ipcLoop_length O env cnt info.ipcs c6 true c7 logI d7 heq7
                rcases hD : devLoop O env cnt info.devs c7 with ⟨r8, c8, logD, d8⟩
                rw [hD] at h
                have hDl := devLoop_length O env cnt info.devs c7 r8 c8 logD d8 hD
                simp only [Prod.mk.injEq] at h
                rcases h with ⟨-, -, h3, -⟩
                subst h3
                simp only [List.length_append, List.length_cons, List.length_nil]
                omega

/-- A trace that detaches `p` and afterwards only cleans up leaves `p`
unmounted. -/
theorem notMem_mountsAfter_mid (X Y : List Ev) (p : String)
    (hY : ∀ e ∈ Y, cleanupOrExit e) :
    p ∉ mountsAfter (X ++ [Ev.umountDetach p] ++ Y) := by
  unfold mountsAfter
  rw [List.foldl_append, List.foldl_append, List.foldl_cons, List.foldl_nil]
  exact notMem_foldl_mountStep hY (notMem_mountStep_umount _ p)

/-- A trace that removes `p` and afterwards only cleans up leaves `p`
absent from the created files. -/
theorem notMem_filesAfter_mid (X Y : List Ev) (p : String)
    (hY : ∀ e ∈ Y, cleanupOrExit e) :
    p ∉ filesAfter (X ++ [Ev.fileRemove p] ++ Y) := by
  unfold filesAfter
  rw [List.foldl_append, List.foldl_append, List.foldl_cons, List.foldl_nil]
  exact notMem_foldl_fileStep hY (notMem_fileStep_remove _ p)

/-- Shape of every failing `nvc_driver_mount` run: either it failed before
recording anything (no events or only the balanced namespace pair with an
empty log), or its trace ends with the rollback of the whole log capacity
followed by the namespace exit, with the log within capacity. -/
theorem driver_fail_shape (O : Oracle) (env : Env) (ctx : NvcContext) (cnt : NvcContainer)
    (info : NvcDriverInfo)
    (h : (nvc_driver_mount O env ctx cnt info).ok = false) :
    ((nvc_driver_mount O env ctx cnt info).evs = [] ∧
      (nvc_driver_mount O env ctx cnt info).log = []) ∨
    ∃ pre, (nvc_driver_mount O env ctx cnt info).evs =
        pre ++ rollbackEvs (nvc_driver_mount O env ctx cnt info).log
            (nvc_driver_mount O env ctx cnt info).nmnt
          ++ [.exitNs ctx.mnt_ns] ∧
      (nvc_driver_mount O env ctx cnt info).log.length ≤
        (nvc_driver_mount O env ctx cnt info).nmnt := by
  cases h0 : O 0 with
  | true => left; simp [nvc_driver_mount, h0]
  | false =>
  cases h1 : O 1 with
  | true => left; simp [nvc_driver_mount, h0, h1]
  | false =>
  cases h2 : O 2 with
  | true => left; simp [nvc_driver_mount, h0, h1, h2]
  | false =>
  cases h3 : O 3 with
  | true =>
    right
    refine ⟨[.enterNs cnt.mnt_ns], ?_⟩
    simp [nvc_driver_mount, h0, h1, h2, h3, rollbackEvs_nil]
  | false =>
    rcases hb : driverBody O env cnt info 4 with ⟨ok, c, log, d⟩
    cases ok with
    | true => simp [nvc_driver_mount, h0, h1, h2, h3, hb] at h
    | false =>
      right
      refine ⟨[.enterNs cnt.mnt_ns] ++ d, ?_⟩
      constructor
      · simp [nvc_driver_mount, h0, h1, h2, h3, hb, List.append_assoc]
      · simp only [nvc_driver_mount, h0, h1, h2, h3, hb]
        simp only [Bool.false_eq_true, if_false]
        exact driverBody_log_length O env cnt info 4 false c log d hb

/-- Driver info of the concrete atomic-rollback run: a single library. -/
def sampleInfoLib : NvcDriverInfo := ⟨[], ["/host/libfoo.so.1"], [], [], []⟩

/-- C2 counterexample: the claim says a failing sub-step leaves no
engine-created file under the rootfs.  In this run the bind mount of the
library fails after the target placeholder was created: the run fails,
yet the placeholder `/r/usr/lib/libfoo.so.1` and the created directory
`/r/usr/lib` survive the rollback (the fail path of `mount_files`,
nvc_mount.c:77-80, unmounts only recorded entries and removes no created
file). -/
theorem c2_counterexample_placeholder_survives :
    (nvc_driver_mount (oracleAt 17) sampleEnv sampleCtx (sampleCnt OPT_COMPUTE_LIBS)
        sampleInfoLib).ok = false ∧
    "/r/usr/lib/libfoo.so.1" ∈ filesAfter (nvc_driver_mount (oracleAt 17) sampleEnv sampleCtx
        (sampleCnt OPT_COMPUTE_LIBS) sampleInfoLib).evs ∧
    "/r/usr/lib" ∈ filesAfter (nvc_driver_mount (oracleAt 17) sampleEnv sampleCtx
        (sampleCnt OPT_COMPUTE_LIBS) sampleInfoLib).evs := by
  refine ⟨rfl, by decide, by decide⟩

/-- C2 amended: on any sub-step failure of `nvc_driver_mount`, every
recorded mount (every populated, nonempty mount-log entry) is unmounted
with MNT_DETACH and its mountpoint file removed, so no recorded mount and
no recorded mountpoint file remains; files and directories the engine
created that were never recorded as mountpoints (target directories,
placeholders of the failing entry) may remain. -/
theorem c2_failing_run_unmounts_all_recorded :
    ∀ (O : Oracle) (env : Env) (ctx : NvcContext) (cnt : NvcContainer) (info : NvcDriverInfo),
      (nvc_driver_mount O env ctx cnt info).ok = false →
      ∀ p ∈ (nvc_driver_mount O env ctx cnt info).log, p ≠ "" →
        p ∉ mountsAfter (nvc_driver_mount O env ctx cnt info).evs ∧
        p ∉ filesAfter (nvc_driver_mount O env ctx cnt info).evs := by
  intro O env ctx cnt info h p hp hne
  rcases driver_fail_shape O env ctx cnt info h with ⟨hevs, hlog⟩ | ⟨pre, hevs, hlen⟩
  · rw [hlog] at hp
    exact absurd hp (List.not_mem_nil p)
  · obtain ⟨i, hi, hgi⟩ := List.getElem_of_mem hp
    have hg2 : (nvc_driver_mount O env ctx cnt info).log[i]? = some p := by
      rw [List.getElem?_eq_getElem hi, hgi]
    have hin : i < (nvc_driver_mount O env ctx cnt info).nmnt := lt_of_lt_of_le hi hlen
    obtain ⟨A, B, hAB, hB⟩ := rollbackEvs_decompose hin hg2
    have hunm : unmountEv (some p) = [.umountDetach p, .fileRemove p] := by
      simp [unmountEv, hne]
    rw [hevs, hAB, hunm]
    have hYm : ∀ e ∈ [Ev.fileRemove p] ++ B ++ [Ev.exitNs ctx.mnt_ns], cleanupOrExit e := by
      intro e he
      rcases List.mem_append.mp he with he | he
      · rcases List.mem_append.mp he with he | he
        · rcases List.mem_singleton.mp he with rfl
          exact Or.inr (Or.inl ⟨p, rfl⟩)
        · rcases hB e he with ⟨q, rfl⟩ | ⟨q, rfl⟩
          · exact Or.inl ⟨q, rfl⟩
          · exact Or.inr (Or.inl ⟨q, rfl⟩)
      · rcases List.mem_singleton.mp he with rfl
        exact Or.inr (Or.inr ⟨ctx.mnt_ns, rfl⟩)
    have hYf : ∀ e ∈ B ++ [Ev.exitNs ctx.mnt_ns], cleanupOrExit e := by
      intro e he
      rcases List.mem_append.mp he with he | he
      · rcases hB e he with ⟨q, rfl⟩ | ⟨q, rfl⟩
        · exact Or.inl ⟨q, rfl⟩
        · exact Or.inr (Or.inl ⟨q, rfl⟩)
      · rcases List.mem_singleton.mp he with rfl
        exact Or.inr (Or.inr ⟨ctx.mnt_ns, rfl⟩)
    constructor
    · simpa [List.append_assoc] using
        notMem_mountsAfter_mid (pre ++ A)
          ([Ev.fileRemove p] ++ B ++ [Ev.exitNs ctx.mnt_ns]) p hYm
    · simpa [List.append_assoc] using
        notMem_filesAfter_mid (pre ++ A ++ [Ev.umountDetach p])
          (B ++ [Ev.exitNs ctx.mnt_ns]) p hYf

/-- Witness for C2 at the concrete failing run: the recorded procfs mount
point is gone from both the active mounts and the created files. -/
theorem c2_witness :
    "/r/proc/driver/nvidia" ∉ mountsAfter (nvc_driver_mount (oracleAt 17) sampleEnv sampleCtx
        (sampleCnt OPT_COMPUTE_LIBS) sampleInfoLib).evs ∧
    "/r/proc/driver/nvidia" ∉ filesAfter (nvc_driver_mount (oracleAt 17) sampleEnv sampleCtx
        (sampleCnt OPT_COMPUTE_LIBS) sampleInfoLib).evs :=
  c2_failing_run_unmounts_all_recorded (oracleAt 17) sampleEnv sampleCtx
    (sampleCnt OPT_COMPUTE_LIBS) sampleInfoLib (by decide) "/r/proc/driver/nvidia"
    (by decide) (by decide)

/-- With the empty flag set no basename matches the binary or library
capability flags, so the mount-file loop skips every input. -/
theorem mountFilesLoop_flags_zero (O : Oracle) (env : Env) (dpath : String) :
    ∀ (paths mnt : List String) (c : Nat),
      mountFilesLoop O env 0 dpath paths mnt c = (some mnt, c, []) := by
  intro paths
  induction paths with
  | nil => intro mnt c; rfl
  | cons f fs ih =>
    intro mnt c
    simp only [mountFilesLoop, matchBinaryFlags, matchLibraryFlags, Nat.and_zero]
    simpa using ih mnt c

/-- With the empty flag set `mount_files` emits at most the creation of
the target directory. -/
theorem mount_files_flags_zero_evs (O : Oracle) (env : Env) (cnt : NvcContainer)
    (dir : String) (paths : List String) (c : Nat) (r : Option (List String)) (c2 : Nat)
    (d : List Ev) (hf : cnt.flags = 0) (h : mount_files O env cnt dir paths c = (r, c2, d)) :
    ∀ e ∈ d, ∃ pp, e = .fileCreate pp none := by
  simp only [mount_files, hf] at h
  split at h
  case _ =>
    simp only [Prod.mk.injEq] at h
    rcases h with ⟨-, -, h3⟩
    subst h3
    simp
  case _ =>
  split at h
  case _ =>
    simp only [Prod.mk.injEq] at h
    rcases h with ⟨-, -, h3⟩
    subst h3
    simp
  case _ =>
  split at h
  case _ =>
    simp only [Prod.mk.injEq] at h
    rcases h with ⟨-, -, h3⟩
    subst h3
    intro e he
    rcases List.mem_singleton.mp he with rfl
    exact ⟨_, rfl⟩
  case _ =>
  rw [mountFilesLoop_flags_zero O env (pathResolve cnt.cfg.rootfs dir) paths [] (c + 3)] at h
  simp only [Prod.mk.injEq] at h
  rcases h with ⟨-, -, h3⟩
  subst h3
  intro e he
  rcases List.mem_singleton.mp (by simpa using he) with rfl
  exact ⟨_, rfl⟩

/-- With the empty flag set no IPC is admitted. -/
theorem ipcLoop_flags_zero (O : Oracle) (env : Env) (cnt : NvcContainer) (hf : cnt.flags = 0) :
    ∀ (ipcs : List String) (c : Nat), ipcLoop O env cnt ipcs c = (true, c, [], []) := by
  intro ipcs
  induction ipcs with
  | nil => intro c; rfl
  | cons i is ih =>
    intro c
    simp only [ipcLoop, ipcGate, hf, hasFlag, Nat.zero_and]
    simpa using ih c

/-- Symlink creation is the only effect of `symlink_libraries`. -/
theorem symlink_libraries_evs (O : Oracle) :
    ∀ (ps : List String) (c : Nat) (r : Bool) (c2 : Nat) (d : List Ev),
      symlink_libraries O ps c = (r, c2, d) → ∀ e ∈ d, ∃ pp tt, e = .symlinkCreate pp tt := by
  intro ps
  induction ps with
  | nil =>
    intro c r c2 d h
    simp only [symlink_libraries, Prod.mk.injEq] at h
    rcases h with ⟨-, -, h3⟩
    subst h3
    simp
  | cons p ps ih =>
    intro c r c2 d h
    simp only [symlink_libraries] at h
    have hlib : ∀ (target linkname : String) (r : Bool) (c2 : Nat) (d : List Ev),
        (match symlink_library O p target linkname c with
          | (false, c1, dd) => (false, c1, dd)
          | (true, c1, dd) =>
            match symlink_libraries O ps c1 with
            | (rr, c3, d2) => (rr, c3, dd ++ d2)) = (r, c2, d) →
        ∀ e ∈ d, ∃ pp tt, e = .symlinkCreate pp tt := by
      intro target linkname r' c2' d' h'
      split at h'
      case _ c1 dd heq =>
        simp only [symlink_library] at heq
        split at heq
        case _ =>
          simp only [Prod.mk.injEq] at heq h'
          rcases heq with ⟨-, -, hdd⟩
          rcases h' with ⟨-, -, h3⟩
          subst h3
          subst hdd
          simp
        case _ =>
        split at heq
        case _ =>
          simp only [Prod.mk.injEq] at heq h'
          rcases heq with ⟨-, -, hdd⟩
          rcases h' with ⟨-, -, h3⟩
          subst h3
          subst hdd
          simp
        case _ =>
        split at heq
        case _ =>
          simp only [Prod.mk.injEq] at heq h'
          rcases heq with ⟨-, -, hdd⟩
          rcases h' with ⟨-, -, h3⟩
          subst h3
          subst hdd
          simp
        case _ =>
          simp only [Prod.mk.injEq] at heq
          exact absurd heq.1 (by simp)
      case _ c1 dd heq =>
        rcases hrec : symlink_libraries O ps c1 with ⟨r1, c3, d2⟩
        rw [hrec] at h'
        simp only [Prod.mk.injEq] at h'
        rcases h' with ⟨-, -, h3⟩
        subst h3
        intro e he
        rcases List.mem_append.mp he with he | he
        · simp only [symlink_library] at heq
          split at heq
          case _ => simp only [Prod.mk.injEq] at heq; exact absurd heq.1 (by simp)
          case _ =>
          split at heq
          case _ => simp only [Prod.mk.injEq] at heq; exact absurd heq.1 (by simp)
          case _ =>
          split at heq
          case _ => simp only [Prod.mk.injEq] at heq; exact absurd heq.1 (by simp)
          case _ =>
            simp only [Prod.mk.injEq] at heq
            rcases heq with ⟨-, -, hdd⟩
            subst hdd
            rcases List.mem_singleton.mp he with rfl
            exact ⟨_, _, rfl⟩
        · exact ih c1 r1 c3 d2 hrec e he
    split at h
    case _ => exact hlib _ _ r c2 d h
    case _ =>
      split at h
      case _ => exact hlib _ _ r c2 d h
      case _ => exact ih c r c2 d h

/-- The copy loop of `mount_procfs` only creates regular files. -/
theorem procfsLoop_evs (O : Oracle) (env : Env) (dpath : String) :
    ∀ (fs : List (Bool × String)) (c : Nat) (r : Bool) (c2 : Nat) (d : List Ev),
      procfsLoop O env dpath fs c = (r, c2, d) →
      ∀ e ∈ d, ∃ pp cc, e = .fileCreate pp (some cc) := by
  intro fs
  induction fs with
  | nil =>
    intro c r c2 d h
    simp only [procfsLoop, Prod.mk.injEq] at h
    rcases h with ⟨-, -, h3⟩
    subst h3
    simp
  | cons bf fs ih =>
    intro c r c2 d h
    rcases bf with ⟨isP, f⟩
    simp only [procfsLoop] at h
    split at h
    case _ => exact ih (c + 1) r c2 d h
    case _ content heq =>
      split at h
      case _ =>
        simp only [Prod.mk.injEq] at h
        rcases h with ⟨-, -, h3⟩
        subst h3
        simp
      case _ =>
      split at h
      case _ =>
        simp only [Prod.mk.injEq] at h
        rcases h with ⟨-, -, h3⟩
        subst h3
        simp
      case _ =>
      split at h
      case _ =>
        simp only [Prod.mk.injEq] at h
        rcases h with ⟨-, -, h3⟩
        subst h3
        simp
      case _ =>
      split at h
      case _ =>
        simp only [Prod.mk.injEq] at h
        rcases h with ⟨-, -, h3⟩
        subst h3
        simp
      case _ =>
        rcases hrec : procfsLoop O env dpath fs (c + 4) with ⟨r1, c3, d1⟩
        rw [hrec] at h
        simp only [Prod.mk.injEq] at h
        rcases h with ⟨-, -, h3⟩
        subst h3
        intro e he
        rcases List.mem_cons.mp he with rfl | he
        · exact ⟨_, _, rfl⟩
        · exact ih (c + 4) r1 c3 d1 hrec e he

/-- Events of `mount_procfs`: the tmpfs mount and remount of the procfs
directory, its unmount/removal on failure, and regular-file creations. -/
theorem mount_procfs_evs (O : Oracle) (env : Env) (cnt : NvcContainer) (c : Nat)
    (r : Option String) (c2 : Nat) (d : List Ev)
    (h : mount_procfs O env cnt c = (r, c2, d)) :
    ∀ e ∈ d,
      e = .tmpfsMount (pathResolve cnt.cfg.rootfs NV_PROC_DRIVER) ∨
      e = .remount (pathResolve cnt.cfg.rootfs NV_PROC_DRIVER) tmpfsRemountFlags ∨
      e = .umountDetach (pathResolve cnt.cfg.rootfs NV_PROC_DRIVER) ∨
      e = .fileRemove (pathResolve cnt.cfg.rootfs NV_PROC_DRIVER) ∨
      ∃ pp cc, e = .fileCreate pp (some cc) := by
  simp only [mount_procfs] at h
  split at h
  case _ =>
    simp only [Prod.mk.injEq] at h
    rcases h with ⟨-, -, h3⟩
    subst h3
    simp
  case _ =>
  split at h
  case _ =>
    simp only [Prod.mk.injEq] at h
    rcases h with ⟨-, -, h3⟩
    subst h3
    simp
  case _ =>
  have hunm : ∀ e ∈ unmountEv (some (pathResolve cnt.cfg.rootfs NV_PROC_DRIVER)),
      e = Ev.umountDetach (pathResolve cnt.cfg.rootfs NV_PROC_DRIVER) ∨
      e = Ev.fileRemove (pathResolve cnt.cfg.rootfs NV_PROC_DRIVER) := by
    intro e he
    by_cases hp : pathResolve cnt.cfg.rootfs NV_PROC_DRIVER = ""
    · simp [unmountEv, hp] at he
    · simp only [unmountEv, hp, if_false] at he
      rcases List.mem_cons.mp he with rfl | he
      · exact Or.inl rfl
      · rcases List.mem_singleton.mp he with rfl
        exact Or.inr rfl
  split at h
  case _ c3 d1 heq =>
    simp only [Prod.mk.injEq] at h
    rcases h with ⟨-, -, h3⟩
    subst h3
    intro e he
    rcases List.mem_cons.mp he with rfl | he
    · exact Or.inl rfl
    rcases List.mem_append.mp he with he | he
    · have := procfsLoop_evs O env (pathResolve cnt.cfg.rootfs NV_PROC_DRIVER) _ _ _ _ _ heq e he
      exact Or.inr (Or.inr (Or.inr (Or.inr this)))
    · rcases hunm e he with h1 | h1
      · exact Or.inr (Or.inr (Or.inl h1))
      · exact Or.inr (Or.inr (Or.inr (Or.inl h1)))
  case _ c3 d1 heq =>
    split at h
    case _ =>
      simp only [Prod.mk.injEq] at h
      rcases h with ⟨-, -, h3⟩
      subst h3
      intro e he
      rcases List.mem_cons.mp he with rfl | he
      · exact Or.inl rfl
      rcases List.mem_append.mp he with he | he
      · have := procfsLoop_evs O env (pathResolve cnt.cfg.rootfs NV_PROC_DRIVER) _ _ _ _ _ heq e he
        exact Or.inr (Or.inr (Or.inr (Or.inr this)))
      · rcases hunm e he with h1 | h1
        · exact Or.inr (Or.inr (Or.inl h1))
        · exact Or.inr (Or.inr (Or.inr (Or.inl h1)))
    case _ =>
    split at h
    case _ =>
      simp only [Prod.mk.injEq] at h
      rcases h with ⟨-, -, h3⟩
      subst h3
      intro e he
      rcases List.mem_cons.mp he with rfl | he
      · exact Or.inl rfl
      rcases List.mem_append.mp he with he | he
      · rcases List.mem_append.mp he with he | he
        · have := procfsLoop_evs O env (pathResolve cnt.cfg.rootfs NV_PROC_DRIVER) _ _ _ _ _ heq e he
          exact Or.inr (Or.inr (Or.inr (Or.inr this)))
        · rcases List.mem_singleton.mp he with rfl
          exact Or.inr (Or.inl rfl)
      · rcases hunm e he with h1 | h1
        · exact Or.inr (Or.inr (Or.inl h1))
        · exact Or.inr (Or.inr (Or.inr (Or.inl h1)))
    case _ =>
      simp only [Prod.mk.injEq] at h
      rcases h with ⟨-, -, h3⟩
      subst h3
      intro e he
      rcases List.mem_cons.mp he with rfl | he
      · exact Or.inl rfl
      rcases List.mem_append.mp he with he | he
      · have := procfsLoop_evs O env (pathResolve cnt.cfg.rootfs NV_PROC_DRIVER) _ _ _ _ _ heq e he
        exact Or.inr (Or.inr (Or.inr (Or.inr this)))
      · rcases List.mem_singleton.mp he with rfl
        exact Or.inr (Or.inl rfl)

/-- `setup_cgroup` emits at most the one cgroup write of its device id. -/
theorem setup_cgroup_evs (O : Oracle) (cnt : NvcContainer) (id : Nat) (c : Nat) (r : Bool)
    (c2 : Nat) (d : List Ev) (h : setup_cgroup O cnt id c = (r, c2, d)) :
    d = [] ∨ d = [.cgroupWrite (cnt.dev_cg ++ "/devices.allow") (majorOf id) (minorOf id)] := by
  simp only [setup_cgroup] at h
  split at h
  case _ => exact Or.inl (by simp only [Prod.mk.injEq] at h; exact h.2.2.symm)
  case _ =>
  split at h
  case _ => exact Or.inl (by simp only [Prod.mk.injEq] at h; exact h.2.2.symm)
  case _ =>
  split at h
  case _ => exact Or.inl (by simp only [Prod.mk.injEq] at h; exact h.2.2.symm)
  case _ => exact Or.inr (by simp only [Prod.mk.injEq] at h; exact h.2.2.symm)

/-- Every event of `mount_device` concerns the bind of the device path to
its resolved target. -/
theorem mount_device_evs (O : Oracle) (env : Env) (cnt : NvcContainer) (dev : String)
    (c : Nat) (r : Option String) (c2 : Nat) (d : List Ev)
    (h : mount_device O env cnt dev c = (r, c2, d)) :
    ∀ e ∈ d,
      e = .fileCreate (pathResolve cnt.cfg.rootfs dev) none ∨
      e = .bindMount dev (pathResolve cnt.cfg.rootfs dev) ∨
      e = .remount (pathResolve cnt.cfg.rootfs dev) devRemountFlags ∨
      e = .umountDetach (pathResolve cnt.cfg.rootfs dev) ∨
      e = .fileRemove (pathResolve cnt.cfg.rootfs dev) := by
  have hunm : ∀ e ∈ unmountEv (some (pathResolve cnt.cfg.rootfs dev)),
      e = Ev.umountDetach (pathResolve cnt.cfg.rootfs dev) ∨
      e = Ev.fileRemove (pathResolve cnt.cfg.rootfs dev) := by
    intro e he
    by_cases hp : pathResolve cnt.cfg.rootfs dev = ""
    · simp [unmountEv, hp] at he
    · simp only [unmountEv, hp, if_false] at he
      rcases List.mem_cons.mp he with rfl | he
      · exact Or.inl rfl
      · rcases List.mem_singleton.mp he with rfl
        exact Or.inr rfl
  simp only [mount_device] at h
  split at h
  case _ =>
    simp only [Prod.mk.injEq] at h
    rcases h with ⟨-, -, h3⟩
    subst h3
    simp
  case _ =>
  split at h
  case _ =>
    simp only [Prod.mk.injEq] at h
    rcases h with ⟨-, -, h3⟩
    subst h3
    simp
  case _ =>
  split at h
  case _ =>
    simp only [Prod.mk.injEq] at h
    rcases h with ⟨-, -, h3⟩
    subst h3
    simp
  case _ =>
  split at h
  case _ =>
    simp only [Prod.mk.injEq] at h
    rcases h with ⟨-, -, h3⟩
    subst h3
    intro e he
    rcases List.mem_cons.mp he with rfl | he
    · exact Or.inl rfl
    · rcases hunm e he with h1 | h1
      · exact Or.inr (Or.inr (Or.inr (Or.inl h1)))
      · exact Or.inr (Or.inr (Or.inr (Or.inr h1)))
  case _ =>
  split at h
  case _ =>
    simp only [Prod.mk.injEq] at h
    rcases h with ⟨-, -, h3⟩
    subst h3
    intro e he
    rcases List.mem_cons.mp he with rfl | he
    · exact Or.inl rfl
    rcases List.mem_cons.mp he with rfl | he
    · exact Or.inr (Or.inl rfl)
    · rcases hunm e he with h1 | h1
      · exact Or.inr (Or.inr (Or.inr (Or.inl h1)))
      · exact Or.inr (Or.inr (Or.inr (Or.inr h1)))
  case _ =>
  split at h
  case _ =>
    simp only [Prod.mk.injEq] at h
    rcases h with ⟨-, -, h3⟩
    subst h3
    intro e he
    rcases List.mem_cons.mp he with rfl | he
    · exact Or.inl rfl
    rcases List.mem_cons.mp he with rfl | he
    · exact Or.inr (Or.inl rfl)
    rcases List.mem_cons.mp he with rfl | he
    · exact Or.inr (Or.inr (Or.inl rfl))
    · rcases hunm e he with h1 | h1
      · exact Or.inr (Or.inr (Or.inr (Or.inl h1)))
      · exact Or.inr (Or.inr (Or.inr (Or.inr h1)))
  case _ =>
    simp only [Prod.mk.injEq] at h
    rcases h with ⟨-, -, h3⟩
    subst h3
    intro e he
    rcases List.mem_cons.mp he with rfl | he
    · exact Or.inl rfl
    rcases List.mem_cons.mp he with rfl | he
    · exact Or.inr (Or.inl rfl)
    · rcases List.mem_singleton.mp he with rfl
      exact Or.inr (Or.inr (Or.inl rfl))

/-- Every event of the device loop belongs to an admitted device: one not
skipped by the admission test (`COMPUTE_LIBS` set, or major equal to
`NV_DEVICE_MAJOR`), and is either part of its bind mount or its cgroup
write. -/
theorem devLoop_evs (O : Oracle) (env : Env) (cnt : NvcContainer) :
    ∀ (devs : List DevNode) (c : Nat) (r : Bool) (c2 : Nat) (lg : List String) (d : List Ev),
      devLoop O env cnt devs c = (r, c2, lg, d) →
      ∀ e ∈ d, ∃ dv ∈ devs,
        (hasFlag cnt.flags OPT_COMPUTE_LIBS = true ∨ majorOf dv.id = NV_DEVICE_MAJOR) ∧
        (e = .fileCreate (pathResolve cnt.cfg.rootfs dv.path) none ∨
         e = .bindMount dv.path (pathResolve cnt.cfg.rootfs dv.path) ∨
         e = .remount (pathResolve cnt.cfg.rootfs dv.path) devRemountFlags ∨
         e = .umountDetach (pathResolve cnt.cfg.rootfs dv.path) ∨
         e = .fileRemove (pathResolve cnt.cfg.rootfs dv.path) ∨
         e = .cgroupWrite (cnt.dev_cg ++ "/devices.allow") (majorOf dv.id) (minorOf dv.id)) := by
  intro devs
  induction devs with
  | nil =>
    intro c r c2 lg d h
    simp only [devLoop, Prod.mk.injEq] at h
    rcases h with ⟨-, -, -, h4⟩
    subst h4
    simp
  | cons dv ds ih =>
    intro c r c2 lg d h
    simp only [devLoop] at h
    split at h
    case _ =>
      intro e he
      obtain ⟨dw, hdw, hg, hf⟩ := ih c r c2 lg d h e he
      exact ⟨dw, List.mem_cons_of_mem dv hdw, hg, hf⟩
    case _ hgate =>
      have hadm : hasFlag cnt.flags OPT_COMPUTE_LIBS = true ∨ majorOf dv.id = NV_DEVICE_MAJOR := by
        cases hc : hasFlag cnt.flags OPT_COMPUTE_LIBS with
        | true => exact Or.inl rfl
        | false =>
          right
          by_contra hne
          exact hgate (by simp [hc, hne])
      have hcg : ∀ (e : Ev),
          e = Ev.cgroupWrite (cnt.dev_cg ++ "/devices.allow") (majorOf dv.id) (minorOf dv.id) →
          ∃ dw ∈ dv :: ds,
            (hasFlag cnt.flags OPT_COMPUTE_LIBS = true ∨ majorOf dw.id = NV_DEVICE_MAJOR) ∧
            (e = .fileCreate (pathResolve cnt.cfg.rootfs dw.path) none ∨
             e = .bindMount dw.path (pathResolve cnt.cfg.rootfs dw.path) ∨
             e = .remount (pathResolve cnt.cfg.rootfs dw.path) devRemountFlags ∨
             e = .umountDetach (pathResolve cnt.cfg.rootfs dw.path) ∨
             e = .fileRemove (pathResolve cnt.cfg.rootfs dw.path) ∨
             e = .cgroupWrite (cnt.dev_cg ++ "/devices.allow") (majorOf dw.id) (minorOf dw.id)) := by
        intro e hee
        exact ⟨dv, List.mem_cons_self dv ds, hadm, Or.inr (Or.inr (Or.inr (Or.inr (Or.inr hee))))⟩
      have hdev : ∀ (e : Ev),
          (e = .fileCreate (pathResolve cnt.cfg.rootfs dv.path) none ∨
           e = .bindMount dv.path (pathResolve cnt.cfg.rootfs dv.path) ∨
           e = .remount (pathResolve cnt.cfg.rootfs dv.path) devRemountFlags ∨
           e = .umountDetach (pathResolve cnt.cfg.rootfs dv.path) ∨
           e = .fileRemove (pathResolve cnt.cfg.rootfs dv.path)) →
          ∃ dw ∈ dv :: ds,
            (hasFlag cnt.flags OPT_COMPUTE_LIBS = true ∨ majorOf dw.id = NV_DEVICE_MAJOR) ∧
            (e = .fileCreate (pathResolve cnt.cfg.rootfs dw.path) none ∨
             e = .bindMount dw.path (pathResolve cnt.cfg.rootfs dw.path) ∨
             e = .remount (pathResolve cnt.cfg.rootfs dw.path) devRemountFlags ∨
             e = .umountDetach (pathResolve cnt.cfg.rootfs dw.path) ∨
             e = .fileRemove (pathResolve cnt.cfg.rootfs dw.path) ∨
             e = .cgroupWrite (cnt.dev_cg ++ "/devices.allow") (majorOf dw.id) (minorOf dw.id)) := by
        intro e hee
        refine ⟨dv, List.mem_cons_self dv ds, hadm, ?_⟩
        rcases hee with h1 | h1 | h1 | h1 | h1
        · exact Or.inl h1
        · exact Or.inr (Or.inl h1)
        · exact Or.inr (Or.inr (Or.inl h1))
        · exact Or.inr (Or.inr (Or.inr (Or.inl h1)))
        · exact Or.inr (Or.inr (Or.inr (Or.inr (Or.inl h1))))
      split at h
      case _ =>
        split at h
        case _ =>
          intro e he
          obtain ⟨dw, hdw, hg, hf⟩ := ih c r c2 lg d h e he
          exact ⟨dw, List.mem_cons_of_mem dv hdw, hg, hf⟩
        case _ =>
          split at h
          case _ heqc =>
            simp only [Prod.mk.injEq] at h
            rcases h with ⟨-, -, -, h4⟩
            subst h4
            intro e he
            rcases setup_cgroup_evs O cnt dv.id c _ _ _ heqc with hd | hd
            · rw [hd] at he
              simp at he
            · rw [hd] at he
              rcases List.mem_singleton.mp he with rfl
              exact hcg _ rfl
          case _ rc c1 dc heqc =>
            rcases hrec : devLoop O env cnt ds c1 with ⟨r1, c3, lg1, d3⟩
            rw [hrec] at h
            simp only [Prod.mk.injEq] at h
            rcases h with ⟨-, -, -, h4⟩
            subst h4
            intro e he
            rcases List.mem_append.mp he with he | he
            · rcases setup_cgroup_evs O cnt dv.id c _ _ _ heqc with hd | hd
              · rw [hd] at he
                simp at he
              · rw [hd] at he
                rcases List.mem_singleton.mp he with rfl
                exact hcg _ rfl
            · obtain ⟨dw, hdw, hg, hf⟩ := ih c1 r1 c3 lg1 d3 hrec e he
              exact ⟨dw, List.mem_cons_of_mem dv hdw, hg, hf⟩
      case _ =>
        split at h
        case _ heqm =>
          simp only [Prod.mk.injEq] at h
          rcases h with ⟨-, -, -, h4⟩
          subst h4
          intro e he
          exact hdev e (mount_device_evs O env cnt dv.path c _ _ _ heqm e he)
        case _ p c1 dm heqm =>
          split at h
          case _ =>
            rcases hrec : devLoop O env cnt ds c1 with ⟨r1, c3, lg1, d3⟩
            rw [hrec] at h
            simp only [Prod.mk.injEq] at h
            rcases h with ⟨-, -, -, h4⟩
            subst h4
            intro e he
            rcases List.mem_append.mp he with he | he
            · exact hdev e (mount_device_evs O env cnt dv.path c _ _ _ heqm e he)
            · obtain ⟨dw, hdw, hg, hf⟩ := ih c1 r1 c3 lg1 d3 hrec e he
              exact ⟨dw, List.mem_cons_of_mem dv hdw, hg, hf⟩
          case _ =>
            split at h
            case _ heqc =>
              simp only [Prod.mk.injEq] at h
              rcases h with ⟨-, -, -, h4⟩
              subst h4
              intro e he
              rcases List.mem_append.mp he with he | he
              · exact hdev e (mount_device_evs O env cnt dv.path c _ _ _ heqm e he)
              · rcases setup_cgroup_evs O cnt dv.id c1 _ _ _ heqc with hd | hd
                · rw [hd] at he
                  simp at he
                · rw [hd] at he
                  rcases List.mem_singleton.mp he with rfl
                  exact hcg _ rfl
            case _ rc c2' dc heqc =>
              rcases hrec : devLoop O env cnt ds c2' with ⟨r1, c3, lg1, d3⟩
              rw [hrec] at h
              simp only [Prod.mk.injEq] at h
              rcases h with ⟨-, -, -, h4⟩
              subst h4
              intro e he
              rcases List.mem_append.mp he with he | he
              · rcases List.mem_append.mp he with he | he
                · exact hdev e (mount_device_evs O env cnt dv.path c _ _ _ heqm e he)
                · rcases setup_cgroup_evs O cnt dv.id c1 _ _ _ heqc with hd | hd
                  · rw [hd] at he
                    simp at he
                  · rw [hd] at he
                    rcases List.mem_singleton.mp he with rfl
                    exact hcg _ rfl
              · obtain ⟨dw, hdw, hg, hf⟩ := ih c2' r1 c3 lg1 d3 hrec e he
                exact ⟨dw, List.mem_cons_of_mem dv hdw, hg, hf⟩

/-- With the empty flag set the app-profile phase does nothing
(`GRAPHICS_LIBS` is unset). -/
theorem profilePhase_flags_zero (O : Oracle) (cnt : NvcContainer) (c : Nat)
    (hf : cnt.flags = 0) : profilePhase O cnt c = (true, c, [], []) := by
  simp [profilePhase, hasFlag, hf]

/-- With the empty flag set a binary/library phase emits at most the
creation of the target directory. -/
theorem filesPhase_flags_zero_evs (O : Oracle) (env : Env) (cnt : NvcContainer) (use : Bool)
    (dir : String) (paths : List String) (c : Nat) (r : Bool) (c2 : Nat) (lg : List String)
    (d : List Ev) (hf : cnt.flags = 0)
    (h : filesPhase O env cnt use dir paths c = (r, c2, lg, d)) :
    ∀ e ∈ d, ∃ pp, e = .fileCreate pp none := by
  simp only [filesPhase] at h
  split at h
  · split at h
    case _ ms c1 dd heq =>
      simp only [Prod.mk.injEq] at h
      rcases h with ⟨-, -, -, h4⟩
      subst h4
      exact mount_files_flags_zero_evs O env cnt dir paths c _ _ _ hf heq
    case _ ms c1 dd heq =>
      simp only [Prod.mk.injEq] at h
      rcases h with ⟨-, -, -, h4⟩
      subst h4
      exact mount_files_flags_zero_evs O env cnt dir paths c _ _ _ hf heq
  · simp only [Prod.mk.injEq] at h
    rcases h with ⟨-, -, -, h4⟩
    subst h4
    simp

/-- Per-event admissibility with the empty flag set: binds and cgroup
writes only for devices with major `NV_DEVICE_MAJOR`, tmpfs only for the
procfs view. -/
def c4EvOk (cnt : NvcContainer) (devs : List DevNode) (e : Ev) : Prop :=
  match e with
  | .bindMount src _ => ∃ dv ∈ devs, src = dv.path ∧ majorOf dv.id = NV_DEVICE_MAJOR
  | .cgroupWrite pa ma mi => pa = cnt.dev_cg ++ "/devices.allow" ∧
      ∃ dv ∈ devs, majorOf dv.id = NV_DEVICE_MAJOR ∧ ma = majorOf dv.id ∧ mi = minorOf dv.id
  | .tmpfsMount dst => dst = pathResolve cnt.cfg.rootfs NV_PROC_DRIVER
  | _ => True

/-- With the empty flag set, every event of the driver-mount body is
admissible in the sense of `c4EvOk`. -/
theorem driverBody_flags_zero_evs (O : Oracle) (env : Env) (cnt : NvcContainer)
    (info : NvcDriverInfo) (c : Nat) (ok : Bool) (c2 : Nat) (log : List String) (d : List Ev)
    (hf : cnt.flags = 0) (h : driverBody O env cnt info c = (ok, c2, log, d)) :
    ∀ e ∈ d, c4EvOk cnt info.devs e := by
  have hproc : ∀ (cc : Nat) (r1 : Option String) (c1 : Nat) (d1 : List Ev),
      mount_procfs O env cnt cc = (r1, c1, d1) → ∀ e ∈ d1, c4EvOk cnt info.devs e := by
    intro cc r1 c1 d1 heq e he
    rcases mount_procfs_evs O env cnt cc r1 c1 d1 heq e he with
      h1 | h1 | h1 | h1 | ⟨pp, cc2, h1⟩ <;> subst h1 <;> simp [c4EvOk]
  have hfiles : ∀ (use : Bool) (dir : String) (paths : List String) (cc : Nat) (r1 : Bool)
      (c1 : Nat) (lg1 : List String) (d1 : List Ev),
      filesPhase O env cnt use dir paths cc = (r1, c1, lg1, d1) →
      ∀ e ∈ d1, c4EvOk cnt info.devs e := by
    intro use dir paths cc r1 c1 lg1 d1 heq e he
    obtain ⟨pp, h1⟩ := filesPhase_flags_zero_evs O env cnt use dir paths cc r1 c1 lg1 d1 hf heq e he
    subst h1
    simp [c4EvOk]
  simp only [driverBody] at h
  split at h
  case _ heq1 =>
    simp only [Prod.mk.injEq] at h
    rcases h with ⟨-, -, -, h4⟩
    subst h4
    exact hproc _ _ _ _ heq1
  case _ p0 c1 d1 heq1 =>
    rw [profilePhase_flags_zero O cnt c1 hf] at h
    split at h
    case _ heq2 => simp at heq2
    case _ =>
      rename_i c2' logA d2 heq2
      have heqA : logA = ([] : List String) ∧ d2 = ([] : List Ev) ∧ c2' = c1 := by
        simp only [Prod.mk.injEq] at heq2
        exact ⟨heq2.2.2.1.symm, heq2.2.2.2.symm, heq2.2.1.symm⟩
      rcases heqA with ⟨rfl, rfl, rfl⟩
      split at h
      case _ heq3 =>
        simp only [Prod.mk.injEq] at h
        rcases h with ⟨-, -, -, h4⟩
        subst h4
        intro e he
        simp only [List.append_nil] at he
        rcases List.mem_append.mp he with he | he
        · exact hproc _ _ _ _ heq1 e he
        · exact hfiles _ _ _ _ _ _ _ _ heq3 e he
      case _ =>
        rename_i c3 logB d3 heq3
        split at h
        case _ heq4 =>
          simp only [Prod.mk.injEq] at h
          rcases h with ⟨-, -, -, h4⟩
          subst h4
          intro e he
          simp only [List.append_nil] at he
          rcases List.mem_append.mp he with he | he
          · rcases List.mem_append.mp he with he | he
            · exact hproc _ _ _ _ heq1 e he
            · exact hfiles _ _ _ _ _ _ _ _ heq3 e he
          · exact hfiles _ _ _ _ _ _ _ _ heq4 e he
        case _ =>
          rename_i c4 logL d4 heq4
          split at h
          case _ heq5 =>
            simp only [Prod.mk.injEq] at h
            rcases h with ⟨-, -, -, h4⟩
            subst h4
            intro e he
            simp only [List.append_nil] at he
            rcases List.mem_append.mp he with he | he
            · rcases List.mem_append.mp he with he | he
              · rcases List.mem_append.mp he with he | he
                · exact hproc _ _ _ _ heq1 e he
                · exact hfiles _ _ _ _ _ _ _ _ heq3 e he
              · exact hfiles _ _ _ _ _ _ _ _ heq4 e he
            · exact hfiles _ _ _ _ _ _ _ _ heq5 e he
          case _ =>
            rename_i c5 logL32 d5 heq5
            split at h
            case _ heq6 =>
              simp only [Prod.mk.injEq] at h
              rcases h with ⟨-, -, -, h4⟩
              subst h4
              intro e he
              simp only [List.append_nil] at he
              rcases List.mem_append.mp he with he | he
              · rcases List.mem_append.mp he with he | he
                · rcases List.mem_append.mp he with he | he
                  · rcases List.mem_append.mp he with he | he
                    · exact hproc _ _ _ _ heq1 e he
                    · exact hfiles _ _ _ _ _ _ _ _ heq3 e he
                  · exact hfiles _ _ _ _ _ _ _ _ heq4 e he
                · exact hfiles _ _ _ _ _ _ _ _ heq5 e he
              · obtain ⟨pp, tt, h1⟩ := symlink_libraries_evs O _ _ _ _ _ heq6 e he
                subst h1
                simp [c4EvOk]
            case _ =>
              rename_i c6 d6 heq6
              rw [ipcLoop_flags_zero O env cnt hf info.ipcs c6] at h
              split at h
              case _ heq7 => simp at heq7
              case _ =>
                rename_i c7 logI d7 heq7
                have heqI : logI = ([] : List String) ∧ d7 = ([] : List Ev) := by
                  simp only [Prod.mk.injEq] at heq7
                  exact ⟨heq7.2.2.1.symm, heq7.2.2.2.symm⟩
                rcases heqI with ⟨rfl, rfl⟩
                rcases hD : devLoop O env cnt info.devs c7 with ⟨r8, c8, logD, d8⟩
                rw [hD] at h
                simp only [Prod.mk.injEq] at h
                rcases h with ⟨-, -, -, h4⟩
                subst h4
                intro e he
                simp only [List.append_nil] at he
                rcases List.mem_append.mp he with he | he
                · rcases List.mem_append.mp he with he | he
                  · rcases List.mem_append.mp he with he | he
                    · rcases List.mem_append.mp he with he | he
                      · rcases List.mem_append.mp he with he | he
                        · exact hproc _ _ _ _ heq1 e he
                        · exact hfiles _ _ _ _ _ _ _ _ heq3 e he
                      · exact hfiles _ _ _ _ _ _ _ _ heq4 e he
                    · exact hfiles _ _ _ _ _ _ _ _ heq5 e he
                  · obtain ⟨pp, tt, h1⟩ := symlink_libraries_evs O _ _ _ _ _ heq6 e he
                    subst h1
                    simp [c4EvOk]
                · obtain ⟨dw, hdw, hg, hform⟩ := devLoop_evs O env cnt info.devs c7 r8 c8
                    logD d8 hD e he
                  have h195 : majorOf dw.id = NV_DEVICE_MAJOR := by
                    rcases hg with hg | hg
                    · rw [hf] at hg
                      simp [hasFlag] at hg
                    · exact hg
                  rcases hform with h1 | h1 | h1 | h1 | h1 | h1
                  · subst h1; simp [c4EvOk]
                  · subst h1
                    exact ⟨dw, hdw, rfl, h195⟩
                  · subst h1; simp [c4EvOk]
                  · subst h1; simp [c4EvOk]
                  · subst h1; simp [c4EvOk]
                  · subst h1
                    exact ⟨rfl, dw, hdw, h195, rfl, rfl⟩

/-- C4 amended: with the empty flag set, `nvc_driver_mount` creates only
the procfs view plus the devices whose major is `NV_DEVICE_MAJOR` (195):
every tmpfs mount is the procfs view, every bind mount is of a device in
`info.devs` whose major is 195 (the admission test of nvc_mount.c:436
keeps such devices even with no flags), and every cgroup write authorizes
such a device; in particular no library, binary or IPC is bind-mounted
and no app profile is created. -/
theorem c4_empty_flags_only_procfs_and_major195 :
    ∀ (O : Oracle) (env : Env) (ctx : NvcContext) (cnt : NvcContainer) (info : NvcDriverInfo),
      cnt.flags = 0 →
      ∀ e ∈ (nvc_driver_mount O env ctx cnt info).evs, c4EvOk cnt info.devs e := by
  intro O env ctx cnt info hf e he
  cases h0 : O 0 with
  | true => simp [nvc_driver_mount, h0] at he
  | false =>
  cases h1 : O 1 with
  | true => simp [nvc_driver_mount, h0, h1] at he
  | false =>
  cases h2 : O 2 with
  | true => simp [nvc_driver_mount, h0, h1, h2] at he
  | false =>
  cases h3 : O 3 with
  | true =>
    simp [nvc_driver_mount, h0, h1, h2, h3] at he
    rcases he with rfl | rfl <;> simp [c4EvOk]
  | false =>
    rcases hb : driverBody O env cnt info 4 with ⟨ok, cB, log, d⟩
    cases ok with
    | true =>
      simp [nvc_driver_mount, h0, h1, h2, h3, hb] at he
      rcases he with rfl | he | rfl
      · simp [c4EvOk]
      · exact driverBody_flags_zero_evs O env cnt info 4 true cB log d hf hb e he
      · simp [c4EvOk]
    | false =>
      simp [nvc_driver_mount, h0, h1, h2, h3, hb] at he
      rcases he with rfl | he | he | rfl
      · simp [c4EvOk]
      · exact driverBody_flags_zero_evs O env cnt info 4 false cB log d hf hb e he
      · rcases mem_rollbackEvs log _ he with ⟨q, rfl⟩ | ⟨q, rfl⟩ <;> simp [c4EvOk]
      · simp [c4EvOk]

/-- Driver info with a single NVIDIA device node of major 195. -/
def sampleInfoDev195 : NvcDriverInfo := ⟨[], [], [], [], [⟨"/dev/nvidia0", makedevOf 195 0⟩]⟩

/-- C4 counterexample: the claim says that with the empty flag set no
device is mounted and no cgroup entry is written.  In this run with empty
flags and one major-195 device node, the run succeeds, the device is
bind-mounted and its cgroup entry is written (the admission test of
nvc_mount.c:436 skips a device only when `COMPUTE_LIBS` is unset AND its
major differs from 195). -/
theorem c4_counterexample_major195_device_mounted :
    (nvc_driver_mount oracleNone sampleEnv sampleCtx (sampleCnt 0) sampleInfoDev195).ok
      = true ∧
    Ev.bindMount "/dev/nvidia0" "/r/dev/nvidia0" ∈
      (nvc_driver_mount oracleNone sampleEnv sampleCtx (sampleCnt 0) sampleInfoDev195).evs ∧
    Ev.cgroupWrite "/cg/devices.allow" 195 0 ∈
      (nvc_driver_mount oracleNone sampleEnv sampleCtx (sampleCnt 0) sampleInfoDev195).evs := by
  refine ⟨rfl, by decide, by decide⟩

/-- Witness for C4 at the concrete empty-flag run: the bind-mount event of
the run is admissible, naming the major-195 device. -/
theorem c4_witness :
    c4EvOk (sampleCnt 0) sampleInfoDev195.devs
      (Ev.bindMount "/dev/nvidia0" "/r/dev/nvidia0") :=
  c4_empty_flags_only_procfs_and_major195 oracleNone sampleEnv sampleCtx (sampleCnt 0)
    sampleInfoDev195 rfl (Ev.bindMount "/dev/nvidia0" "/r/dev/nvidia0") (by decide)

/-- Every event of `mount_ipc` concerns the bind of the IPC path to its
resolved target. -/
theorem mount_ipc_evs (O : Oracle) (env : Env) (cnt : NvcContainer) (ipc : String)
    (c : Nat) (r : Option String) (c2 : Nat) (d : List Ev)
    (h : mount_ipc O env cnt ipc c = (r, c2, d)) :
    ∀ e ∈ d,
      e = .fileCreate (pathResolve cnt.cfg.rootfs ipc) none ∨
      e = .bindMount ipc (pathResolve cnt.cfg.rootfs ipc) ∨
      e = .remount (pathResolve cnt.cfg.rootfs ipc) ipcRemountFlags ∨
      e = .umountDetach (pathResolve cnt.cfg.rootfs ipc) ∨
      e = .fileRemove (pathResolve cnt.cfg.rootfs ipc) := by
  have hunm : ∀ e ∈ unmountEv (some (pathResolve cnt.cfg.rootfs ipc)),
      e = Ev.umountDetach (pathResolve cnt.cfg.rootfs ipc) ∨
      e = Ev.fileRemove (pathResolve cnt.cfg.rootfs ipc) := by
    intro e he
    by_cases hp : pathResolve cnt.cfg.rootfs ipc = ""
    · simp [unmountEv, hp] at he
    · simp only [unmountEv, hp, if_false] at he
      rcases List.mem_cons.mp he with rfl | he
      · exact Or.inl rfl
      · rcases List.mem_singleton.mp he with rfl
        exact Or.inr rfl
  simp only [mount_ipc] at h
  split at h
  case _ =>
    simp only [Prod.mk.injEq] at h
    rcases h with ⟨-, -, h3⟩
    subst h3
    simp
  case _ =>
  split at h
  case _ =>
    simp only [Prod.mk.injEq] at h
    rcases h with ⟨-, -, h3⟩
    subst h3
    simp
  case _ =>
  split at h
  case _ =>
    simp only [Prod.mk.injEq] at h
    rcases h with ⟨-, -, h3⟩
    subst h3
    simp
  case _ =>
  split at h
  case _ =>
    simp only [Prod.mk.injEq] at h
    rcases h with ⟨-, -, h3⟩
    subst h3
    intro e he
    rcases List.mem_cons.mp he with rfl | he
    · exact Or.inl rfl
    · rcases hunm e he with h1 | h1
      · exact Or.inr (Or.inr (Or.inr (Or.inl h1)))
      · exact Or.inr (Or.inr (Or.inr (Or.inr h1)))
  case _ =>
  split at h
  case _ =>
    simp only [Prod.mk.injEq] at h
    rcases h with ⟨-, -, h3⟩
    subst h3
    intro e he
    rcases List.mem_cons.mp he with rfl | he
    · exact Or.inl rfl
    rcases List.mem_cons.mp he with rfl | he
    · exact Or.inr (Or.inl rfl)
    · rcases hunm e he with h1 | h1
      · exact Or.inr (Or.inr (Or.inr (Or.inl h1)))
      · exact Or.inr (Or.inr (Or.inr (Or.inr h1)))
  case _ =>
  split at h
  case _ =>
    simp only [Prod.mk.injEq] at h
    rcases h with ⟨-, -, h3⟩
    subst h3
    intro e he
    rcases List.mem_cons.mp he with rfl | he
    · exact Or.inl rfl
    rcases List.mem_cons.mp he with rfl | he
    · exact Or.inr (Or.inl rfl)
    rcases List.mem_cons.mp he with rfl | he
    · exact Or.inr (Or.inr (Or.inl rfl))
    · rcases hunm e he with h1 | h1
      · exact Or.inr (Or.inr (Or.inr (Or.inl h1)))
      · exact Or.inr (Or.inr (Or.inr (Or.inr h1)))
  case _ =>
    simp only [Prod.mk.injEq] at h
    rcases h with ⟨-, -, h3⟩
    subst h3
    intro e he
    rcases List.mem_cons.mp he with rfl | he
    · exact Or.inl rfl
    rcases List.mem_cons.mp he with rfl | he
    · exact Or.inr (Or.inl rfl)
    · rcases List.mem_singleton.mp he with rfl
      exact Or.inr (Or.inr (Or.inl rfl))

/-- A successful `mount_ipc` returns the resolved target and emits exactly
the placeholder creation, the bind, and the class remount. -/
theorem mount_ipc_success (O : Oracle) (env : Env) (cnt : NvcContainer) (ipc : String)
    (c : Nat) (p : String) (c2 : Nat) (d : List Ev)
    (h : mount_ipc O env cnt ipc c = (some p, c2, d)) :
    p = pathResolve cnt.cfg.rootfs ipc ∧
    d = [.fileCreate p none, .bindMount ipc p, .remount p ipcRemountFlags] := by
  simp only [mount_ipc] at h
  split at h
  case _ => simp at h
  case _ =>
  split at h
  case _ => simp at h
  case _ =>
  split at h
  case _ => simp at h
  case _ =>
  split at h
  case _ => simp only [Prod.mk.injEq] at h; exact absurd h.1 (by simp)
  case _ =>
  split at h
  case _ => simp only [Prod.mk.injEq] at h; exact absurd h.1 (by simp)
  case _ =>
  split at h
  case _ => simp only [Prod.mk.injEq] at h; exact absurd h.1 (by simp)
  case _ =>
    simp only [Prod.mk.injEq, Option.some.injEq] at h
    rcases h with ⟨h1, -, h3⟩
    subst h1
    subst h3
    exact ⟨rfl, rfl⟩

/-- Every event of the IPC loop belongs to an IPC path that passed the
admission test. -/
theorem ipcLoop_evs (O : Oracle) (env : Env) (cnt : NvcContainer) :
    ∀ (ipcs : List String) (c : Nat) (r : Bool) (c2 : Nat) (lg : List String) (d : List Ev),
      ipcLoop O env cnt ipcs c = (r, c2, lg, d) →
      ∀ e ∈ d, ∃ i ∈ ipcs, ipcGate cnt.flags i = true ∧
        (e = .fileCreate (pathResolve cnt.cfg.rootfs i) none ∨
         e = .bindMount i (pathResolve cnt.cfg.rootfs i) ∨
         e = .remount (pathResolve cnt.cfg.rootfs i) ipcRemountFlags ∨
         e = .umountDetach (pathResolve cnt.cfg.rootfs i) ∨
         e = .fileRemove (pathResolve cnt.cfg.rootfs i)) := by
  intro ipcs
  induction ipcs with
  | nil =>
    intro c r c2 lg d h
    simp only [ipcLoop, Prod.mk.injEq] at h
    rcases h with ⟨-, -, -, h4⟩
    subst h4
    simp
  | cons i is ih =>
    intro c r c2 lg d h
    simp only [ipcLoop] at h
    split at h
    case _ =>
      intro e he
      obtain ⟨j, hj, hg, hf⟩ := ih c r c2 lg d h e he
      exact ⟨j, List.mem_cons_of_mem i hj, hg, hf⟩
    case _ hgate =>
      have hg : ipcGate cnt.flags i = true := by
        cases hgi : ipcGate cnt.flags i with
        | true => rfl
        | false => exact absurd (by simp [hgi]) hgate
      split at h
      case _ heqm =>
        simp only [Prod.mk.injEq] at h
        rcases h with ⟨-, -, -, h4⟩
        subst h4
        intro e he
        exact ⟨i, List.mem_cons_self i is, hg,
          mount_ipc_evs O env cnt i c _ _ _ heqm e he⟩
      case _ p c1 dm heqm =>
        rcases hrec : ipcLoop O env cnt is c1 with ⟨r1, c3, lg1, d3⟩
        rw [hrec] at h
        simp only [Prod.mk.injEq] at h
        rcases h with ⟨-, -, -, h4⟩
        subst h4
        intro e he
        rcases List.mem_append.mp he with he | he
        · exact ⟨i, List.mem_cons_self i is, hg,
            mount_ipc_evs O env cnt i c _ _ _ heqm e he⟩
        · obtain ⟨j, hj, hgj, hf⟩ := ih c1 r1 c3 lg1 d3 hrec e he
          exact ⟨j, List.mem_cons_of_mem i hj, hgj, hf⟩

/-- On a successful IPC loop, every admitted IPC path is bind-mounted. -/
theorem ipcLoop_mounts_admitted (O : Oracle) (env : Env) (cnt : NvcContainer) :
    ∀ (ipcs : List String) (c : Nat) (c2 : Nat) (lg : List String) (d : List Ev),
      ipcLoop O env cnt ipcs c = (true, c2, lg, d) →
      ∀ i ∈ ipcs, ipcGate cnt.flags i = true →
        Ev.bindMount i (pathResolve cnt.cfg.rootfs i) ∈ d := by
  intro ipcs
  induction ipcs with
  | nil =>
    intro c c2 lg d h i hi
    exact absurd hi (List.not_mem_nil i)
  | cons j is ih =>
    intro c c2 lg d h i hi hgi
    simp only [ipcLoop] at h
    split at h
    case _ hgate =>
      rcases List.mem_cons.mp hi with rfl | hi
      · rw [hgi] at hgate
        simp at hgate
      · exact ih c c2 lg d h i hi hgi
    case _ =>
      split at h
      case _ heqm =>
        simp only [Prod.mk.injEq] at h
        exact absurd h.1 (by simp)
      case _ p c1 dm heqm =>
        rcases hrec : ipcLoop O env cnt is c1 with ⟨r1, c3, lg1, d3⟩
        rw [hrec] at h
        simp only [Prod.mk.injEq] at h
        rcases h with ⟨h1, -, -, h4⟩
        subst h4
        rcases List.mem_cons.mp hi with rfl | hi
        · obtain ⟨hp, hd⟩ := mount_ipc_success O env cnt i c p c1 dm heqm
          subst hp
          subst hd
          exact List.mem_append.mpr (Or.inl (by simp))
        · subst h1
          exact List.mem_append.mpr (Or.inr (ih c1 c3 lg1 d3 hrec i hi hgi))

/-- On a successful IPC loop, an IPC path of the input is bind-mounted iff
it passes the admission test. -/
theorem ipcLoop_bind_iff (O : Oracle) (env : Env) (cnt : NvcContainer) (ipcs : List String)
    (c c2 : Nat) (lg : List String) (d : List Ev)
    (h : ipcLoop O env cnt ipcs c = (true, c2, lg, d)) :
    ∀ i ∈ ipcs,
      ((∃ dst, Ev.bindMount i dst ∈ d) ↔
        ((i = NV_PERSISTENCED_SOCKET ∧ hasFlag cnt.flags OPT_UTILITY_LIBS = true) ∨
         (¬ i = NV_PERSISTENCED_SOCKET ∧ hasFlag cnt.flags OPT_COMPUTE_LIBS = true))) := by
  intro i hi
  constructor
  · rintro ⟨dst, hbind⟩
    obtain ⟨j, hj, hgj, hform⟩ := ipcLoop_evs O env cnt ipcs c true c2 lg d h _ hbind
    have hij : i = j ∧ dst = pathResolve cnt.cfg.rootfs j := by
      rcases hform with h1 | h1 | h1 | h1 | h1
      · exact absurd h1 (by simp)
      · exact (Ev.bindMount.injEq _ _ _ _).mp h1
      · exact absurd h1 (by simp)
      · exact absurd h1 (by simp)
      · exact absurd h1 (by simp)
    rcases hij with ⟨rfl, -⟩
    unfold ipcGate at hgj
    by_cases hp : i = NV_PERSISTENCED_SOCKET
    · rw [if_pos hp] at hgj
      exact Or.inl ⟨hp, hgj⟩
    · rw [if_neg hp] at hgj
      exact Or.inr ⟨hp, hgj⟩
  · intro hgform
    have hg : ipcGate cnt.flags i = true := by
      unfold ipcGate
      rcases hgform with ⟨hp, hu⟩ | ⟨hp, hc⟩
      · rw [if_pos hp]
        exact hu
      · rw [if_neg hp]
        exact hc
    exact ⟨pathResolve cnt.cfg.rootfs i,
      ipcLoop_mounts_admitted O env cnt ipcs c c2 lg d h i hi hg⟩

/-- C5: inside `nvc_driver_mount`, the IPC loop (nvc_mount.c:423-432)
mounts an IPC path iff it is the persistenced socket and `UTILITY_LIBS`
is set, or it is not the persistenced socket and `COMPUTE_LIBS` is set;
hence with flags `{UTILITY_LIBS}` only the persistenced socket is mounted,
and with flags `{GRAPHICS_LIBS}` no IPC is mounted at all. -/
theorem c5_ipc_gating :
    (∀ (O : Oracle) (env : Env) (cnt : NvcContainer) (ipcs : List String)
        (c c2 : Nat) (lg : List String) (d : List Ev),
      ipcLoop O env cnt ipcs c = (true, c2, lg, d) →
      ∀ i ∈ ipcs,
        ((∃ dst, Ev.bindMount i dst ∈ d) ↔
          ((i = NV_PERSISTENCED_SOCKET ∧ hasFlag cnt.flags OPT_UTILITY_LIBS = true) ∨
           (¬ i = NV_PERSISTENCED_SOCKET ∧ hasFlag cnt.flags OPT_COMPUTE_LIBS = true)))) ∧
    (∀ (O : Oracle) (env : Env) (cnt : NvcContainer) (ipcs : List String)
        (c c2 : Nat) (lg : List String) (d : List Ev),
      cnt.flags = OPT_UTILITY_LIBS →
      ipcLoop O env cnt ipcs c = (true, c2, lg, d) →
      ∀ i ∈ ipcs, ((∃ dst, Ev.bindMount i dst ∈ d) ↔ i = NV_PERSISTENCED_SOCKET)) ∧
    (∀ (O : Oracle) (env : Env) (cnt : NvcContainer) (ipcs : List String)
        (c : Nat) (r : Bool) (c2 : Nat) (lg : List String) (d : List Ev),
      cnt.flags = OPT_GRAPHICS_LIBS →
      ipcLoop O env cnt ipcs c = (r, c2, lg, d) →
      ∀ src dst, Ev.bindMount src dst ∉ d) := by
  refine ⟨ipcLoop_bind_iff, ?_, ?_⟩
  · intro O env cnt ipcs c c2 lg d hf h i hi
    have := ipcLoop_bind_iff O env cnt ipcs c c2 lg d h i hi
    rw [this, hf]
    constructor
    · rintro (⟨hp, -⟩ | ⟨-, hc⟩)
      · exact hp
      · exact absurd hc (by decide)
    · intro hp
      exact Or.inl ⟨hp, by decide⟩
  · intro O env cnt ipcs c r c2 lg d hf h src dst hmem
    obtain ⟨j, -, hgj, hform⟩ := ipcLoop_evs O env cnt ipcs c r c2 lg d h _ hmem
    have : ipcGate cnt.flags j = false := by
      unfold ipcGate
      rw [hf]
      by_cases hp : j = NV_PERSISTENCED_SOCKET
      · rw [if_pos hp]
        decide
      · rw [if_neg hp]
        decide
    rw [this] at hgj
    exact absurd hgj (by simp)

/-- Witness for C5 at a concrete input: with `{UTILITY_LIBS}` and IPC list
containing the persistenced socket and `/a`, the persistenced socket is
mounted and `/a` is not. -/
theorem c5_witness :
    ((∃ dst, Ev.bindMount NV_PERSISTENCED_SOCKET dst ∈
        (ipcLoop oracleNone
          { host := { files := fun _ => some "", rdev := fun _ => none },
            binFlagsOf := fun _ => 0, libFlagsOf := fun _ => 0 }
          (sampleCnt OPT_UTILITY_LIBS) [NV_PERSISTENCED_SOCKET, "/a"] 0).2.2.2) ↔
      NV_PERSISTENCED_SOCKET = NV_PERSISTENCED_SOCKET) ∧
    ((∃ dst, Ev.bindMount "/a" dst ∈
        (ipcLoop oracleNone
          { host := { files := fun _ => some "", rdev := fun _ => none },
            binFlagsOf := fun _ => 0, libFlagsOf := fun _ => 0 }
          (sampleCnt OPT_UTILITY_LIBS) [NV_PERSISTENCED_SOCKET, "/a"] 0).2.2.2) ↔
      "/a" = NV_PERSISTENCED_SOCKET) := by
  have h := c5_ipc_gating.2.1 oracleNone
    { host := { files := fun _ => some "", rdev := fun _ => none },
      binFlagsOf := fun _ => 0, libFlagsOf := fun _ => 0 }
    (sampleCnt OPT_UTILITY_LIBS) [NV_PERSISTENCED_SOCKET, "/a"] 0 6
    [pathResolve "/r" NV_PERSISTENCED_SOCKET]
    [.fileCreate (pathResolve "/r" NV_PERSISTENCED_SOCKET) none,
     .bindMount NV_PERSISTENCED_SOCKET (pathResolve "/r" NV_PERSISTENCED_SOCKET),
     .remount (pathResolve "/r" NV_PERSISTENCED_SOCKET) ipcRemountFlags]
    rfl (by decide)
  exact ⟨h NV_PERSISTENCED_SOCKET (by decide), h "/a" (by decide)⟩

/-- Whether an event is a mount operation (bind, tmpfs or remount) at the
given mount point. -/
def mountEvAt (p : String) (e : Ev) : Bool :=
  match e with
  | .bindMount _ dd => dd == p
  | .tmpfsMount dd => dd == p
  | .remount dd _ => dd == p
  | _ => false

/-- The last mount operation of a trace at a given mount point. -/
def lastMountOp (p : String) (evs : List Ev) : Option Ev :=
  evs.foldl (fun acc e => if mountEvAt p e then some e else acc) none

/-- Folding over events with no mount operation at `p` keeps the
accumulator. -/
theorem lastMountOp_foldl_const {p : String} {B : List Ev}
    (hB : ∀ e ∈ B, mountEvAt p e = false) (acc : Option Ev) :
    B.foldl (fun acc e => if mountEvAt p e then some e else acc) acc = acc := by
  induction B generalizing acc with
  | nil => rfl
  | cons e B ih =>
    rw [List.foldl_cons, hB e (List.mem_cons_self e B)]
    exact ih (fun x hx => hB x (List.mem_cons_of_mem e hx)) acc

/-- The fold never falls back to `none` once an operation was seen. -/
theorem lastMountOp_foldl_ne_none {p : String} {B : List Ev} (x : Ev) :
    B.foldl (fun acc e => if mountEvAt p e then some e else acc) (some x) ≠ none := by
  induction B generalizing x with
  | nil => simp
  | cons e B ih =>
    rw [List.foldl_cons]
    by_cases hm : mountEvAt p e
    · rw [if_pos hm]
      exact ih e
    · rw [if_neg hm]
      exact ih x

/-- A `none` result means no mount operation at `p` occurred. -/
theorem lastMountOp_none {p : String} {B : List Ev}
    (h : lastMountOp p B = none) : ∀ e ∈ B, mountEvAt p e = false := by
  induction B with
  | nil => simp
  | cons e B ih =>
    unfold lastMountOp at h ih
    rw [List.foldl_cons] at h
    by_cases hm : mountEvAt p e
    · rw [if_pos hm] at h
      exact absurd h (lastMountOp_foldl_ne_none e)
    · rw [if_neg hm] at h
      intro x hx
      rcases List.mem_cons.mp hx with rfl | hx
      · simpa using hm
      · exact ih h x hx

/-- A `some` result is independent of the starting accumulator. -/
theorem lastMountOp_foldl_some {p : String} {B : List Ev} {x : Ev}
    (h : lastMountOp p B = some x) (acc : Option Ev) :
    B.foldl (fun acc e => if mountEvAt p e then some e else acc) acc = some x := by
  induction B generalizing acc with
  | nil => simp [lastMountOp] at h
  | cons e B ih =>
    unfold lastMountOp at h ih
    rw [List.foldl_cons] at h ⊢
    by_cases hm : mountEvAt p e
    · rw [if_pos hm] at h ⊢
      exact h
    · rw [if_neg hm] at h ⊢
      exact ih h acc

/-- The last mount operation of an appended trace. -/
theorem lastMountOp_append (p : String) (A B : List Ev) :
    lastMountOp p (A ++ B) =
      (if lastMountOp p B = none then lastMountOp p A else lastMountOp p B) := by
  by_cases hb : lastMountOp p B = none
  · rw [if_pos hb]
    unfold lastMountOp
    rw [List.foldl_append]
    exact lastMountOp_foldl_const (lastMountOp_none hb) _
  · rw [if_neg hb]
    rcases Option.ne_none_iff_exists'.mp hb with ⟨y, hy⟩
    rw [hy]
    unfold lastMountOp
    rw [List.foldl_append]
    exact lastMountOp_foldl_some hy _

/-- A successful `mount_device` returns the resolved target and emits
exactly the placeholder creation, the bind, and the class remount. -/
theorem mount_device_success (O : Oracle) (env : Env) (cnt : NvcContainer) (dev : String)
    (c : Nat) (p : String) (c2 : Nat) (d : List Ev)
    (h : mount_device O env cnt dev c = (some p, c2, d)) :
    p = pathResolve cnt.cfg.rootfs dev ∧
    d = [.fileCreate p none, .bindMount dev p, .remount p devRemountFlags] := by
  simp only [mount_device] at h
  split at h
  case _ => simp at h
  case _ =>
  split at h
  case _ => simp at h
  case _ =>
  split at h
  case _ => simp at h
  case _ =>
  split at h
  case _ => simp only [Prod.mk.injEq] at h; exact absurd h.1 (by simp)
  case _ =>
  split at h
  case _ => simp only [Prod.mk.injEq] at h; exact absurd h.1 (by simp)
  case _ =>
  split at h
  case _ => simp only [Prod.mk.injEq] at h; exact absurd h.1 (by simp)
  case _ =>
    simp only [Prod.mk.injEq, Option.some.injEq] at h
    rcases h with ⟨h1, -, h3⟩
    subst h1
    subst h3
    exact ⟨rfl, rfl⟩

/-- A successful `mount_procfs_gpu` returns the resolved per-GPU procfs
dir and emits exactly the placeholder creation, the bind, and the class
remount. -/
theorem mount_procfs_gpu_success (O : Oracle) (env : Env) (cnt : NvcContainer)
    (busid : String) (c : Nat) (p : String) (c2 : Nat) (d : List Ev)
    (h : mount_procfs_gpu O env cnt busid c = (some p, c2, d)) :
    p = pathResolve cnt.cfg.rootfs (NV_PROC_DRIVER ++ "/gpus/" ++ (⟨busid.data.drop 4⟩ : String)) ∧
    d = [.fileCreate p none,
         .bindMount (NV_PROC_DRIVER ++ "/gpus/" ++ (⟨busid.data.drop 4⟩ : String)) p,
         .remount p gpuRemountFlags] := by
  simp only [mount_procfs_gpu] at h
  split at h
  case _ => simp at h
  case _ =>
  split at h
  case _ => simp at h
  case _ =>
  split at h
  case _ => simp at h
  case _ =>
  split at h
  case _ => simp only [Prod.mk.injEq] at h; exact absurd h.1 (by simp)
  case _ =>
  split at h
  case _ => simp only [Prod.mk.injEq] at h; exact absurd h.1 (by simp)
  case _ =>
  split at h
  case _ => simp only [Prod.mk.injEq] at h; exact absurd h.1 (by simp)
  case _ =>
  split at h
  case _ => simp only [Prod.mk.injEq] at h; exact absurd h.1 (by simp)
  case _ =>
    simp only [Prod.mk.injEq, Option.some.injEq] at h
    rcases h with ⟨h1, -, h3⟩
    subst h1
    subst h3
    exact ⟨rfl, rfl⟩

/-- A successful `mount_app_profile` returns the resolved profile dir and
emits exactly its creation, the tmpfs mount, and the class remount. -/
theorem mount_app_profile_success (O : Oracle) (cnt : NvcContainer) (c : Nat) (p : String)
    (c2 : Nat) (d : List Ev) (h : mount_app_profile O cnt c = (some p, c2, d)) :
    p = pathResolve cnt.cfg.rootfs NV_APP_PROFILE_DIR ∧
    d = [.fileCreate p none, .tmpfsMount p, .remount p tmpfsRemountFlags] := by
  simp only [mount_app_profile] at h
  split at h
  case _ => simp at h
  case _ =>
  split at h
  case _ => simp only [Prod.mk.injEq] at h; exact absurd h.1 (by simp)
  case _ =>
  split at h
  case _ => simp only [Prod.mk.injEq] at h; exact absurd h.1 (by simp)
  case _ =>
  split at h
  case _ => simp only [Prod.mk.injEq] at h; exact absurd h.1 (by simp)
  case _ =>
  split at h
  case _ => simp only [Prod.mk.injEq] at h; exact absurd h.1 (by simp)
  case _ =>
    simp only [Prod.mk.injEq, Option.some.injEq] at h
    rcases h with ⟨h1, -, h3⟩
    subst h1
    subst h3
    exact ⟨rfl, rfl⟩

/-- A successful `mount_procfs` returns the resolved procfs dir; its trace
is the tmpfs mount, the copied files, and the class remount last. -/
theorem mount_procfs_success (O : Oracle) (env : Env) (cnt : NvcContainer) (c : Nat)
    (p : String) (c2 : Nat) (d : List Ev)
    (h : mount_procfs O env cnt c = (some p, c2, d)) :
    p = pathResolve cnt.cfg.rootfs NV_PROC_DRIVER ∧
    ∃ dmid, (∀ e ∈ dmid, ∃ pp cc, e = Ev.fileCreate pp (some cc)) ∧
      d = [.tmpfsMount p] ++ dmid ++ [.remount p tmpfsRemountFlags] := by
  simp only [mount_procfs] at h
  split at h
  case _ => simp at h
  case _ =>
  split at h
  case _ => simp at h
  case _ =>
  split at h
  case _ => simp only [Prod.mk.injEq] at h; exact absurd h.1 (by simp)
  case _ c3 d1 heq =>
    split at h
    case _ => simp only [Prod.mk.injEq] at h; exact absurd h.1 (by simp)
    case _ =>
    split at h
    case _ => simp only [Prod.mk.injEq] at h; exact absurd h.1 (by simp)
    case _ =>
      simp only [Prod.mk.injEq, Option.some.injEq] at h
      rcases h with ⟨h1, -, h3⟩
      subst h1
      subst h3
      exact ⟨rfl, d1, procfsLoop_evs O env _ _ _ _ _ _ heq, by simp⟩

/-- The loop of `mount_files` leaves, at every path, either no mount
operation (and then the path was already recorded on entry), or a final
remount with the library/binary class mask. -/
theorem mountFilesLoop_lastOp (O : Oracle) (env : Env) (flags : Nat) (dpath : String) :
    ∀ (paths mnt : List String) (c : Nat) (r : List String) (c2 : Nat) (d : List Ev),
      mountFilesLoop O env flags dpath paths mnt c = (some r, c2, d) →
      ∀ p, (lastMountOp p d = none ∧ (p ∈ r → p ∈ mnt)) ∨
        lastMountOp p d = some (.remount p fileRemountFlags) := by
  intro paths
  induction paths with
  | nil =>
    intro mnt c r c2 d h
    simp only [mountFilesLoop, Prod.mk.injEq, Option.some.injEq] at h
    rcases h with ⟨h1, -, h3⟩
    subst h1
    subst h3
    intro p
    exact Or.inl ⟨rfl, id⟩
  | cons f fs ih =>
    intro mnt c r c2 d h
    simp only [mountFilesLoop] at h
    split at h
    case _ => exact ih mnt c r c2 d h
    case _ =>
      split at h
      case _ => simp at h
      case _ =>
      split at h
      case _ => simp at h
      case _ =>
      split at h
      case _ => simp at h
      case _ =>
      split at h
      case _ => simp only [Prod.mk.injEq] at h; exact absurd h.1 (by simp)
      case _ =>
      split at h
      case _ => simp only [Prod.mk.injEq] at h; exact absurd h.1 (by simp)
      case _ =>
      split at h
      case _ => simp only [Prod.mk.injEq] at h; exact absurd h.1 (by simp)
      case _ =>
      rcases hrec : mountFilesLoop O env flags dpath fs
          (mnt ++ [pathAppend dpath (basename f)]) (c + 6) with ⟨r1, c3, d3⟩
      rw [hrec] at h
      simp only [Prod.mk.injEq] at h
      rcases h with ⟨h1, -, h3⟩
      cases r1 with
      | none => simp at h1
      | some rr =>
        simp only [Option.some.injEq] at h1
        subst h1
        subst h3
        intro p
        rcases ih (mnt ++ [pathAppend dpath (basename f)]) (c + 6) rr c3 d3 hrec p with
          ⟨hnone, hmem⟩ | hsome
        · rw [lastMountOp_append, if_pos hnone]
          by_cases hpf : p = pathAppend dpath (basename f)
          · right
            subst hpf
            simp [lastMountOp, mountEvAt]
          · have hpf2 : ¬ (pathAppend dpath (basename f) = p) := fun hh => hpf hh.symm
            left
            refine ⟨by simp [lastMountOp, mountEvAt, hpf2], ?_⟩
            intro hr
            rcases List.mem_append.mp (hmem hr) with hq | hq
            · exact hq
            · exact absurd (List.mem_singleton.mp hq) hpf
        · right
          rw [lastMountOp_append, if_neg (by rw [hsome]; simp), hsome]

/-- Every path recorded by `mount_files` ends in a remount with the
library/binary class mask. -/
theorem mount_files_lastOp (O : Oracle) (env : Env) (cnt : NvcContainer) (dir : String)
    (paths : List String) (c : Nat) (r : List String) (c2 : Nat) (d : List Ev)
    (h : mount_files O env cnt dir paths c = (some r, c2, d)) :
    ∀ p ∈ r, lastMountOp p d = some (.remount p fileRemountFlags) := by
  simp only [mount_files] at h
  split at h
  case _ => simp at h
  case _ =>
  split at h
  case _ => simp at h
  case _ =>
  split at h
  case _ => simp only [Prod.mk.injEq] at h; exact absurd h.1 (by simp)
  case _ =>
  rcases hrec : mountFilesLoop O env cnt.flags (pathResolve cnt.cfg.rootfs dir) paths [] (c + 3)
    with ⟨r1, c3, d3⟩
  rw [hrec] at h
  simp only [Prod.mk.injEq] at h
  rcases h with ⟨h1, -, h3⟩
  cases r1 with
  | none => simp at h1
  | some rr =>
    simp only [Option.some.injEq] at h1
    subst h1
    subst h3
    intro p hp
    rcases mountFilesLoop_lastOp O env cnt.flags (pathResolve cnt.cfg.rootfs dir)
        paths [] (c + 3) rr c3 d3 hrec p with ⟨-, hmem⟩ | hsome
    · exact absurd (hmem hp) (List.not_mem_nil p)
    · have : lastMountOp p ([Ev.fileCreate (pathResolve cnt.cfg.rootfs dir) none] ++ d3)
          = lastMountOp p d3 := by
        rw [lastMountOp_append, if_neg (by rw [hsome]; simp)]
      rw [this, hsome]

/-- The rollback of `mount_files` emits only unmount and remove events. -/
theorem mem_unmountAll {e : Ev} (mnt : List String) (h : e ∈ unmountAll mnt) :
    (∃ q, e = .umountDetach q) ∨ ∃ q, e = .fileRemove q := by
  unfold unmountAll at h
  rw [List.mem_flatten] at h
  obtain ⟨l, hl, he⟩ := h
  rw [List.mem_map] at hl
  obtain ⟨q, -, rfl⟩ := hl
  exact mem_unmountEv he

/-- Every remount the loop of `mount_files` performs carries the
library/binary class mask. -/
theorem mountFilesLoop_remount_flags (O : Oracle) (env : Env) (flags : Nat) (dpath : String) :
    ∀ (paths mnt : List String) (c : Nat) (r : Option (List String)) (c2 : Nat) (d : List Ev),
      mountFilesLoop O env flags dpath paths mnt c = (r, c2, d) →
      ∀ q f, Ev.remount q f ∈ d → f = fileRemountFlags := by
  intro paths
  induction paths with
  | nil =>
    intro mnt c r c2 d h
    simp only [mountFilesLoop, Prod.mk.injEq] at h
    rcases h with ⟨-, -, h3⟩
    subst h3
    simp
  | cons f fs ih =>
    intro mnt c r c2 d h
    have hunm : ∀ (q : String) (f2 : Nat), Ev.remount q f2 ∈ unmountAll mnt → f2 = fileRemountFlags := by
      intro q f2 hq
      rcases mem_unmountAll mnt hq with ⟨x, hx⟩ | ⟨x, hx⟩ <;> exact absurd hx (by simp)
    simp only [mountFilesLoop] at h
    split at h
    case _ => exact ih mnt c r c2 d h
    case _ =>
      split at h
      case _ =>
        simp only [Prod.mk.injEq] at h
        rcases h with ⟨-, -, h3⟩
        subst h3
        exact hunm
      case _ =>
      split at h
      case _ =>
        simp only [Prod.mk.injEq] at h
        rcases h with ⟨-, -, h3⟩
        subst h3
        exact hunm
      case _ =>
      split at h
      case _ =>
        simp only [Prod.mk.injEq] at h
        rcases h with ⟨-, -, h3⟩
        subst h3
        exact hunm
      case _ =>
      split at h
      case _ =>
        simp only [Prod.mk.injEq] at h
        rcases h with ⟨-, -, h3⟩
        subst h3
        intro q f2 hq
        rcases List.mem_cons.mp hq with h1 | h1
        · exact absurd h1 (by simp)
        · exact hunm q f2 h1
      case _ =>
      split at h
      case _ =>
        simp only [Prod.mk.injEq] at h
        rcases h with ⟨-, -, h3⟩
        subst h3
        intro q f2 hq
        rcases List.mem_cons.mp hq with h1 | h1
        · exact absurd h1 (by simp)
        rcases List.mem_cons.mp h1 with h1 | h1
        · exact absurd h1 (by simp)
        · exact hunm q f2 h1
      case _ =>
      split at h
      case _ =>
        simp only [Prod.mk.injEq] at h
        rcases h with ⟨-, -, h3⟩
        subst h3
        intro q f2 hq
        rcases List.mem_cons.mp hq with h1 | h1
        · exact absurd h1 (by simp)
        rcases List.mem_cons.mp h1 with h1 | h1
        · exact absurd h1 (by simp)
        rcases List.mem_cons.mp h1 with h1 | h1
        · exact ((Ev.remount.injEq _ _ _ _).mp h1).2
        · exact hunm q f2 h1
      case _ =>
      rcases hrec : mountFilesLoop O env flags dpath fs
          (mnt ++ [pathAppend dpath (basename f)]) (c + 6) with ⟨r1, c3, d3⟩
      rw [hrec] at h
      simp only [Prod.mk.injEq] at h
      rcases h with ⟨-, -, h3⟩
      subst h3
      intro q f2 hq
      rcases List.mem_cons.mp hq with h1 | h1
      · exact absurd h1 (by simp)
      rcases List.mem_cons.mp h1 with h1 | h1
      · exact absurd h1 (by simp)
      rcases List.mem_cons.mp h1 with h1 | h1
      · exact ((Ev.remount.injEq _ _ _ _).mp h1).2
      · exact ih (mnt ++ [pathAppend dpath (basename f)]) (c + 6) r1 c3 d3 hrec q f2 h1

/-- Every remount of `mount_files` carries the library/binary class
mask. -/
theorem mount_files_remount_flags (O : Oracle) (env : Env) (cnt : NvcContainer) (dir : String)
    (paths : List String) (c : Nat) (r : Option (List String)) (c2 : Nat) (d : List Ev)
    (h : mount_files O env cnt dir paths c = (r, c2, d)) :
    ∀ q f, Ev.remount q f ∈ d → f = fileRemountFlags := by
  simp only [mount_files] at h
  split at h
  case _ =>
    simp only [Prod.mk.injEq] at h
    rcases h with ⟨-, -, h3⟩
    subst h3
    simp
  case _ =>
  split at h
  case _ =>
    simp only [Prod.mk.injEq] at h
    rcases h with ⟨-, -, h3⟩
    subst h3
    simp
  case _ =>
  split at h
  case _ =>
    simp only [Prod.mk.injEq] at h
    rcases h with ⟨-, -, h3⟩
    subst h3
    intro q f hq
    exact absurd (List.mem_singleton.mp hq) (by simp)
  case _ =>
  rcases hrec : mountFilesLoop O env cnt.flags (pathResolve cnt.cfg.rootfs dir) paths [] (c + 3)
    with ⟨r1, c3, d3⟩
  rw [hrec] at h
  simp only [Prod.mk.injEq] at h
  rcases h with ⟨-, -, h3⟩
  subst h3
  intro q f hq
  rcases List.mem_cons.mp hq with h1 | h1
  · exact absurd h1 (by simp)
  · exact mountFilesLoop_remount_flags O env cnt.flags (pathResolve cnt.cfg.rootfs dir)
      paths [] (c + 3) r1 c3 d3 hrec q f h1

/-- Events of `mount_app_profile`: creation, tmpfs mount and class remount
of the profile dir, plus its unmount/removal on failure. -/
theorem mount_app_profile_evs (O : Oracle) (cnt : NvcContainer) (c : Nat)
    (r : Option String) (c2 : Nat) (d : List Ev)
    (h : mount_app_profile O cnt c = (r, c2, d)) :
    ∀ e ∈ d,
      e = .fileCreate (pathResolve cnt.cfg.rootfs NV_APP_PROFILE_DIR) none ∨
      e = .tmpfsMount (pathResolve cnt.cfg.rootfs NV_APP_PROFILE_DIR) ∨
      e = .remount (pathResolve cnt.cfg.rootfs NV_APP_PROFILE_DIR) tmpfsRemountFlags ∨
      e = .umountDetach (pathResolve cnt.cfg.rootfs NV_APP_PROFILE_DIR) ∨
      e = .fileRemove (pathResolve cnt.cfg.rootfs NV_APP_PROFILE_DIR) := by
  have hunm : ∀ e ∈ unmountEv (some (pathResolve cnt.cfg.rootfs NV_APP_PROFILE_DIR)),
      e = Ev.umountDetach (pathResolve cnt.cfg.rootfs NV_APP_PROFILE_DIR) ∨
      e = Ev.fileRemove (pathResolve cnt.cfg.rootfs NV_APP_PROFILE_DIR) := by
    intro e he
    by_cases hp : pathResolve cnt.cfg.rootfs NV_APP_PROFILE_DIR = ""
    · simp [unmountEv, hp] at he
    · simp only [unmountEv, hp, if_false] at he
      rcases List.mem_cons.mp he with rfl | he
      · exact Or.inl rfl
      · rcases List.mem_singleton.mp he with rfl
        exact Or.inr rfl
  simp only [mount_app_profile] at h
  split at h
  case _ =>
    simp only [Prod.mk.injEq] at h
    rcases h with ⟨-, -, h3⟩
    subst h3
    simp
  case _ =>
  split at h
  case _ =>
    simp only [Prod.mk.injEq] at h
    rcases h with ⟨-, -, h3⟩
    subst h3
    intro e he
    rcases hunm e he with h1 | h1
    · exact Or.inr (Or.inr (Or.inr (Or.inl h1)))
    · exact Or.inr (Or.inr (Or.inr (Or.inr h1)))
  case _ =>
  split at h
  case _ =>
    simp only [Prod.mk.injEq] at h
    rcases h with ⟨-, -, h3⟩
    subst h3
    intro e he
    rcases List.mem_cons.mp he with rfl | he
    · exact Or.inl rfl
    · rcases hunm e he with h1 | h1
      · exact Or.inr (Or.inr (Or.inr (Or.inl h1)))
      · exact Or.inr (Or.inr (Or.inr (Or.inr h1)))
  case _ =>
  split at h
  case _ =>
    simp only [Prod.mk.injEq] at h
    rcases h with ⟨-, -, h3⟩
    subst h3
    intro e he
    rcases List.mem_cons.mp he with rfl | he
    · exact Or.inl rfl
    rcases List.mem_cons.mp he with rfl | he
    · exact Or.inr (Or.inl rfl)
    · rcases hunm e he with h1 | h1
      · exact Or.inr (Or.inr (Or.inr (Or.inl h1)))
      · exact Or.inr (Or.inr (Or.inr (Or.inr h1)))
  case _ =>
  split at h
  case _ =>
    simp only [Prod.mk.injEq] at h
    rcases h with ⟨-, -, h3⟩
    subst h3
    intro e he
    rcases List.mem_cons.mp he with rfl | he
    · exact Or.inl rfl
    rcases List.mem_cons.mp he with rfl | he
    · exact Or.inr (Or.inl rfl)
    rcases List.mem_cons.mp he with rfl | he
    · exact Or.inr (Or.inr (Or.inl rfl))
    · rcases hunm e he with h1 | h1
      · exact Or.inr (Or.inr (Or.inr (Or.inl h1)))
      · exact Or.inr (Or.inr (Or.inr (Or.inr h1)))
  case _ =>
    simp only [Prod.mk.injEq] at h
    rcases h with ⟨-, -, h3⟩
    subst h3
    intro e he
    rcases List.mem_cons.mp he with rfl | he
    · exact Or.inl rfl
    rcases List.mem_cons.mp he with rfl | he
    · exact Or.inr (Or.inl rfl)
    · rcases List.mem_singleton.mp he with rfl
      exact Or.inr (Or.inr (Or.inl rfl))

/-- Every event of `mount_procfs_gpu` concerns the bind of the per-GPU
procfs dir to its resolved target. -/
theorem mount_procfs_gpu_evs (O : Oracle) (env : Env) (cnt : NvcContainer) (busid : String)
    (c : Nat) (r : Option String) (c2 : Nat) (d : List Ev)
    (h : mount_procfs_gpu O env cnt busid c = (r, c2, d)) :
    ∀ e ∈ d,
      e = .fileCreate (pathResolve cnt.cfg.rootfs
            (NV_PROC_DRIVER ++ "/gpus/" ++ (⟨busid.data.drop 4⟩ : String))) none ∨
      e = .bindMount (NV_PROC_DRIVER ++ "/gpus/" ++ (⟨busid.data.drop 4⟩ : String))
            (pathResolve cnt.cfg.rootfs
              (NV_PROC_DRIVER ++ "/gpus/" ++ (⟨busid.data.drop 4⟩ : String))) ∨
      e = .remount (pathResolve cnt.cfg.rootfs
            (NV_PROC_DRIVER ++ "/gpus/" ++ (⟨busid.data.drop 4⟩ : String))) gpuRemountFlags ∨
      e = .umountDetach (pathResolve cnt.cfg.rootfs
            (NV_PROC_DRIVER ++ "/gpus/" ++ (⟨busid.data.drop 4⟩ : String))) ∨
      e = .fileRemove (pathResolve cnt.cfg.rootfs
            (NV_PROC_DRIVER ++ "/gpus/" ++ (⟨busid.data.drop 4⟩ : String))) := by
  have hunm : ∀ e ∈ unmountEv (some (pathResolve cnt.cfg.rootfs
        (NV_PROC_DRIVER ++ "/gpus/" ++ (⟨busid.data.drop 4⟩ : String)))),
      e = Ev.umountDetach (pathResolve cnt.cfg.rootfs
            (NV_PROC_DRIVER ++ "/gpus/" ++ (⟨busid.data.drop 4⟩ : String))) ∨
      e = Ev.fileRemove (pathResolve cnt.cfg.rootfs
            (NV_PROC_DRIVER ++ "/gpus/" ++ (⟨busid.data.drop 4⟩ : String))) := by
    intro e he
    by_cases hp : pathResolve cnt.cfg.rootfs
        (NV_PROC_DRIVER ++ "/gpus/" ++ (⟨busid.data.drop 4⟩ : String)) = ""
    · simp [unmountEv, hp] at he
    · simp only [unmountEv, hp, if_false] at he
      rcases List.mem_cons.mp he with rfl | he
      · exact Or.inl rfl
      · rcases List.mem_singleton.mp he with rfl
        exact Or.inr rfl
  simp only [mount_procfs_gpu] at h
  split at h
  case _ =>
    simp only [Prod.mk.injEq] at h
    rcases h with ⟨-, -, h3⟩
    subst h3
    simp
  case _ =>
  split at h
  case _ =>
    simp only [Prod.mk.injEq] at h
    rcases h with ⟨-, -, h3⟩
    subst h3
    simp
  case _ =>
  split at h
  case _ =>
    simp only [Prod.mk.injEq] at h
    rcases h with ⟨-, -, h3⟩
    subst h3
    simp
  case _ =>
  split at h
  case _ =>
    simp only [Prod.mk.injEq] at h
    rcases h with ⟨-, -, h3⟩
    subst h3
    intro e he
    rcases hunm e he with h1 | h1
    · exact Or.inr (Or.inr (Or.inr (Or.inl h1)))
    · exact Or.inr (Or.inr (Or.inr (Or.inr h1)))
  case _ =>
  split at h
  case _ =>
    simp only [Prod.mk.injEq] at h
    rcases h with ⟨-, -, h3⟩
    subst h3
    intro e he
    rcases List.mem_cons.mp he with rfl | he
    · exact Or.inl rfl
    · rcases hunm e he with h1 | h1
      · exact Or.inr (Or.inr (Or.inr (Or.inl h1)))
      · exact Or.inr (Or.inr (Or.inr (Or.inr h1)))
  case _ =>
  split at h
  case _ =>
    simp only [Prod.mk.injEq] at h
    rcases h with ⟨-, -, h3⟩
    subst h3
    intro e he
    rcases List.mem_cons.mp he with rfl | he
    · exact Or.inl rfl
    rcases List.mem_cons.mp he with rfl | he
    · exact Or.inr (Or.inl rfl)
    · rcases hunm e he with h1 | h1
      · exact Or.inr (Or.inr (Or.inr (Or.inl h1)))
      · exact Or.inr (Or.inr (Or.inr (Or.inr h1)))
  case _ =>
  split at h
  case _ =>
    simp only [Prod.mk.injEq] at h
    rcases h with ⟨-, -, h3⟩
    subst h3
    intro e he
    rcases List.mem_cons.mp he with rfl | he
    · exact Or.inl rfl
    rcases List.mem_cons.mp he with rfl | he
    · exact Or.inr (Or.inl rfl)
    rcases List.mem_cons.mp he with rfl | he
    · exact Or.inr (Or.inr (Or.inl rfl))
    · rcases hunm e he with h1 | h1
      · exact Or.inr (Or.inr (Or.inr (Or.inl h1)))
      · exact Or.inr (Or.inr (Or.inr (Or.inr h1)))
  case _ =>
    simp only [Prod.mk.injEq] at h
    rcases h with ⟨-, -, h3⟩
    subst h3
    intro e he
    rcases List.mem_cons.mp he with rfl | he
    · exact Or.inl rfl
    rcases List.mem_cons.mp he with rfl | he
    · exact Or.inr (Or.inl rfl)
    · rcases List.mem_singleton.mp he with rfl
      exact Or.inr (Or.inr (Or.inl rfl))

/-- `update_app_profile` only writes the profile file. -/
theorem update_app_profile_evs (O : Oracle) (cfs : String → Option String)
    (cnt : NvcContainer) (id : Nat) (c : Nat) (r : Except Err Unit) (c2 : Nat) (d : List Ev)
    (h : update_app_profile O cfs cnt id c = (r, c2, d)) :
    ∀ e ∈ d, ∃ pp cc, e = .fileCreate pp (some cc) := by
  simp only [update_app_profile] at h
  split at h
  case _ =>
    simp only [Prod.mk.injEq] at h
    rcases h with ⟨-, -, h3⟩
    subst h3
    simp
  case _ =>
  split at h
  case _ =>
    split at h
    case _ =>
      simp only [Prod.mk.injEq] at h
      rcases h with ⟨-, -, h3⟩
      subst h3
      simp
    case _ =>
    split at h
    case _ =>
      simp only [Prod.mk.injEq] at h
      rcases h with ⟨-, -, h3⟩
      subst h3
      simp
    case _ =>
      simp only [Prod.mk.injEq] at h
      rcases h with ⟨-, -, h3⟩
      subst h3
      intro e he
      rcases List.mem_singleton.mp he with rfl
      exact ⟨_, _, rfl⟩
  case _ =>
    split at h
    case _ =>
      simp only [Prod.mk.injEq] at h
      rcases h with ⟨-, -, h3⟩
      subst h3
      simp
    case _ =>
    split at h
    case _ =>
      simp only [Prod.mk.injEq] at h
      rcases h with ⟨-, -, h3⟩
      subst h3
      simp
    case _ =>
      split at h
      case _ =>
        simp only [Prod.mk.injEq] at h
        rcases h with ⟨-, -, h3⟩
        subst h3
        simp
      case _ =>
      split at h
      case _ =>
        simp only [Prod.mk.injEq] at h
        rcases h with ⟨-, -, h3⟩
        subst h3
        simp
      case _ =>
      split at h
      case _ =>
        simp only [Prod.mk.injEq] at h
        rcases h with ⟨-, -, h3⟩
        subst h3
        simp
      case _ =>
        simp only [Prod.mk.injEq] at h
        rcases h with ⟨-, -, h3⟩
        subst h3
        intro e he
        rcases List.mem_singleton.mp he with rfl
        exact ⟨_, _, rfl⟩

/-- Every remount of a binary/library phase carries the library/binary
class mask. -/
theorem filesPhase_remount_flags (O : Oracle) (env : Env) (cnt : NvcContainer) (use : Bool)
    (dir : String) (paths : List String) (c : Nat) (r : Bool) (c2 : Nat) (lg : List String)
    (d : List Ev) (h : filesPhase O env cnt use dir paths c = (r, c2, lg, d)) :
    ∀ q f, Ev.remount q f ∈ d → f = fileRemountFlags := by
  simp only [filesPhase] at h
  split at h
  · split at h
    case _ ms c1 dd heq =>
      simp only [Prod.mk.injEq] at h
      rcases h with ⟨-, -, -, h4⟩
      subst h4
      exact mount_files_remount_flags O env cnt dir paths c _ _ _ heq
    case _ ms c1 dd heq =>
      simp only [Prod.mk.injEq] at h
      rcases h with ⟨-, -, -, h4⟩
      subst h4
      exact mount_files_remount_flags O env cnt dir paths c _ _ _ heq
  · simp only [Prod.mk.injEq] at h
    rcases h with ⟨-, -, -, h4⟩
    subst h4
    simp

/-- Every remount of the app-profile phase carries the tmpfs class mask. -/
theorem profilePhase_remount_flags (O : Oracle) (cnt : NvcContainer) (c : Nat) (r : Bool)
    (c2 : Nat) (lg : List String) (d : List Ev)
    (h : profilePhase O cnt c = (r, c2, lg, d)) :
    ∀ q f, Ev.remount q f ∈ d → f = tmpfsRemountFlags := by
  simp only [profilePhase] at h
  split at h
  · split at h
    case _ c1 dd heq =>
      simp only [Prod.mk.injEq] at h
      rcases h with ⟨-, -, -, h4⟩
      subst h4
      intro q f hq
      rcases mount_app_profile_evs O cnt c _ _ _ heq _ hq with h1 | h1 | h1 | h1 | h1
      · exact absurd h1 (by simp)
      · exact absurd h1 (by simp)
      · exact ((Ev.remount.injEq _ _ _ _).mp h1).2
      · exact absurd h1 (by simp)
      · exact absurd h1 (by simp)
    case _ p c1 dd heq =>
      simp only [Prod.mk.injEq] at h
      rcases h with ⟨-, -, -, h4⟩
      subst h4
      intro q f hq
      rcases mount_app_profile_evs O cnt c _ _ _ heq _ hq with h1 | h1 | h1 | h1 | h1
      · exact absurd h1 (by simp)
      · exact absurd h1 (by simp)
      · exact ((Ev.remount.injEq _ _ _ _).mp h1).2
      · exact absurd h1 (by simp)
      · exact absurd h1 (by simp)
  · simp only [Prod.mk.injEq] at h
    rcases h with ⟨-, -, -, h4⟩
    subst h4
    simp

/-- Every remount of the driver-mount body carries one of the five class
masks of the flag table. -/
theorem driverBody_remount_flags (O : Oracle) (env : Env) (cnt : NvcContainer)
    (info : NvcDriverInfo) (c : Nat) (ok : Bool) (c2 : Nat) (log : List String) (d : List Ev)
    (h : driverBody O env cnt info c = (ok, c2, log, d)) :
    ∀ q f, Ev.remount q f ∈ d → f ∈ classRemountFlags := by
  have hproc : ∀ (cc : Nat) (r1 : Option String) (c1 : Nat) (d1 : List Ev),
      mount_procfs O env cnt cc = (r1, c1, d1) →
      ∀ q f, Ev.remount q f ∈ d1 → f ∈ classRemountFlags := by
    intro cc r1 c1 d1 heq q f hq
    rcases mount_procfs_evs O env cnt cc r1 c1 d1 heq _ hq with h1 | h1 | h1 | h1 | ⟨pp, cc2, h1⟩
    · exact absurd h1 (by simp)
    · rw [((Ev.remount.injEq _ _ _ _).mp h1).2]
      simp [classRemountFlags]
    · exact absurd h1 (by simp)
    · exact absurd h1 (by simp)
    · exact absurd h1 (by simp)
  have hprof : ∀ (cc : Nat) (r1 : Bool) (c1 : Nat) (lg1 : List String) (d1 : List Ev),
      profilePhase O cnt cc = (r1, c1, lg1, d1) →
      ∀ q f, Ev.remount q f ∈ d1 → f ∈ classRemountFlags := by
    intro cc r1 c1 lg1 d1 heq q f hq
    rw [profilePhase_remount_flags O cnt cc r1 c1 lg1 d1 heq q f hq]
    simp [classRemountFlags]
  have hfil : ∀ (use : Bool) (dir : String) (paths : List String) (cc : Nat) (r1 : Bool)
      (c1 : Nat) (lg1 : List String) (d1 : List Ev),
      filesPhase O env cnt use dir paths cc = (r1, c1, lg1, d1) →
      ∀ q f, Ev.remount q f ∈ d1 → f ∈ classRemountFlags := by
    intro use dir paths cc r1 c1 lg1 d1 heq q f hq
    rw [filesPhase_remount_flags O env cnt use dir paths cc r1 c1 lg1 d1 heq q f hq]
    simp [classRemountFlags]
  have hsym : ∀ (lg1 : List String) (cc : Nat) (r1 : Bool) (c1 : Nat) (d1 : List Ev),
      symlink_libraries O lg1 cc = (r1, c1, d1) →
      ∀ q f, Ev.remount q f ∈ d1 → f ∈ classRemountFlags := by
    intro lg1 cc r1 c1 d1 heq q f hq
    obtain ⟨pp, tt, h1⟩ := symlink_libraries_evs O lg1 cc r1 c1 d1 heq _ hq
    exact absurd h1 (by simp)
  have hipc : ∀ (cc : Nat) (r1 : Bool) (c1 : Nat) (lg1 : List String) (d1 : List Ev),
      ipcLoop O env cnt info.ipcs cc = (r1, c1, lg1, d1) →
      ∀ q f, Ev.remount q f ∈ d1 → f ∈ classRemountFlags := by
    intro cc r1 c1 lg1 d1 heq q f hq
    obtain ⟨i, -, -, hform⟩ := ipcLoop_evs O env cnt info.ipcs cc r1 c1 lg1 d1 heq _ hq
    rcases hform with h1 | h1 | h1 | h1 | h1
    · exact absurd h1 (by simp)
    · exact absurd h1 (by simp)
    · rw [((Ev.remount.injEq _ _ _ _).mp h1).2]
      simp [classRemountFlags]
    · exact absurd h1 (by simp)
    · exact absurd h1 (by simp)
  have hdev : ∀ (cc : Nat) (r1 : Bool) (c1 : Nat) (lg1 : List String) (d1 : List Ev),
      devLoop O env cnt info.devs cc = (r1, c1, lg1, d1) →
      ∀ q f, Ev.remount q f ∈ d1 → f ∈ classRemountFlags := by
    intro cc r1 c1 lg1 d1 heq q f hq
    obtain ⟨dv, -, -, hform⟩ := devLoop_evs O env cnt info.devs cc r1 c1 lg1 d1 heq _ hq
    rcases hform with h1 | h1 | h1 | h1 | h1 | h1
    · exact absurd h1 (by simp)
    · exact absurd h1 (by simp)
    · rw [((Ev.remount.injEq _ _ _ _).mp h1).2]
      simp [classRemountFlags]
    · exact absurd h1 (by simp)
    · exact absurd h1 (by simp)
    · exact absurd h1 (by simp)
  simp only [driverBody] at h
  split at h
  case _ heq1 =>
    simp only [Prod.mk.injEq] at h
    rcases h with ⟨-, -, -, h4⟩
    subst h4
    exact hproc _ _ _ _ heq1
  case _ p0 c1 d1 heq1 =>
    split at h
    case _ heq2 =>
      simp only [Prod.mk.injEq] at h
      rcases h with ⟨-, -, -, h4⟩
      subst h4
      intro q f hq
      rcases List.mem_append.mp hq with hq | hq
      · exact hproc _ _ _ _ heq1 q f hq
      · exact hprof _ _ _ _ _ heq2 q f hq
    case _ =>
      rename_i c2' logA d2 heq2
      split at h
      case _ heq3 =>
        simp only [Prod.mk.injEq] at h
        rcases h with ⟨-, -, -, h4⟩
        subst h4
        intro q f hq
        rcases List.mem_append.mp hq with hq | hq
        · rcases List.mem_append.mp hq with hq | hq
          · exact hproc _ _ _ _ heq1 q f hq
          · exact hprof _ _ _ _ _ heq2 q f hq
        · exact hfil _ _ _ _ _ _ _ _ heq3 q f hq
      case _ =>
        rename_i c3 logB d3 heq3
        split at h
        case _ heq4 =>
          simp only [Prod.mk.injEq] at h
          rcases h with ⟨-, -, -, h4⟩
          subst h4
          intro q f hq
          rcases List.mem_append.mp hq with hq | hq
          · rcases List.mem_append.mp hq with hq | hq
            · rcases List.mem_append.mp hq with hq | hq
              · exact hproc _ _ _ _ heq1 q f hq
              · exact hprof _ _ _ _ _ heq2 q f hq
            · exact hfil _ _ _ _ _ _ _ _ heq3 q f hq
          · exact hfil _ _ _ _ _ _ _ _ heq4 q f hq
        case _ =>
          rename_i c4 logL d4 heq4
          split at h
          case _ heq5 =>
            simp only [Prod.mk.injEq] at h
            rcases h with ⟨-, -, -, h4⟩
            subst h4
            intro q f hq
            rcases List.mem_append.mp hq with hq | hq
            · rcases List.mem_append.mp hq with hq | hq
              · rcases List.mem_append.mp hq with hq | hq
                · rcases List.mem_append.mp hq with hq | hq
                  · exact hproc _ _ _ _ heq1 q f hq
                  · exact hprof _ _ _ _ _ heq2 q f hq
                · exact hfil _ _ _ _ _ _ _ _ heq3 q f hq
              · exact hfil _ _ _ _ _ _ _ _ heq4 q f hq
            · exact hfil _ _ _ _ _ _ _ _ heq5 q f hq
          case _ =>
            rename_i c5 logL32 d5 heq5
            split at h
            case _ heq6 =>
              simp only [Prod.mk.injEq] at h
              rcases h with ⟨-, -, -, h4⟩
              subst h4
              intro q f hq
              rcases List.mem_append.mp hq with hq | hq
              · rcases List.mem_append.mp hq with hq | hq
                · rcases List.mem_append.mp hq with hq | hq
                  · rcases List.mem_append.mp hq with hq | hq
                    · rcases List.mem_append.mp hq with hq | hq
                      · exact hproc _ _ _ _ heq1 q f hq
                      · exact hprof _ _ _ _ _ heq2 q f hq
                    · exact hfil _ _ _ _ _ _ _ _ heq3 q f hq
                  · exact hfil _ _ _ _ _ _ _ _ heq4 q f hq
                · exact hfil _ _ _ _ _ _ _ _ heq5 q f hq
              · exact hsym _ _ _ _ _ heq6 q f hq
            case _ =>
              rename_i c6 d6 heq6
              split at h
              case _ heq7 =>
                simp only [Prod.mk.injEq] at h
                rcases h with ⟨-, -, -, h4⟩
                subst h4
                intro q f hq
                rcases List.mem_append.mp hq with hq | hq
                · rcases List.mem_append.mp hq with hq | hq
                  · rcases List.mem_append.mp hq with hq | hq
                    · rcases List.mem_append.mp hq with hq | hq
                      · rcases List.mem_append.mp hq with hq | hq
                        · rcases List.mem_append.mp hq with hq | hq
                          · exact hproc _ _ _ _ heq1 q f hq
                          · exact hprof _ _ _ _ _ heq2 q f hq
                        · exact hfil _ _ _ _ _ _ _ _ heq3 q f hq
                      · exact hfil _ _ _ _ _ _ _ _ heq4 q f hq
                    · exact hfil _ _ _ _ _ _ _ _ heq5 q f hq
                  · exact hsym _ _ _ _ _ heq6 q f hq
                · exact hipc _ _ _ _ _ heq7 q f hq
              case _ =>
                rename_i c7 logI d7 heq7
                rcases hD : devLoop O env cnt info.devs c7 with ⟨r8, c8, logD, d8⟩
                rw [hD] at h
                simp only [Prod.mk.injEq] at h
                rcases h with ⟨-, -, -, h4⟩
                subst h4
                intro q f hq
                rcases List.mem_append.mp hq with hq | hq
                · rcases List.mem_append.mp hq with hq | hq
                  · rcases List.mem_append.mp hq with hq | hq
                    · rcases List.mem_append.mp hq with hq | hq
                      · rcases List.mem_append.mp hq with hq | hq
                        · rcases List.mem_append.mp hq with hq | hq
                          · rcases List.mem_append.mp hq with hq | hq
                            · exact hproc _ _ _ _ heq1 q f hq
                            · exact hprof _ _ _ _ _ heq2 q f hq
                          · exact hfil _ _ _ _ _ _ _ _ heq3 q f hq
                        · exact hfil _ _ _ _ _ _ _ _ heq4 q f hq
                      · exact hfil _ _ _ _ _ _ _ _ heq5 q f hq
                    · exact hsym _ _ _ _ _ heq6 q f hq
                  · exact hipc _ _ _ _ _ heq7 q f hq
                · exact hdev _ _ _ _ _ hD q f hq

/-- The fail path of `nvc_device_mount` emits only unmounts, removals and
the namespace exit. -/
theorem mem_deviceFailEvs {e : Ev} (ns : Nat) (pm dm : Option String)
    (h : e ∈ deviceFailEvs ns pm dm) :
    (∃ q, e = .umountDetach q) ∨ (∃ q, e = .fileRemove q) ∨ e = Ev.exitNs ns := by
  unfold deviceFailEvs at h
  rcases List.mem_append.mp h with h1 | h1
  · rcases List.mem_append.mp h1 with h2 | h2
    · rcases mem_unmountEv h2 with h3 | h3
      · exact Or.inl h3
      · exact Or.inr (Or.inl h3)
    · rcases mem_unmountEv h2 with h3 | h3
      · exact Or.inl h3
      · exact Or.inr (Or.inl h3)
  · rcases List.mem_singleton.mp h1 with rfl
    exact Or.inr (Or.inr rfl)

/-- Every remount of the device-mount tail beyond the accumulated events
carries a class mask. -/
theorem deviceTail_remount_flags (O : Oracle) (env : Env) (cfs : String → Option String)
    (ctx : NvcContext) (cnt : NvcContainer) (dev : NvcDevice) (dmnt : Option String)
    (c : Nat) (acc : List Ev) :
    ∀ q f, Ev.remount q f ∈ (deviceTail O env cfs ctx cnt dev dmnt c acc).evs →
      Ev.remount q f ∈ acc ∨ f ∈ classRemountFlags := by
  have hgpu : ∀ (cc : Nat) (r1 : Option String) (c1 : Nat) (d1 : List Ev),
      mount_procfs_gpu O env cnt dev.busid cc = (r1, c1, d1) →
      ∀ q f, Ev.remount q f ∈ d1 → f ∈ classRemountFlags := by
    intro cc r1 c1 d1 heq q f hq
    rcases mount_procfs_gpu_evs O env cnt dev.busid cc r1 c1 d1 heq _ hq with
      h1 | h1 | h1 | h1 | h1
    · exact absurd h1 (by simp)
    · exact absurd h1 (by simp)
    · rw [((Ev.remount.injEq _ _ _ _).mp h1).2]
      simp [classRemountFlags]
    · exact absurd h1 (by simp)
    · exact absurd h1 (by simp)
  have hupd : ∀ (cc : Nat) (r1 : Except Err Unit) (c1 : Nat) (d1 : List Ev),
      (if hasFlag cnt.flags OPT_GRAPHICS_LIBS then
        update_app_profile O cfs cnt dev.node.id cc
      else (.ok (), cc, [])) = (r1, c1, d1) →
      ∀ q f, Ev.remount q f ∉ d1 := by
    intro cc r1 c1 d1 heq q f hq
    split at heq
    · obtain ⟨pp, cc2, h1⟩ := update_app_profile_evs O cfs cnt dev.node.id cc r1 c1 d1 heq _ hq
      exact absurd h1 (by simp)
    · simp only [Prod.mk.injEq] at heq
      rcases heq with ⟨-, -, h3⟩
      subst h3
      simp at hq
  have hcgr : ∀ (cc : Nat) (r1 : Bool) (c1 : Nat) (d1 : List Ev),
      setup_cgroup O cnt dev.node.id cc = (r1, c1, d1) → ∀ q f, Ev.remount q f ∉ d1 := by
    intro cc r1 c1 d1 heq q f hq
    rcases setup_cgroup_evs O cnt dev.node.id cc r1 c1 d1 heq with h1 | h1
    · rw [h1] at hq
      simp at hq
    · rw [h1] at hq
      exact absurd (List.mem_singleton.mp hq) (by simp)
  have hfail : ∀ (pm : Option String) (q : String) (f : Nat),
      Ev.remount q f ∉ deviceFailEvs ctx.mnt_ns pm dmnt := by
    intro pm q f hq
    rcases mem_deviceFailEvs ctx.mnt_ns pm dmnt hq with ⟨x, hx⟩ | ⟨x, hx⟩ | hx <;>
      exact absurd hx (by simp)
  intro q f hq
  unfold deviceTail at hq
  split at hq
  case _ c1 d1 heq =>
    simp only [DevRun.mk.injEq] at hq
    rcases List.mem_append.mp hq with h1 | h1
    · rcases List.mem_append.mp h1 with h2 | h2
      · exact Or.inl h2
      · exact Or.inr (hgpu _ _ _ _ heq q f h2)
    · exact absurd h1 (hfail none q f)
  case _ pmnt c1 d1 heq =>
    split at hq
    case _ er c2' du hequ =>
      rcases List.mem_append.mp hq with h1 | h1
      · rcases List.mem_append.mp h1 with h2 | h2
        · rcases List.mem_append.mp h2 with h3 | h3
          · exact Or.inl h3
          · exact Or.inr (hgpu _ _ _ _ heq q f h3)
        · exact absurd h2 (hupd _ _ _ _ hequ q f)
      · exact absurd h1 (hfail (some pmnt) q f)
    case _ u c2' du hequ =>
      split at hq
      case _ =>
        rcases List.mem_append.mp hq with h1 | h1
        · rcases List.mem_append.mp h1 with h2 | h2
          · rcases List.mem_append.mp h2 with h3 | h3
            · exact Or.inl h3
            · exact Or.inr (hgpu _ _ _ _ heq q f h3)
          · exact absurd h2 (hupd _ _ _ _ hequ q f)
        · exact absurd (List.mem_singleton.mp h1) (by simp)
      case _ =>
        split at hq
        case _ c3 dc heqc =>
          rcases List.mem_append.mp hq with h1 | h1
          · rcases List.mem_append.mp h1 with h2 | h2
            · rcases List.mem_append.mp h2 with h3 | h3
              · rcases List.mem_append.mp h3 with h4 | h4
                · exact Or.inl h4
                · exact Or.inr (hgpu _ _ _ _ heq q f h4)
              · exact absurd h3 (hupd _ _ _ _ hequ q f)
            · exact absurd h2 (hcgr _ _ _ _ heqc q f)
          · exact absurd h1 (hfail (some pmnt) q f)
        case _ c3 dc heqc =>
          rcases List.mem_append.mp hq with h1 | h1
          · rcases List.mem_append.mp h1 with h2 | h2
            · rcases List.mem_append.mp h2 with h3 | h3
              · rcases List.mem_append.mp h3 with h4 | h4
                · exact Or.inl h4
                · exact Or.inr (hgpu _ _ _ _ heq q f h4)
              · exact absurd h3 (hupd _ _ _ _ hequ q f)
            · exact absurd h2 (hcgr _ _ _ _ heqc q f)
          · exact absurd (List.mem_singleton.mp h1) (by simp)

/-- Every remount of `nvc_driver_mount` carries one of the five class
masks. -/
theorem driver_remount_flags (O : Oracle) (env : Env) (ctx : NvcContext) (cnt : NvcContainer)
    (info : NvcDriverInfo) :
    ∀ q f, Ev.remount q f ∈ (nvc_driver_mount O env ctx cnt info).evs →
      f ∈ classRemountFlags := by
  intro q f hq
  cases h0 : O 0 with
  | true => simp [nvc_driver_mount, h0] at hq
  | false =>
  cases h1 : O 1 with
  | true => simp [nvc_driver_mount, h0, h1] at hq
  | false =>
  cases h2 : O 2 with
  | true => simp [nvc_driver_mount, h0, h1, h2] at hq
  | false =>
  cases h3 : O 3 with
  | true => simp [nvc_driver_mount, h0, h1, h2, h3] at hq
  | false =>
    rcases hb : driverBody O env cnt info 4 with ⟨ok, cB, log, d⟩
    cases ok with
    | true =>
      simp [nvc_driver_mount, h0, h1, h2, h3, hb] at hq
      exact driverBody_remount_flags O env cnt info 4 true cB log d hb q f hq
    | false =>
      simp [nvc_driver_mount, h0, h1, h2, h3, hb] at hq
      rcases hq with hq | hq
      · exact driverBody_remount_flags O env cnt info 4 false cB log d hb q f hq
      · rcases mem_rollbackEvs log _ hq with ⟨x, hx⟩ | ⟨x, hx⟩ <;> exact absurd hx (by simp)

/-- Every remount of `nvc_device_mount` carries one of the five class
masks. -/
theorem device_remount_flags (O : Oracle) (env : Env) (cfs : String → Option String)
    (ctx : NvcContext) (cnt : NvcContainer) (dev : NvcDevice) :
    ∀ q f, Ev.remount q f ∈ (nvc_device_mount O env cfs ctx cnt dev).evs →
      f ∈ classRemountFlags := by
  have hdevm : ∀ (cc : Nat) (r1 : Option String) (c1 : Nat) (d1 : List Ev),
      mount_device O env cnt dev.node.path cc = (r1, c1, d1) →
      ∀ q f, Ev.remount q f ∈ d1 → f ∈ classRemountFlags := by
    intro cc r1 c1 d1 heq q f hq
    rcases mount_device_evs O env cnt dev.node.path cc r1 c1 d1 heq _ hq with
      h1 | h1 | h1 | h1 | h1
    · exact absurd h1 (by simp)
    · exact absurd h1 (by simp)
    · rw [((Ev.remount.injEq _ _ _ _).mp h1).2]
      simp [classRemountFlags]
    · exact absurd h1 (by simp)
    · exact absurd h1 (by simp)
  intro q f hq
  unfold nvc_device_mount at hq
  split at hq
  case _ => simp at hq
  case _ =>
  split at hq
  case _ => simp at hq
  case _ =>
  split at hq
  case _ => simp at hq
  case _ =>
  split at hq
  case _ =>
    split at hq
    case _ => simp at hq
    case _ =>
    split at hq
    case _ => simp at hq
    case _ =>
    split at hq
    case _ c1 d1 heq =>
      rcases List.mem_append.mp hq with hh | hh
      · rcases List.mem_append.mp hh with hh | hh
        · simp at hh
        · exact hdevm _ _ _ _ heq q f hh
      · rcases mem_deviceFailEvs ctx.mnt_ns none none hh with ⟨x, hx⟩ | ⟨x, hx⟩ | hx <;>
          exact absurd hx (by simp)
    case _ p c1 d1 heq =>
      rcases deviceTail_remount_flags O env cfs ctx cnt dev (some p) c1
          ([Ev.enterNs cnt.mnt_ns] ++ d1) q f hq with hh | hh
      · rcases List.mem_append.mp hh with hh | hh
        · simp at hh
        · exact hdevm _ _ _ _ heq q f hh
      · exact hh
  case _ =>
    rcases deviceTail_remount_flags O env cfs ctx cnt dev none 3
        [Ev.enterNs cnt.mnt_ns] q f hq with hh | hh
    · simp at hh
    · exact hh

/-- C3: flag discipline.  Every mount recorded by the engine ends in a
remount carrying exactly the class mask of the flag table: library/binary
files `RDONLY|NODEV|NOSUID`, device nodes `RDONLY|NOSUID|NOEXEC`, IPC
sockets `NODEV|NOSUID|NOEXEC`, per-GPU procfs dirs
`RDONLY|NODEV|NOSUID|NOEXEC`, tmpfs roots `NODEV|NOSUID|NOEXEC` (all with
`MS_BIND|MS_REMOUNT`); every remount either entry operation performs uses
one of these five masks, and none of them leaves the mount with its
default flags (each carries at least `MS_NOSUID`, so no recorded mount is
left with the default writable/dev/suid/exec state). -/
theorem c3_remount_flag_discipline :
    (∀ (O : Oracle) (env : Env) (cnt : NvcContainer) (dir : String) (paths : List String)
        (c : Nat) (r : List String) (c2 : Nat) (d : List Ev),
      mount_files O env cnt dir paths c = (some r, c2, d) →
      ∀ p ∈ r, lastMountOp p d = some (.remount p fileRemountFlags)) ∧
    (∀ (O : Oracle) (env : Env) (cnt : NvcContainer) (dev : String) (c : Nat) (p : String)
        (c2 : Nat) (d : List Ev),
      mount_device O env cnt dev c = (some p, c2, d) →
      lastMountOp p d = some (.remount p devRemountFlags)) ∧
    (∀ (O : Oracle) (env : Env) (cnt : NvcContainer) (ipc : String) (c : Nat) (p : String)
        (c2 : Nat) (d : List Ev),
      mount_ipc O env cnt ipc c = (some p, c2, d) →
      lastMountOp p d = some (.remount p ipcRemountFlags)) ∧
    (∀ (O : Oracle) (env : Env) (cnt : NvcContainer) (busid : String) (c : Nat) (p : String)
        (c2 : Nat) (d : List Ev),
      mount_procfs_gpu O env cnt busid c = (some p, c2, d) →
      lastMountOp p d = some (.remount p gpuRemountFlags)) ∧
    (∀ (O : Oracle) (env : Env) (cnt : NvcContainer) (c : Nat) (p : String) (c2 : Nat)
        (d : List Ev),
      mount_procfs O env cnt c = (some p, c2, d) →
      lastMountOp p d = some (.remount p tmpfsRemountFlags)) ∧
    (∀ (O : Oracle) (cnt : NvcContainer) (c : Nat) (p : String) (c2 : Nat) (d : List Ev),
      mount_app_profile O cnt c = (some p, c2, d) →
      lastMountOp p d = some (.remount p tmpfsRemountFlags)) ∧
    (∀ (O : Oracle) (env : Env) (ctx : NvcContext) (cnt : NvcContainer) (info : NvcDriverInfo)
        (q : String) (f : Nat),
      Ev.remount q f ∈ (nvc_driver_mount O env ctx cnt info).evs → f ∈ classRemountFlags) ∧
    (∀ (O : Oracle) (env : Env) (cfs : String → Option String) (ctx : NvcContext)
        (cnt : NvcContainer) (dev : NvcDevice) (q : String) (f : Nat),
      Ev.remount q f ∈ (nvc_device_mount O env cfs ctx cnt dev).evs → f ∈ classRemountFlags) ∧
    (∀ f ∈ classRemountFlags,
      f &&& MS_NOSUID = MS_NOSUID ∧ f &&& (MS_BIND ||| MS_REMOUNT) = MS_BIND ||| MS_REMOUNT) := by
  refine ⟨mount_files_lastOp, ?_, ?_, ?_, ?_, ?_, driver_remount_flags, device_remount_flags,
    by decide⟩
  · intro O env cnt dev c p c2 d h
    obtain ⟨-, hd⟩ := mount_device_success O env cnt dev c p c2 d h
    subst hd
    simp [lastMountOp, mountEvAt]
  · intro O env cnt ipc c p c2 d h
    obtain ⟨-, hd⟩ := mount_ipc_success O env cnt ipc c p c2 d h
    subst hd
    simp [lastMountOp, mountEvAt]
  · intro O env cnt busid c p c2 d h
    obtain ⟨-, hd⟩ := mount_procfs_gpu_success O env cnt busid c p c2 d h
    subst hd
    simp [lastMountOp, mountEvAt]
  · intro O env cnt c p c2 d h
    obtain ⟨-, dmid, -, hd⟩ := mount_procfs_success O env cnt c p c2 d h
    subst hd
    rw [lastMountOp_append, if_neg (by simp [lastMountOp, mountEvAt])]
    simp [lastMountOp, mountEvAt]
  · intro O cnt c p c2 d h
    obtain ⟨-, hd⟩ := mount_app_profile_success O cnt c p c2 d h
    subst hd
    simp [lastMountOp, mountEvAt]

/-- Witness for C3 at concrete inputs: the device bind of the concrete
run ends in the device-class remount, and each class mask keeps
`MS_NOSUID` set. -/
theorem c3_witness :
    lastMountOp "/r/dev/nvidia0"
      [.fileCreate "/r/dev/nvidia0" none, .bindMount "/dev/nvidia0" "/r/dev/nvidia0",
       .remount "/r/dev/nvidia0" devRemountFlags]
      = some (.remount "/r/dev/nvidia0" devRemountFlags) ∧
    (tmpfsRemountFlags &&& MS_NOSUID = MS_NOSUID ∧
      tmpfsRemountFlags &&& (MS_BIND ||| MS_REMOUNT) = MS_BIND ||| MS_REMOUNT) := by
  have h := c3_remount_flag_discipline
  refine ⟨?_, h.2.2.2.2.2.2.2.2 tmpfsRemountFlags (by decide)⟩
  exact h.2.1 oracleNone sampleEnv (sampleCnt 0) "/dev/nvidia0" 0 "/r/dev/nvidia0" 6
    [.fileCreate "/r/dev/nvidia0" none, .bindMount "/dev/nvidia0" "/r/dev/nvidia0",
     .remount "/r/dev/nvidia0" devRemountFlags] (by decide)

/-- Hex digit characters decode to their value. -/
theorem hexDigitVal_hexDigitChar : ∀ n < 16, hexDigitVal (hexDigitChar n) = n := by decide

/-- Hex digit characters are hexadecimal digits. -/
theorem isHexDigitC_hexDigitChar : ∀ n < 16, isHexDigitC (hexDigitChar n) = true := by decide

/-- All characters produced by the hex accumulator are hexadecimal
digits. -/
theorem toHexAux_all_hex : ∀ (fuel m : Nat), ∀ c ∈ toHexAux fuel m, isHexDigitC c = true := by
  intro fuel
  induction fuel with
  | zero => intro m c hc; simp [toHexAux] at hc
  | succ fuel ih =>
    intro m c hc
    unfold toHexAux at hc
    split at hc
    · simp at hc
    · rcases List.mem_append.mp hc with hc | hc
      · exact ih (m / 16) c hc
      · rcases List.mem_singleton.mp hc with rfl
        exact isHexDigitC_hexDigitChar (m % 16) (Nat.mod_lt m (by decide))

/-- Appending one digit multiplies the decoded value by 16. -/
theorem hexVal_append_digit (xs : List Char) (c : Char) :
    hexVal (xs ++ [c]) = hexVal xs * 16 + hexDigitVal c := by
  unfold hexVal
  rw [List.foldl_append]
  rfl

/-- The hex accumulator is correct when the fuel covers the number. -/
theorem hexVal_toHexAux : ∀ (fuel m : Nat), m ≤ fuel → hexVal (toHexAux fuel m) = m := by
  intro fuel
  induction fuel with
  | zero =>
    intro m hm
    interval_cases m
    rfl
  | succ fuel ih =>
    intro m hm
    unfold toHexAux
    split
    case _ h => subst h; rfl
    case _ h =>
      rw [hexVal_append_digit, ih (m / 16) ?_,
        hexDigitVal_hexDigitChar (m % 16) (Nat.mod_lt m (by decide))]
      · omega
      · have h1 : m / 16 < m := Nat.div_lt_self (Nat.pos_of_ne_zero h) (by decide)
        omega

/-- The printf rendering decodes back to the number. -/
theorem hexVal_toHex (n : Nat) : hexVal (toHex n) = n := by
  unfold toHex
  split
  case _ h => subst h; rfl
  case _ h => exact hexVal_toHexAux n n (Nat.le_refl n)

/-- The printf rendering consists of hexadecimal digits only. -/
theorem toHex_all_hex (n : Nat) : ∀ c ∈ toHex n, isHexDigitC c = true := by
  unfold toHex
  split
  · intro c hc
    rcases List.mem_singleton.mp hc with rfl
    decide
  · exact toHexAux_all_hex n n

/-- The printf rendering is never empty. -/
theorem toHex_ne_nil (n : Nat) : toHex n ≠ [] := by
  unfold toHex
  split
  · simp
  case _ h =>
    cases n with
    | zero => exact absurd rfl h
    | succ k =>
      unfold toHexDigits toHexAux
      rw [if_neg h]
      simp

/-- takeWhile of an all-true block followed by a false head stops at the
block. -/
theorem takeWhile_block {p : Char → Bool} {xs : List Char} (hxs : ∀ c ∈ xs, p c = true)
    {y : Char} (hy : p y = false) (ys : List Char) :
    (xs ++ y :: ys).takeWhile p = xs := by
  induction xs with
  | nil => simp [List.takeWhile, hy]
  | cons x xs ih =>
    have hx : p x = true := hxs x (List.mem_cons_self x xs)
    simp only [List.cons_append, List.takeWhile, hx]
    rw [List.append_eq, ih (fun c hc => hxs c (List.mem_cons_of_mem x hc))]

/-- `strtoumax` after the `0x` prefix decodes a rendered number followed
by a non-digit. -/
theorem strtoumax16_toHex (M : Nat) {y : Char} (hy : isHexDigitC y = false) (ys : List Char) :
    strtoumax16 (toHex M ++ y :: ys) = min M UINTMAX_MAX := by
  simp only [strtoumax16]
  rw [takeWhile_block (toHex_all_hex M) hy ys]
  have hne : (toHex M).isEmpty = false := by
    cases hh : toHex M with
    | nil => exact absurd hh (toHex_ne_nil M)
    | cons c cs => rfl
  rw [hne, if_neg (by simp), hexVal_toHex]

/-- The first `0x` of a haystack whose prefix has no `0` is right after
that prefix. -/
theorem findSubIdx_0x (rest : List Char) :
    ∀ (pre : List Char), '0' ∉ pre →
      findSubIdx ['0', 'x'] (pre ++ '0' :: 'x' :: rest) = some pre.length := by
  intro pre
  induction pre with
  | nil =>
    intro h
    simp [findSubIdx, List.isPrefixOf]
  | cons c pre ih =>
    intro h
    have hc : ¬ (c = '0') := fun hh => h (by rw [hh]; exact List.mem_cons_self _ _)
    have hc2 : ('0' == c) = false := by
      rw [beq_eq_false_iff_ne]
      exact fun hh => hc hh.symm
    simp only [List.cons_append, findSubIdx, List.isPrefixOf, hc2, Bool.false_and]
    rw [if_neg (by simp), List.append_eq, ih (fun hh => h (List.mem_cons_of_mem c hh))]
    rfl

/-- Dropping the prefix and the `0x` lands right after. -/
theorem drop_after_0x (pre rest : List Char) :
    (pre ++ '0' :: 'x' :: rest).drop (pre.length + 2) = rest := by
  have : pre ++ '0' :: 'x' :: rest = (pre ++ ['0', 'x']) ++ rest := by simp
  rw [this]
  have hlen : pre.length + 2 = (pre ++ ['0', 'x']).length := by simp
  rw [hlen, List.drop_left]

/-- The profile template prefix contains no zero character, so the first
`0x` of a rendered profile is the rendered mask. -/
theorem zero_not_mem_profileFmtPre : '0' ∉ profileFmtPre.data := by decide

/-- Parsing a rendered profile recovers the mask (clamped at
`UINTMAX_MAX`, as `strtoumax` clamps). -/
theorem parseProfileMask_renderProfile (M : Nat) :
    parseProfileMask (renderProfile M) = some (min M UINTMAX_MAX) := by
  have hdata : (renderProfile M).data
      = profileFmtPre.data ++ '0' :: 'x' :: (toHex M ++ profileFmtPost.data) := by
    unfold renderProfile
    rw [String.data_append, String.data_append]
    rfl
  unfold parseProfileMask
  rw [hdata, findSubIdx_0x (toHex M ++ profileFmtPost.data) profileFmtPre.data
    zero_not_mem_profileFmtPre]
  show some (strtoumax16 ((profileFmtPre.data
      ++ '0' :: 'x' :: (toHex M ++ profileFmtPost.data)).drop
      (profileFmtPre.data.length + 2))) = some (min M UINTMAX_MAX)
  rw [drop_after_0x]
  have hpost : ∃ tl, profileFmtPost.data = ']' :: tl := ⟨_, rfl⟩
  obtain ⟨tl, htl⟩ := hpost
  rw [htl, strtoumax16_toHex M (by decide) tl]

/-- Shifting 1 by fewer than 64 then reducing mod `2 ^ 64` is the pure
power of two: the device bit of `update_app_profile` for a minor below
64. -/
theorem one_shiftLeft_mod (m : Nat) (hm : m < 64) : (1 <<< m) % 2 ^ 64 = 2 ^ m := by
  rw [Nat.shiftLeft_eq, one_mul]
  exact Nat.mod_eq_of_lt (Nat.pow_lt_pow_right (by norm_num) hm)

/-- For masks below `2 ^ 64` the clamp is inactive and parsing a rendered
profile recovers the mask exactly. -/
theorem parseProfileMask_renderProfile_lt (M : Nat) (h : M < 2 ^ 64) :
    parseProfileMask (renderProfile M) = some M := by
  rw [parseProfileMask_renderProfile]
  congr 1
  unfold UINTMAX_MAX
  omega

/-- Fault-free `update_app_profile` on an absent profile file: creates the
file with the shifted device bit (nvc_mount.c:183-187, 200-206). -/
theorem update_app_profile_absent (cfs : String → Option String) (cnt : NvcContainer)
    (id c : Nat)
    (h : cfs (pathResolve cnt.cfg.rootfs (NV_APP_PROFILE_DIR ++ "/10-container.conf")) = none) :
    update_app_profile oracleNone cfs cnt id c
      = (.ok (), c + 3,
          [.fileCreate (pathResolve cnt.cfg.rootfs (NV_APP_PROFILE_DIR ++ "/10-container.conf"))
            (some (renderProfile ((1 <<< minorOf id) % 2 ^ 64)))]) := by
  simp [update_app_profile, oracleNone, h]

/-- Fault-free `update_app_profile` on a present profile file whose mask
parses below `UINTMAX_MAX`: rewrites the file with the union of the old
mask and the shifted device bit (nvc_mount.c:189-206). -/
theorem update_app_profile_present (cfs : String → Option String) (cnt : NvcContainer)
    (id c : Nat) (content : String) (n : Nat)
    (h : cfs (pathResolve cnt.cfg.rootfs (NV_APP_PROFILE_DIR ++ "/10-container.conf"))
      = some content)
    (hp : parseProfileMask content = some n) (hn : n ≠ UINTMAX_MAX) :
    update_app_profile oracleNone cfs cnt id c
      = (.ok (), c + 4,
          [.fileCreate (pathResolve cnt.cfg.rootfs (NV_APP_PROFILE_DIR ++ "/10-container.conf"))
            (some (renderProfile (n ||| (1 <<< minorOf id) % 2 ^ 64)))]) := by
  simp [update_app_profile, oracleNone, h, hp, hn]

/-- **C6** (amended).  App-profile merge law of `update_app_profile`
(nvc_mount.c:166-208), for GPU minors below 64 (the shift `1ull << minor`
is undefined otherwise): (1) if the profile file is absent the emitted
mask is `2 ^ m`; (2) if the file is present and its mask parses to
`n ≠ UINTMAX_MAX` the emitted mask is `n ||| 2 ^ m`; (3) if moreover the
merged mask `n ||| 2 ^ m` is not `UINTMAX_MAX`, re-applying the update for
the same minor to the file just written emits the same mask again
(idempotence).  The original claim's unconditional idempotence fails when
the merged mask reaches `UINTMAX_MAX`: see the counterexample. -/
theorem c6_app_profile_merge_law :
    (∀ (cfs : String → Option String) (cnt : NvcContainer) (id c : Nat),
      minorOf id < 64 →
      cfs (pathResolve cnt.cfg.rootfs (NV_APP_PROFILE_DIR ++ "/10-container.conf")) = none →
      update_app_profile oracleNone cfs cnt id c
        = (.ok (), c + 3,
            [.fileCreate
              (pathResolve cnt.cfg.rootfs (NV_APP_PROFILE_DIR ++ "/10-container.conf"))
              (some (renderProfile (2 ^ minorOf id)))]))
    ∧ (∀ (cfs : String → Option String) (cnt : NvcContainer) (id c : Nat)
        (content : String) (n : Nat),
      minorOf id < 64 →
      cfs (pathResolve cnt.cfg.rootfs (NV_APP_PROFILE_DIR ++ "/10-container.conf"))
        = some content →
      parseProfileMask content = some n → n ≠ UINTMAX_MAX →
      update_app_profile oracleNone cfs cnt id c
        = (.ok (), c + 4,
            [.fileCreate
              (pathResolve cnt.cfg.rootfs (NV_APP_PROFILE_DIR ++ "/10-container.conf"))
              (some (renderProfile (n ||| 2 ^ minorOf id)))]))
    ∧ (∀ (cfs : String → Option String) (cnt : NvcContainer) (id c : Nat) (n : Nat),
      minorOf id < 64 → n < 2 ^ 64 → n ||| 2 ^ minorOf id ≠ UINTMAX_MAX →
      cfs (pathResolve cnt.cfg.rootfs (NV_APP_PROFILE_DIR ++ "/10-container.conf"))
        = some (renderProfile (n ||| 2 ^ minorOf id)) →
      update_app_profile oracleNone cfs cnt id c
        = (.ok (), c + 4,
            [.fileCreate
              (pathResolve cnt.cfg.rootfs (NV_APP_PROFILE_DIR ++ "/10-container.conf"))
              (some (renderProfile (n ||| 2 ^ minorOf id)))])) := by
  refine ⟨?_, ?_, ?_⟩
  · intro cfs cnt id c hm h
    rw [update_app_profile_absent cfs cnt id c h, one_shiftLeft_mod (minorOf id) hm]
  · intro cfs cnt id c content n hm h hp hn
    rw [update_app_profile_present cfs cnt id c content n h hp hn,
      one_shiftLeft_mod (minorOf id) hm]
  · intro cfs cnt id c n hm hlt hne h
    have hbit : 2 ^ minorOf id < 2 ^ 64 := Nat.pow_lt_pow_right (by norm_num) hm
    have hmask : n ||| 2 ^ minorOf id < 2 ^ 64 := Nat.or_lt_two_pow hlt hbit
    have hp := parseProfileMask_renderProfile_lt (n ||| 2 ^ minorOf id) hmask
    rw [update_app_profile_present cfs cnt id c (renderProfile (n ||| 2 ^ minorOf id))
      (n ||| 2 ^ minorOf id) h hp hne, one_shiftLeft_mod (minorOf id) hm,
      Nat.or_assoc, Nat.or_self]

set_option maxRecDepth 100000 in
/-- **C6** counterexample to the original claim's unconditional
idempotence: with GPU minor 0 and an existing profile whose mask is
`2 ^ 64 - 2`, the first update succeeds and writes the full mask
`2 ^ 64 - 1`; applying the update again for the same minor then fails with
INVALID_STATE (the parsed mask equals `UINTMAX_MAX`, which the code treats
as the `strtoumax` overflow marker, nvc_mount.c:196-198), so applying the
update twice is not the same as applying it once. -/
theorem c6_counterexample_idempotence_fails_at_full_mask :
    update_app_profile oracleNone
        (fun p => if p = pathResolve (sampleCnt 0).cfg.rootfs
            (NV_APP_PROFILE_DIR ++ "/10-container.conf")
          then some (renderProfile (2 ^ 64 - 2)) else none)
        (sampleCnt 0) 0 0
      = (.ok (), 4, [.fileCreate (pathResolve (sampleCnt 0).cfg.rootfs
          (NV_APP_PROFILE_DIR ++ "/10-container.conf"))
          (some (renderProfile (2 ^ 64 - 1)))])
    ∧ update_app_profile oracleNone
        (fun p => if p = pathResolve (sampleCnt 0).cfg.rootfs
            (NV_APP_PROFILE_DIR ++ "/10-container.conf")
          then some (renderProfile (2 ^ 64 - 1)) else none)
        (sampleCnt 0) 0 0
      = (.error .invalidState, 2, []) := by
  exact ⟨rfl, rfl⟩

/-- Witness for C6: concrete instances of all three parts at minor 3
(absent file; present file with mask 5; re-application to the merged
file). -/
theorem c6_witness :
    minorOf 3 < 64
    ∧ update_app_profile oracleNone (fun _ => none) (sampleCnt 0) 3 0
        = (.ok (), 3, [.fileCreate (pathResolve (sampleCnt 0).cfg.rootfs
            (NV_APP_PROFILE_DIR ++ "/10-container.conf"))
            (some (renderProfile (2 ^ minorOf 3)))])
    ∧ update_app_profile oracleNone (fun _ => some (renderProfile 5)) (sampleCnt 0) 3 0
        = (.ok (), 4, [.fileCreate (pathResolve (sampleCnt 0).cfg.rootfs
            (NV_APP_PROFILE_DIR ++ "/10-container.conf"))
            (some (renderProfile (5 ||| 2 ^ minorOf 3)))])
    ∧ update_app_profile oracleNone (fun _ => some (renderProfile (5 ||| 2 ^ minorOf 3)))
        (sampleCnt 0) 3 0
        = (.ok (), 4, [.fileCreate (pathResolve (sampleCnt 0).cfg.rootfs
            (NV_APP_PROFILE_DIR ++ "/10-container.conf"))
            (some (renderProfile (5 ||| 2 ^ minorOf 3)))]) :=
  ⟨by decide,
    c6_app_profile_merge_law.1 (fun _ => none) (sampleCnt 0) 3 0 (by decide) rfl,
    c6_app_profile_merge_law.2.1 (fun _ => some (renderProfile 5)) (sampleCnt 0) 3 0
      (renderProfile 5) 5 (by decide) rfl (by rfl) (by decide),
    c6_app_profile_merge_law.2.2 (fun _ => some (renderProfile (5 ||| 2 ^ minorOf 3)))
      (sampleCnt 0) 3 0 5 (by decide) (by decide) (by decide) rfl⟩

/-- The profile parse yields nothing exactly when the content lacks the
substring `0x` (once `0x` is found, `strtoumax` always yields a value,
zero included). -/
theorem parseProfileMask_eq_none_iff (content : String) :
    parseProfileMask content = none ↔ findSubIdx ['0', 'x'] content.data = none := by
  unfold parseProfileMask
  cases hf : findSubIdx ['0', 'x'] content.data <;> simp

/-- **C7** (amended).  For a present profile file, `update_app_profile`
(nvc_mount.c:189-198) fails with INVALID_STATE exactly when the content
lacks the substring `0x` or the hexadecimal text after `0x` parses (or
clamps) to `UINTMAX_MAX`, and on that failure it performs no write.  The
original claim's "fails to parse as a hexadecimal integer" case is wrong:
`strtoumax` yields 0 on non-hexadecimal text, which the code accepts and
merges, rewriting the file — see the counterexample. -/
theorem c7_invalid_profile_characterization :
    ∀ (cfs : String → Option String) (cnt : NvcContainer) (id c : Nat) (content : String),
      cfs (pathResolve cnt.cfg.rootfs (NV_APP_PROFILE_DIR ++ "/10-container.conf"))
        = some content →
      (((update_app_profile oracleNone cfs cnt id c).1 = .error .invalidState)
          ↔ (findSubIdx ['0', 'x'] content.data = none
              ∨ parseProfileMask content = some UINTMAX_MAX))
        ∧ ((update_app_profile oracleNone cfs cnt id c).1 = .error .invalidState →
            (update_app_profile oracleNone cfs cnt id c).2.2 = []) := by
  intro cfs cnt id c content h
  cases hp : parseProfileMask content with
  | none =>
    have hf := (parseProfileMask_eq_none_iff content).mp hp
    refine ⟨⟨fun _ => Or.inl hf, fun _ => ?_⟩, fun _ => ?_⟩
    · simp [update_app_profile, oracleNone, h, hp]
    · simp [update_app_profile, oracleNone, h, hp]
  | some n =>
    by_cases hn : n = UINTMAX_MAX
    · subst hn
      refine ⟨⟨fun _ => Or.inr rfl, fun _ => ?_⟩, fun _ => ?_⟩
      · simp [update_app_profile, oracleNone, h, hp]
      · simp [update_app_profile, oracleNone, h, hp]
    · have hok : (update_app_profile oracleNone cfs cnt id c).1 = .ok () := by
        simp [update_app_profile, oracleNone, h, hp, hn]
      refine ⟨⟨fun hcontra => ?_, fun hor => ?_⟩, fun hcontra => ?_⟩
      · rw [hok] at hcontra
        exact absurd hcontra (by simp)
      · rcases hor with hf | hmax
        · exact absurd ((parseProfileMask_eq_none_iff content).mpr hf) (by simp [hp])
        · exact absurd (Option.some.inj hmax) hn
      · rw [hok] at hcontra
        exact absurd hcontra (by simp)

/-- **C7** counterexample: the content `"mask 0xzz"` has `0x` followed by
non-hexadecimal text, so per the claim the update should fail with
INVALID_STATE and leave the file alone; instead `strtoumax` yields 0, the
update succeeds, and the file is rewritten with the device bit alone
(minor 0, mask 0x1). -/
theorem c7_counterexample_garbage_hex_accepted :
    update_app_profile oracleNone
        (fun p => if p = pathResolve (sampleCnt 0).cfg.rootfs
            (NV_APP_PROFILE_DIR ++ "/10-container.conf")
          then some "mask 0xzz" else none)
        (sampleCnt 0) 0 0
      = (.ok (), 4, [.fileCreate (pathResolve (sampleCnt 0).cfg.rootfs
          (NV_APP_PROFILE_DIR ++ "/10-container.conf"))
          (some (renderProfile 1))])
    ∧ ("mask 0xzz").data.takeWhile isHexDigitC = [] := by
  exact ⟨rfl, rfl⟩

/-- Witness for C7: the characterization applied to a concrete run on the
content `"no mask here"`, which lacks `0x`. -/
theorem c7_witness :
    (((update_app_profile oracleNone (fun _ => some "no mask here") (sampleCnt 0) 0 0).1
        = .error .invalidState)
      ↔ (findSubIdx ['0', 'x'] ("no mask here" : String).data = none
          ∨ parseProfileMask "no mask here" = some UINTMAX_MAX))
    ∧ ((update_app_profile oracleNone (fun _ => some "no mask here") (sampleCnt 0) 0 0).1
          = .error .invalidState →
        (update_app_profile oracleNone (fun _ => some "no mask here")
          (sampleCnt 0) 0 0).2.2 = []) :=
  c7_invalid_profile_characterization (fun _ => some "no mask here") (sampleCnt 0) 0 0
    "no mask here" rfl

/-- A successful `strstr` index decomposes the haystack: the pattern
occurs exactly at that index. -/
theorem findSubIdx_some_decompose (pat : List Char) :
    ∀ (l : List Char) (i : Nat), findSubIdx pat l = some i →
      ∃ pre post, l = pre ++ pat ++ post ∧ pre.length = i := by
  intro l
  induction l with
  | nil =>
    intro i h
    unfold findSubIdx at h
    split at h
    case _ hpat =>
      rcases Option.some.inj h with rfl
      exact ⟨[], [], by simp [List.isEmpty_iff.mp hpat], rfl⟩
    case _ => exact absurd h (by simp)
  | cons c cs ih =>
    intro i h
    unfold findSubIdx at h
    split at h
    case _ hpre =>
      rcases Option.some.inj h with rfl
      obtain ⟨t, ht⟩ := List.isPrefixOf_iff_prefix.mp hpre
      exact ⟨[], t, by rw [← ht]; simp, rfl⟩
    case _ =>
      rcases Option.map_eq_some'.mp h with ⟨j, hj, rfl⟩
      obtain ⟨pre, post, hl, hlen⟩ := ih j hj
      exact ⟨c :: pre, post, by rw [hl]; simp, by simp [hlen]⟩

/-- Setting an element past a prefix sets inside the remainder. -/
theorem set_append_shift (pre rest : List Char) (k : Nat) (v : Char) :
    (pre ++ rest).set (pre.length + k) v = pre ++ rest.set k v := by
  induction pre with
  | nil => simp
  | cons a pre ih =>
    simp only [List.cons_append, List.length_cons]
    have h2 : pre.length + 1 + k = (pre.length + k) + 1 := by omega
    rw [h2]
    show a :: ((pre ++ rest).set (pre.length + k) v) = a :: (pre ++ rest.set k v)
    rw [ih]

/-- Overwriting offset 19 of a `ModifyDeviceFiles: 1` match turns it into
`ModifyDeviceFiles: 0` and touches nothing past it. -/
theorem modifyPat_set (post : List Char) :
    (modifyPat ++ post).set 19 '0' = "ModifyDeviceFiles: 0".data ++ post := rfl

/-- `patchParams` on content without the pattern is the identity
(this covers content already reading `ModifyDeviceFiles: 0`). -/
theorem patchParams_eq_of_none (s : String) (h : findSubIdx modifyPat s.data = none) :
    patchParams s = s := by
  unfold patchParams
  rw [h]

/-- `patchParams` on content holding the pattern replaces the first
occurrence with `ModifyDeviceFiles: 0` and is otherwise identical. -/
theorem patchParams_decompose (s : String) (i : Nat)
    (h : findSubIdx modifyPat s.data = some i) :
    ∃ pre post, s.data = pre ++ modifyPat ++ post ∧ pre.length = i
      ∧ (patchParams s).data = pre ++ "ModifyDeviceFiles: 0".data ++ post := by
  obtain ⟨pre, post, hl, hlen⟩ := findSubIdx_some_decompose modifyPat s.data i h
  refine ⟨pre, post, hl, hlen, ?_⟩
  unfold patchParams
  rw [h]
  show s.data.set (i + 19) '0' = pre ++ "ModifyDeviceFiles: 0".data ++ post
  rw [hl, ← hlen, List.append_assoc, List.append_assoc, set_append_shift, modifyPat_set]

/-- String append is associative. -/
theorem strAppend_assoc (a b c : String) : (a ++ b) ++ c = a ++ (b ++ c) := by
  apply String.ext
  simp [String.data_append]

/-- String append cancels on the left. -/
theorem strAppend_left_cancel {a b c : String} (h : a ++ b = a ++ c) : b = c := by
  have h2 := congrArg String.data h
  rw [String.data_append, String.data_append] at h2
  exact String.ext (List.append_cancel_left h2)

/-- A nonempty prefix makes a string strictly longer, so gluing a
nonempty rootfs in front of a path at least as long as `x` cannot give
`x`: container-resolved paths never collide with the host path they
resolve. -/
theorem append_ne_of_longer (rootfs x y : String) (hroot : rootfs ≠ "")
    (hxy : x.data.length ≤ y.data.length) : rootfs ++ y ≠ x := by
  intro h
  have hd := congrArg String.data h
  rw [String.data_append] at hd
  have hlen := congrArg List.length hd
  rw [List.length_append] at hlen
  have hr : rootfs.data.length = 0 := by omega
  have hnil : rootfs.data = [] := List.length_eq_zero.mp hr
  exact hroot (String.ext hnil)

/-- A container path built by `path_append` under a resolved directory is
the rootfs glued to a host-side suffix. -/
theorem pathAppend_resolve_shift (rootfs dir b : String) :
    pathAppend (pathResolve rootfs dir) b = rootfs ++ (dir ++ "/" ++ b) := by
  apply String.ext
  simp [pathAppend, pathResolve, String.data_append]

/-- Every event of the `mount_procfs` copy loop is the creation of the
container copy of an admitted (present) host file: at the
basename-derived path, carrying the host content, patched for the
`params` file. -/
theorem procfsLoop_creates (O : Oracle) (env : Env) (dpath : String) :
    ∀ (fs : List (Bool × String)) (c : Nat), ∀ e ∈ (procfsLoop O env dpath fs c).2.2,
      ∃ isP f content, (isP, f) ∈ fs ∧ env.host.files f = some content
        ∧ e = .fileCreate (pathAppend dpath (basename f))
            (some (if isP then patchParams content else content)) := by
  intro fs
  induction fs with
  | nil =>
    intro c e he
    simp [procfsLoop] at he
  | cons hd fs ih =>
    intro c e he
    obtain ⟨isP, f⟩ := hd
    unfold procfsLoop at he
    cases hf : env.host.files f with
    | none =>
      rw [hf] at he
      obtain ⟨isP2, f2, content, hmem, hcf, hev⟩ := ih (c + 1) e he
      exact ⟨isP2, f2, content, List.mem_cons_of_mem _ hmem, hcf, hev⟩
    | some content =>
      rw [hf] at he
      cases h0 : O c with
      | true => simp [h0] at he
      | false =>
      cases h1 : O (c + 1) with
      | true => simp [h0, h1] at he
      | false =>
      cases h2 : O (c + 2) with
      | true => simp [h0, h1, h2] at he
      | false =>
      cases h3 : O (c + 3) with
      | true => simp [h0, h1, h2, h3] at he
      | false =>
      rcases hrec : procfsLoop O env dpath fs (c + 4) with ⟨r, crest⟩
      rcases crest with ⟨c2, d⟩
      simp only [h0, h1, h2, h3, Bool.false_eq_true, if_false, hrec] at he
      rcases List.mem_append.mp he with he | he
      · rcases List.mem_singleton.mp he with rfl
        exact ⟨isP, f, content, List.mem_cons_self _ _, hf, rfl⟩
      · have he2 : e ∈ (procfsLoop O env dpath fs (c + 4)).2.2 := by
          rw [hrec]
          exact he
        obtain ⟨isP2, f2, content2, hmem, hcf, hev⟩ := ih (c + 4) e he2
        exact ⟨isP2, f2, content2, List.mem_cons_of_mem _ hmem, hcf, hev⟩

/-- Every file creation of `mount_procfs` comes from its copy loop: the
tmpfs mount, the final remount and the fail-path unmount contribute no
`fileCreate` event. -/
theorem mount_procfs_fileCreate_from_loop (O : Oracle) (env : Env) (cnt : NvcContainer)
    (c : Nat) (p : String) (oc : Option String)
    (h : Ev.fileCreate p oc ∈ (mount_procfs O env cnt c).2.2) :
    Ev.fileCreate p oc ∈ (procfsLoop O env (pathResolve cnt.cfg.rootfs NV_PROC_DRIVER)
      [(true, NV_PROC_DRIVER ++ "/params"), (false, NV_PROC_DRIVER ++ "/version"),
        (false, NV_PROC_DRIVER ++ "/registry")] (c + 2)).2.2 := by
  simp only [mount_procfs] at h
  split at h
  case _ => simp at h
  case _ =>
  split at h
  case _ => simp at h
  case _ =>
  split at h
  case _ c2 d heq =>
    simp only [List.append_assoc, List.mem_append] at h
    rcases h with h | h | h
    · simp at h
    · rw [heq]
      exact h
    · rcases mem_unmountEv h with ⟨q, hq⟩ | ⟨q, hq⟩ <;> exact absurd hq (by simp)
  case _ c2 d heq =>
    split at h
    case _ =>
      simp only [List.append_assoc, List.mem_append] at h
      rcases h with h | h | h
      · simp at h
      · rw [heq]
        exact h
      · rcases mem_unmountEv h with ⟨q, hq⟩ | ⟨q, hq⟩ <;> exact absurd hq (by simp)
    case _ =>
    split at h
    case _ =>
      simp only [List.append_assoc, List.mem_append] at h
      rcases h with h | h | h | h
      · simp at h
      · rw [heq]
        exact h
      · simp at h
      · rcases mem_unmountEv h with ⟨q, hq⟩ | ⟨q, hq⟩ <;> exact absurd hq (by simp)
    case _ =>
      simp only [List.append_assoc, List.mem_append] at h
      rcases h with h | h | h
      · simp at h
      · rw [heq]
        exact h
      · simp at h

/-- **C8**.  Params rewrite of `mount_procfs` (nvc_mount.c:231-249):
(1) content without a `ModifyDeviceFiles: 1` occurrence (in particular
content already reading `ModifyDeviceFiles: 0`) is copied unchanged;
(2) content with such an occurrence has its first occurrence replaced by
`ModifyDeviceFiles: 0` and is otherwise identical; (3) the copy that
`mount_procfs` writes at the container `params` path carries exactly the
patched host content; (4) every file `mount_procfs` creates lies under
the container rootfs, and (5) in particular, for a nonempty rootfs, the
host `params` file itself is never a write target. -/
theorem c8_params_copy_rewrite :
    (∀ s : String, findSubIdx modifyPat s.data = none → patchParams s = s)
    ∧ (∀ (s : String) (i : Nat), findSubIdx modifyPat s.data = some i →
        ∃ pre post, s.data = pre ++ modifyPat ++ post ∧ pre.length = i
          ∧ (patchParams s).data = pre ++ "ModifyDeviceFiles: 0".data ++ post)
    ∧ (∀ (O : Oracle) (env : Env) (cnt : NvcContainer) (c : Nat) (content : String)
        (oc : Option String),
        env.host.files (NV_PROC_DRIVER ++ "/params") = some content →
        Ev.fileCreate (pathAppend (pathResolve cnt.cfg.rootfs NV_PROC_DRIVER) "params") oc
          ∈ (mount_procfs O env cnt c).2.2 →
        oc = some (patchParams content))
    ∧ (∀ (O : Oracle) (env : Env) (cnt : NvcContainer) (c : Nat) (p : String)
        (oc : Option String),
        Ev.fileCreate p oc ∈ (mount_procfs O env cnt c).2.2 →
        ∃ s, p = cnt.cfg.rootfs ++ s)
    ∧ (∀ (O : Oracle) (env : Env) (cnt : NvcContainer) (c : Nat) (oc : Option String),
        cnt.cfg.rootfs ≠ "" →
        Ev.fileCreate (NV_PROC_DRIVER ++ "/params") oc ∉ (mount_procfs O env cnt c).2.2) := by
  refine ⟨patchParams_eq_of_none, patchParams_decompose, ?_, ?_, ?_⟩
  · intro O env cnt c content oc hcontent hmem
    have hloop := mount_procfs_fileCreate_from_loop O env cnt c _ oc hmem
    obtain ⟨isP, f, content2, hfm, hcf, hev⟩ :=
      procfsLoop_creates O env (pathResolve cnt.cfg.rootfs NV_PROC_DRIVER) _ (c + 2) _ hloop
    simp only [Ev.fileCreate.injEq] at hev
    obtain ⟨hpath, hoc⟩ := hev
    simp only [List.mem_cons, List.not_mem_nil, or_false, Prod.mk.injEq] at hfm
    rcases hfm with ⟨hisP, hf⟩ | ⟨hisP, hf⟩ | ⟨hisP, hf⟩
    · subst hisP
      subst hf
      rw [hcf] at hcontent
      have hcc := Option.some.inj hcontent
      subst hoc
      simp [hcc]
    · subst hf
      have hb : basename (NV_PROC_DRIVER ++ "/version") = "version" := rfl
      rw [hb] at hpath
      simp only [pathAppend] at hpath
      exact absurd (strAppend_left_cancel hpath) (by decide)
    · subst hf
      have hb : basename (NV_PROC_DRIVER ++ "/registry") = "registry" := rfl
      rw [hb] at hpath
      simp only [pathAppend] at hpath
      exact absurd (strAppend_left_cancel hpath) (by decide)
  · intro O env cnt c p oc hmem
    have hloop := mount_procfs_fileCreate_from_loop O env cnt c p oc hmem
    obtain ⟨isP, f, content, hfm, hcf, hev⟩ :=
      procfsLoop_creates O env (pathResolve cnt.cfg.rootfs NV_PROC_DRIVER) _ (c + 2) _ hloop
    simp only [Ev.fileCreate.injEq] at hev
    obtain ⟨hpath, -⟩ := hev
    exact ⟨NV_PROC_DRIVER ++ "/" ++ basename f, by rw [hpath, pathAppend_resolve_shift]⟩
  · intro O env cnt c oc hroot hmem
    have hloop := mount_procfs_fileCreate_from_loop O env cnt c _ oc hmem
    obtain ⟨isP, f, content, hfm, hcf, hev⟩ :=
      procfsLoop_creates O env (pathResolve cnt.cfg.rootfs NV_PROC_DRIVER) _ (c + 2) _ hloop
    simp only [Ev.fileCreate.injEq] at hev
    obtain ⟨hpath, -⟩ := hev
    rw [pathAppend_resolve_shift] at hpath
    simp only [List.mem_cons, List.not_mem_nil, or_false, Prod.mk.injEq] at hfm
    rcases hfm with ⟨-, hf⟩ | ⟨-, hf⟩ | ⟨-, hf⟩ <;> subst hf <;>
      exact append_ne_of_longer cnt.cfg.rootfs _ _ hroot (by decide) hpath.symm

/-- Witness for C8: the pure rewrite parts at concrete contents, and the
copy of a concrete `mount_procfs` run rewriting `ModifyDeviceFiles: 1`
while the host `params` path receives no write. -/
theorem c8_witness :
    patchParams "ModifyDeviceFiles: 0" = "ModifyDeviceFiles: 0"
    ∧ (∃ pre post, ("xx ModifyDeviceFiles: 1 yy" : String).data = pre ++ modifyPat ++ post
        ∧ pre.length = 3
        ∧ (patchParams "xx ModifyDeviceFiles: 1 yy").data
            = pre ++ "ModifyDeviceFiles: 0".data ++ post)
    ∧ some "a ModifyDeviceFiles: 0 b" = some (patchParams "a ModifyDeviceFiles: 1 b")
    ∧ Ev.fileCreate (NV_PROC_DRIVER ++ "/params") (some "a ModifyDeviceFiles: 0 b")
        ∉ (mount_procfs oracleNone paramsEnv (sampleCnt 0) 0).2.2 :=
  ⟨c8_params_copy_rewrite.1 "ModifyDeviceFiles: 0" rfl,
    c8_params_copy_rewrite.2.1 "xx ModifyDeviceFiles: 1 yy" 3 rfl,
    c8_params_copy_rewrite.2.2.1 oracleNone paramsEnv (sampleCnt 0) 0
      "a ModifyDeviceFiles: 1 b" (some "a ModifyDeviceFiles: 0 b") rfl (by decide),
    c8_params_copy_rewrite.2.2.2.2 oracleNone paramsEnv (sampleCnt 0) 0
      (some "a ModifyDeviceFiles: 0 b") (by decide)⟩
